import Mathlib

/-!
OWFS write pipeline (`module/owlib/src/c/ow_write.c`)

A shallow embedding of the write side of the One-Wire filesystem: the text
parsers of the format layer (`FS_input_*`), the four write strategies of the
aggregate engine (`FS_parse_write`, `FS_gamish`, `FS_w_all`, `FS_w_split`),
their dispatcher `FS_real_write`, the adapter walk `FS_write_seek` and the
entry points `FS_write_postparse` and `FS_write`; of the handlers of the
DS2890 potentiometer (`module/owlib/src/c/ow_2890.c`); and of the bus speed
setting `FS_w_overdrive` (`module/owlib/src/c/ow_system.c`).

Conventions of the embedding

* A `const char *` is a `Mem`: the bytes found at the pointer and behind it.
  Pointer arithmetic is arithmetic on offsets; `size` travels separately, as
  in the source, so a read behind the `size` bytes of the input is visible.
* `int` is `Int` and `unsigned int` is `Nat`; where the source narrows a
  `long` the wrap-around is written out (`to_int`, `to_uint`); `size_t` and
  `long` have 64 bits (LP64).
* Out-parameters (`int * result`) are passed in and returned.
* Every call that leaves `ow_write.c` (handlers, locks, caches, statistics
  counters, the path parser) appends an `Event` to a `Trace`; what such a call
  returns is a function of the trace before it, so a handler may answer
  differently on a second attempt.
* A dereference of a NULL `pn->ft`, `pn->ft->ag` or `pn->in` is `none`, and
  so is a `memchr` that runs off the memory of the process: the call does not
  return.
-/

namespace Owfs

/-! ## Bytes, C strings and the libc functions the parsers use -/

/-- The memory behind a `const char *`: the byte at each offset. -/
abbrev Mem := Nat → Char

/-- The NUL byte. -/
def NUL : Char := Char.ofNat 0

/-- The memory holding the bytes of `s` followed by NUL bytes. -/
def cmem (s : String) : Mem := fun i => s.toList.getD i NUL

/-- Pointer addition `p + k`. -/
def shift (p : Mem) (k : Nat) : Mem := fun i => p (k + i)

/-- The `n` bytes at `p`, as `memcpy` copies them. -/
def bytes (p : Mem) (n : Nat) : List Char := (List.range n).map p

/-- The C string held by a byte array that is followed by a NUL. -/
def cstr (l : List Char) : List Char := l.takeWhile (fun c => c != NUL)

/-- `tolower` in the C locale. -/
def tolower (c : Char) : Char := c.toLower

/-- `isspace` in the C locale. -/
def isspace (c : Char) : Bool :=
  c == ' ' || c == '\t' || c == '\n' || c == Char.ofNat 11 || c == Char.ofNat 12 || c == '\r'

/-- `isdigit`. -/
def isdigit (c : Char) : Bool := '0' ≤ c && c ≤ '9'

/-- `strncasecmp(s1, s2, n)`: compares at most `n` bytes, ignoring case, and
stops behind a NUL. -/
def strncasecmp (s1 s2 : Mem) : Nat → Int
  | 0 => 0
  | n + 1 =>
    let c1 := tolower (s1 0)
    let c2 := tolower (s2 0)
    if c1 ≠ c2 then (c1.toNat : Int) - (c2.toNat : Int)
    else if c1 = NUL then 0
    else strncasecmp (shift s1 1) (shift s2 1) n

/-- `memchr(p, c, n)` for a pointer at offset `p` of `buf`: the offset of the
first `c` among the `n` bytes from `p` on, read one after the other. -/
def memchr (buf : Mem) (c : Char) : Nat → Nat → Option Nat
  | _, 0 => none
  | p, n + 1 => if buf p = c then some p else memchr buf c (p + 1) n

/-- `(size_t) x` for a pointer difference `x`. -/
def to_size_t (x : Int) : Nat := (x % (2 ^ 64 : Int)).toNat

/-- `(int) x` for a `long x`. -/
def to_int (x : Int) : Int := (x + 2 ^ 31) % 2 ^ 32 - 2 ^ 31

/-- `(unsigned int) x` for an `unsigned long x`. -/
def to_uint (x : Nat) : Nat := x % 2 ^ 32

def LONG_MAX : Int := 2 ^ 63 - 1
def LONG_MIN : Int := -(2 ^ 63)
def ULONG_MAX : Nat := 2 ^ 64 - 1

def EPERM : Int := 1
def ENOENT : Int := 2
def ENOMEM : Int := 12
def EFAULT : Int := 14
def ENODEV : Int := 19
def EISDIR : Int := 21
def EINVAL : Int := 22
def EROFS : Int := 30
def ERANGE : Int := 34
def ENOSYS : Int := 38
def ENOTSUP : Int := 95
def EADDRNOTAVAIL : Int := 99
def ECONNABORTED : Int := 103

/-- The value of a run of decimal digits. -/
def digitsVal (ds : List Char) : Nat :=
  ds.foldl (fun acc c => 10 * acc + (c.toNat - '0'.toNat)) 0

/-- What `strtol`/`strtoul` hand back: the value, the offset of `end` from
the start of the string, and `errno`. -/
structure Strto (α : Type) where
  value : α
  endp : Nat
  errno : Int
deriving DecidableEq, Repr

/-- The subject sequence of `strtol`/`strtoul` in base 10: white space, an
optional sign, decimal digits. Gives the number of bytes before the digits,
whether a minus sign was read, and the digits. -/
def subject (cp : List Char) : Nat × Bool × List Char :=
  let ws := cp.takeWhile isspace
  let r := cp.dropWhile isspace
  match r with
  | '-' :: r1 => (ws.length + 1, true, r1.takeWhile isdigit)
  | '+' :: r1 => (ws.length + 1, false, r1.takeWhile isdigit)
  | _ => (ws.length, false, r.takeWhile isdigit)

/-- `strtol(cp, &end, 10)` with `errno` cleared beforehand. Without digits
nothing is converted and `end == cp`; out of range the result is clamped and
`errno` is `ERANGE`. -/
def strtol (cp : List Char) : Strto Int :=
  match subject cp with
  | (_, _, []) => ⟨0, 0, 0⟩
  | (k, neg, ds) =>
    let v : Int := if neg then -(digitsVal ds : Int) else (digitsVal ds : Int)
    if v > LONG_MAX then ⟨LONG_MAX, k + ds.length, ERANGE⟩
    else if v < LONG_MIN then ⟨LONG_MIN, k + ds.length, ERANGE⟩
    else ⟨v, k + ds.length, 0⟩

/-- `strtoul(cp, &end, 10)` with `errno` cleared beforehand. A minus sign
negates the value in `unsigned long`. -/
def strtoul (cp : List Char) : Strto Nat :=
  match subject cp with
  | (_, _, []) => ⟨0, 0, 0⟩
  | (k, neg, ds) =>
    let m := digitsVal ds
    if m > ULONG_MAX then ⟨ULONG_MAX, k + ds.length, ERANGE⟩
    else if neg then ⟨(2 ^ 64 - m) % 2 ^ 64, k + ds.length, 0⟩
    else ⟨m, k + ds.length, 0⟩

/-! ## Scalar parsers -/

/-- `FS_input_yesno(result, buf, size)`: returns 0 and stores 1 or 0, or
returns 1 and leaves `*result` alone. -/
def FS_input_yesno (result : Int) (buf : Mem) (size : Nat) : Int × Int :=
  if size ≠ 0 then
    if buf 0 = '1' ∨ strncasecmp (cmem "on") buf 2 = 0 ∨ strncasecmp (cmem "yes") buf 2 = 0 then
      (0, 1)
    else if buf 0 = '0' ∨ strncasecmp (cmem "off") buf 2 = 0 ∨ strncasecmp (cmem "no") buf 2 = 0 then
      (0, 0)
    else (1, result)
  else (1, result)

/-- `FS_input_integer(result, buf, size)`: copies `size` bytes, terminates
them, converts with `strtol`; `*result` is always overwritten. -/
def FS_input_integer (buf : Mem) (size : Nat) : Int × Int :=
  let r := strtol (cstr (bytes buf size))
  (if r.endp = 0 ∨ r.errno ≠ 0 then 1 else 0, to_int r.value)

/-- `FS_input_unsigned(result, buf, size)`, with `strtoul`. -/
def FS_input_unsigned (buf : Mem) (size : Nat) : Int × Nat :=
  let r := strtoul (cstr (bytes buf size))
  (if r.endp = 0 ∨ r.errno ≠ 0 then 1 else 0, to_uint r.value)

/-- A `FLOAT` (IEEE double), carried as its 64 bits; the arithmetic on it is
done by functions of the environment. -/
structure FLOAT where
  bits : Nat
deriving DecidableEq, Repr

/-! ## Array parsers

`elements` is `pn->ft->ag->elements`; `results` is the array of the caller.
`endp` and `next` are offsets from `buf`, signed because `end = buf + size - 1`
lies before `buf` for an empty input. A parser that does not return, because
its search for a comma leaves the memory of the process, is `none`. -/

/-- The statement `if ((next = memchr(first, ',', (size_t)(first-end+1))) ==
NULL) next = end`, which every array parser makes for the field at `first`:
the offset of `next` afterwards. The length handed to `memchr` is
`first - end + 1`: 1 or 0 when one or two bytes of the input are left at
`first`, and negative, so nearly `2^64` as a `size_t`, when more are left.
With such a length the search ends at a comma, in the input or behind it, or
else runs off the memory of the process: that fault is `none`. -/
def field_end (buf : Mem) (endp first : Int) : Option Int :=
  match memchr buf ',' first.toNat (to_size_t (first - endp + 1)) with
  | some q => some (q : Int)
  | none => if first - endp + 1 < 0 then none else some endp

/-- The loop of `FS_input_yesno_array` from index `i` on, `k` rounds. -/
def FS_input_yesno_array_loop (buf : Mem) (endp : Int) :
    Nat → Nat → Int → List Int → Option (List Int)
  | 0, _, _, results => some results
  | k + 1, i, next, results =>
    if next ≤ endp then
      let first := next
      match field_end buf endp first with
      | none => none
      | some next1 =>
        let r := FS_input_yesno (results.getD i 0) (shift buf first.toNat)
          (to_size_t (next1 - first))
        let results1 := if r.1 ≠ 0 then results.set i 0 else results.set i r.2
        FS_input_yesno_array_loop buf endp k (i + 1) (next1 + 1) results1
    else
      FS_input_yesno_array_loop buf endp k (i + 1) next (results.set i 0)

/-- `FS_input_yesno_array(results, buf, size, pn)`. -/
def FS_input_yesno_array (results : List Int) (buf : Mem) (size : Nat) (elements : Nat) :
    Option (Int × List Int) :=
  (FS_input_yesno_array_loop buf ((size : Int) - 1) elements 0 0 results).map
    (fun rs => (0, rs))

/-- The loop of `FS_input_integer_array` from index `i` on, `k` rounds. -/
def FS_input_integer_array_loop (buf : Mem) (endp : Int) :
    Nat → Nat → Int → List Int → Option (List Int)
  | 0, _, _, results => some results
  | k + 1, i, next, results =>
    if next ≤ endp then
      let first := next
      match field_end buf endp first with
      | none => none
      | some next1 =>
        let r := FS_input_integer (shift buf first.toNat) (to_size_t (next1 - first))
        let results1 := if r.1 ≠ 0 then results.set i 0 else results.set i r.2
        FS_input_integer_array_loop buf endp k (i + 1) (next1 + 1) results1
    else
      FS_input_integer_array_loop buf endp k (i + 1) next (results.set i 0)

/-- `FS_input_integer_array(results, buf, size, pn)`. -/
def FS_input_integer_array (results : List Int) (buf : Mem) (size : Nat) (elements : Nat) :
    Option (Int × List Int) :=
  (FS_input_integer_array_loop buf ((size : Int) - 1) elements 0 0 results).map
    (fun rs => (0, rs))

/-- The loop of `FS_input_unsigned_array` from index `i` on, `k` rounds. -/
def FS_input_unsigned_array_loop (buf : Mem) (endp : Int) :
    Nat → Nat → Int → List Nat → Option (List Nat)
  | 0, _, _, results => some results
  | k + 1, i, next, results =>
    if next ≤ endp then
      let first := next
      match field_end buf endp first with
      | none => none
      | some next1 =>
        let r := FS_input_unsigned (shift buf first.toNat) (to_size_t (next1 - first))
        let results1 := if r.1 ≠ 0 then results.set i 0 else results.set i r.2
        FS_input_unsigned_array_loop buf endp k (i + 1) (next1 + 1) results1
    else
      FS_input_unsigned_array_loop buf endp k (i + 1) next (results.set i 0)

/-- `FS_input_unsigned_array(results, buf, size, pn)`. -/
def FS_input_unsigned_array (results : List Nat) (buf : Mem) (size : Nat) (elements : Nat) :
    Option (Int × List Nat) :=
  (FS_input_unsigned_array_loop buf ((size : Int) - 1) elements 0 0 results).map
    (fun rs => (0, rs))

/-! ## Data model -/

/-- The formats of a property, as the `switch` statements name them. -/
inductive ft_format
  | ft_directory | ft_subdir | ft_integer | ft_unsigned | ft_float | ft_ascii
  | ft_binary | ft_yesno | ft_date | ft_bitfield | ft_temperature | ft_tempgap
deriving DecidableEq, Repr

/-- How the elements of an array property are stored. -/
inductive ag_combined
  | ag_separate | ag_aggregate | ag_mixed
deriving DecidableEq, Repr

/-- The `struct aggregate` of an array property. -/
structure aggregate where
  elements : Nat
  combined : ag_combined
deriving DecidableEq, Repr

/-- The namespace of a parsed path. -/
inductive pn_type
  | pn_real | pn_statistics | pn_system | pn_settings | pn_structure
deriving DecidableEq, Repr

/-- What `get_busmode` tells `FS_write_seek`: a remote bus or any other. -/
inductive bus_mode
  | bus_remote | bus_local
deriving DecidableEq, Repr

/-- One adapter of the inbound chain; a `struct connection_in *` is the list
of the adapter pointed at and those linked behind it by `next`, NULL is `[]`. -/
structure connection_in where
  index : Nat
  busmode : bus_mode
deriving DecidableEq, Repr

/-- A device descriptor, compared by identity. -/
structure device where
  name : String
deriving DecidableEq, Repr

/-- The pseudo-device `simultaneous`. -/
def DeviceSimultaneous : device := ⟨"simultaneous"⟩

/-- The value a handler is called with, by member of the handler union; for
`a` and `b` the bytes handed over and the offset. -/
inductive Val
  | i (v : List Int)
  | u (v : List Nat)
  | f (v : List FLOAT)
  | d (v : List Int)
  | y (v : List Int)
  | a (v : List Char) (offset : Int)
  | b (v : List Char) (offset : Int)
deriving DecidableEq, Repr

/-- The member of the handler union a read goes through. -/
inductive Member
  | i | u | f | d | y | a | b
deriving DecidableEq, Repr

/-- The statistics counters of the write path; each is updated under the
statistics mutex. -/
inductive Counter
  | write_calls
  | write_tries (i : Nat)
  | write_array
  | write_success
  | write_bytes (n : Nat)
deriving DecidableEq, Repr

/-- A call that leaves `ow_write.c`. Handler and cache calls carry the
extension of the parsed name they are made with, adapter calls the index of
the adapter. -/
inductive Event
  | FS_ParsedName (path : String)
  | FS_ParsedName_destroy
  | stat (c : Counter)
  | Cache_Get_Device
  | CheckPresence
  | Cache_Add_Device (index : Nat)
  | pthread_create
  | pthread_join
  | TestConnection (index : Nat)
  | ServerWrite (index : Nat) (data : List Char) (offset : Int)
  | LockGet (index : Nat)
  | LockRelease (index : Nat)
  | read (m : Member) (extension : Int)
  | write (v : Val) (extension : Int)
  | Cache_Add (text : List Char) (extension : Int)
  | Cache_Del (extension : Int)
deriving DecidableEq, Repr

/-- The calls made so far, oldest first. -/
abbrev Trace := List Event

/-- A non-NULL `read` union, member by member. A handler is given the trace
so far and the extension and returns its result and what it stored. -/
structure read_union where
  i : Trace → Int → Int × List Int
  u : Trace → Int → Int × List Nat
  f : Trace → Int → Int × List FLOAT
  d : Trace → Int → Int × List Int
  y : Trace → Int → Int × List Int
  a : Trace → Nat → Int → Int → Int × List Char
  b : Trace → Nat → Int → Int → Int × List Char

/-- A non-NULL `write` union, member by member. A handler is given the trace
so far, the value and the extension and returns its result. -/
structure write_union where
  i : Trace → List Int → Int → Int
  u : Trace → List Nat → Int → Int
  f : Trace → List FLOAT → Int → Int
  d : Trace → List Int → Int → Int
  y : Trace → List Int → Int → Int
  a : Trace → List Char → Int → Int → Int
  b : Trace → List Char → Int → Int → Int

/-- A `struct filetype`: the fields the write path reads. -/
structure filetype where
  suglen : Int
  ag : Option aggregate
  format : ft_format
  read : Option read_union
  write : Option write_union

/-- A `struct parsedname`: the fields the write path reads. `state_bus` is
`pn->state & pn_bus`; `in_` is `pn->in`. -/
structure parsedname where
  type : pn_type
  state_bus : Bool
  dev : Option device
  ft : Option filetype
  extension : Int
  in_ : List connection_in
  bus_nr : Int

/-- The allocations of the write path. -/
inductive AllocSite
  | cbuf | values | all
deriving DecidableEq, Repr

/-- What `ow_write.c` takes from the rest of the program and from libc: the
process-wide `readonly` flag, the build options, and every function it calls
without defining it. Functions with an effect answer from the trace so far. -/
structure Env where
  readonly : Bool
  OW_MT : Bool
  OW_CACHE : Bool
  FS_ParsedName : Trace → String → Option parsedname
  Cache_Get_Device : Trace → parsedname → Int × Int
  CheckPresence : Trace → parsedname → Int
  find_connection_in : Int → List connection_in
  TestConnection : Trace → parsedname → Int
  ServerWrite : Trace → List Char → Int → parsedname → Int
  LockGet : Trace → parsedname → Int
  pthread_create : Trace → Int
  pthread_join : Trace → Int
  alloc : Trace → AllocSite → Bool
  IsLocalCacheEnabled : parsedname → Bool
  FileLength : parsedname → Nat
  FullFileLength : parsedname → Nat
  FS_output_integer : Int → Nat → parsedname → List Char
  FS_output_unsigned : Nat → Nat → parsedname → List Char
  FS_output_float : FLOAT → Nat → parsedname → List Char
  FS_output_date : Int → Nat → parsedname → List Char
  FS_output_integer_array : List Int → Nat → parsedname → List Char
  FS_output_unsigned_array : List Nat → Nat → parsedname → List Char
  FS_output_float_array : List FLOAT → Nat → parsedname → List Char
  FS_output_date_array : List Int → Nat → parsedname → List Char
  strtod : List Char → Strto FLOAT
  fromTemperature : FLOAT → parsedname → FLOAT
  fromTempGap : FLOAT → parsedname → FLOAT
  time : Trace → Int
  strptime_mktime : Mem → Option Int
  UT_setbit : Nat → Int → Int → Nat

/-- `FS_input_float(result, buf, size)`, with `strtod`. -/
def FS_input_float (env : Env) (buf : Mem) (size : Nat) : Int × FLOAT :=
  let r := env.strtod (cstr (bytes buf size))
  (if r.endp = 0 ∨ r.errno ≠ 0 then 1 else 0, r.value)

/-- `FS_input_date(result, buf, size)`: an input of fewer than two bytes, or
one starting with NUL or a newline, stands for the present time; otherwise the
four `strptime` layouts are tried on the string at `buf`. -/
def FS_input_date (env : Env) (t : Trace) (result : Int) (buf : Mem) (size : Nat) : Int × Int :=
  if size < 2 ∨ buf 0 = NUL ∨ buf 0 = '\n' then (0, env.time t)
  else match env.strptime_mktime buf with
    | none => (-EINVAL, result)
    | some d => (0, d)

/-- The loop of `FS_input_float_array` from index `i` on, `k` rounds. -/
def FS_input_float_array_loop (env : Env) (buf : Mem) (endp : Int) :
    Nat → Nat → Int → List FLOAT → Option (List FLOAT)
  | 0, _, _, results => some results
  | k + 1, i, next, results =>
    if next ≤ endp then
      let first := next
      match field_end buf endp first with
      | none => none
      | some next1 =>
        let r := FS_input_float env (shift buf first.toNat) (to_size_t (next1 - first))
        let results1 := if r.1 ≠ 0 then results.set i ⟨0⟩ else results.set i r.2
        FS_input_float_array_loop env buf endp k (i + 1) (next1 + 1) results1
    else
      FS_input_float_array_loop env buf endp k (i + 1) next (results.set i ⟨0⟩)

/-- `FS_input_float_array(results, buf, size, pn)`. -/
def FS_input_float_array (env : Env) (results : List FLOAT) (buf : Mem) (size : Nat)
    (elements : Nat) : Option (Int × List FLOAT) :=
  (FS_input_float_array_loop env buf ((size : Int) - 1) elements 0 0 results).map
    (fun rs => (0, rs))

/-- The loop of `FS_input_date_array` from index `i` on, `k` rounds. -/
def FS_input_date_array_loop (env : Env) (t : Trace) (now : Int) (buf : Mem) (endp : Int) :
    Nat → Nat → Int → List Int → Option (List Int)
  | 0, _, _, results => some results
  | k + 1, i, next, results =>
    if next ≤ endp then
      let first := next
      match field_end buf endp first with
      | none => none
      | some next1 =>
        let r := FS_input_date env t (results.getD i 0) (shift buf first.toNat)
          (to_size_t (next1 - first))
        let results1 := if r.1 ≠ 0 then results.set i now else results.set i r.2
        FS_input_date_array_loop env t now buf endp k (i + 1) (next1 + 1) results1
    else
      FS_input_date_array_loop env t now buf endp k (i + 1) next (results.set i now)

/-- `FS_input_date_array(results, buf, size, pn)`. -/
def FS_input_date_array (env : Env) (t : Trace) (results : List Int) (buf : Mem) (size : Nat)
    (elements : Nat) : Option (Int × List Int) :=
  (FS_input_date_array_loop env t (env.time t) buf ((size : Int) - 1) elements 0 0 results).map
    (fun rs => (0, rs))

/-! ## Write strategies -/

/-- The array a handler leaves behind when it stores `out` from index 0 on
into `n` zeroed cells. -/
def stored {α : Type} (zero : α) (n : Nat) (out : List α) : List α :=
  (out ++ List.replicate n zero).take n

/-- `memcpy(&dst[pos], src, src.length)` within the bounds of `dst`. -/
def memcpy_at (dst : List Char) (pos : Nat) (src : List Char) : List Char :=
  (dst.take pos ++ src ++ dst.drop (pos + src.length)).take dst.length

/-- The block `Add to cache?` that ends a strategy: `cbuf` tells whether the
cache string buffer was allocated, `text` is what was put into it. -/
def cache_update (env : Env) (pn : parsedname) (cbuf : Bool) (text : List Char) (ret : Int)
    (t : Trace) : Trace :=
  if cbuf ∧ ret = 0 then t ++ [Event.Cache_Add (cstr text) pn.extension]
  else if env.IsLocalCacheEnabled pn then t ++ [Event.Cache_Del pn.extension]
  else t

/-- The `switch` of `FS_parse_write`: result, cache text, trace. -/
def FS_parse_write_switch (env : Env) (buf : Mem) (size : Nat) (offset : Int) (pn : parsedname)
    (ft : filetype) (fl : Nat) (cbuf : Bool) (t : Trace) : Option (Int × List Char × Trace) :=
  match ft.format with
  | .ft_integer =>
    if offset ≠ 0 then some (-EADDRNOTAVAIL, [], t)
    else
      let r := FS_input_integer buf size
      let text := if cbuf ∧ r.1 = 0 then env.FS_output_integer r.2 fl pn else []
      if r.1 ≠ 0 then some (1, text, t)
      else match ft.write with
        | none => none
        | some w =>
          some (if w.i t [r.2] pn.extension ≠ 0 then 1 else 0, text,
            t ++ [Event.write (Val.i [r.2]) pn.extension])
  | .ft_bitfield | .ft_unsigned =>
    if offset ≠ 0 then some (-EADDRNOTAVAIL, [], t)
    else
      let r := FS_input_unsigned buf size
      let text := if cbuf ∧ r.1 = 0 then env.FS_output_unsigned r.2 fl pn else []
      if r.1 ≠ 0 then some (1, text, t)
      else match ft.write with
        | none => none
        | some w =>
          some (if w.u t [r.2] pn.extension ≠ 0 then 1 else 0, text,
            t ++ [Event.write (Val.u [r.2]) pn.extension])
  | .ft_tempgap | .ft_float | .ft_temperature =>
    if offset ≠ 0 then some (-EADDRNOTAVAIL, [], t)
    else
      let r := FS_input_float env buf size
      let F := if ft.format = .ft_temperature then env.fromTemperature r.2 pn
        else if ft.format = .ft_tempgap then env.fromTempGap r.2 pn
        else r.2
      let text := if cbuf ∧ r.1 = 0 then env.FS_output_float F fl pn else []
      if r.1 ≠ 0 then some (1, text, t)
      else match ft.write with
        | none => none
        | some w =>
          some (if w.f t [F] pn.extension ≠ 0 then 1 else 0, text,
            t ++ [Event.write (Val.f [F]) pn.extension])
  | .ft_date =>
    if offset ≠ 0 then some (-EADDRNOTAVAIL, [], t)
    else
      let r := FS_input_date env t 0 buf size
      let text := if cbuf ∧ r.1 = 0 then env.FS_output_date r.2 fl pn else []
      if r.1 ≠ 0 then some (1, text, t)
      else match ft.write with
        | none => none
        | some w =>
          some (if w.d t [r.2] pn.extension ≠ 0 then 1 else 0, text,
            t ++ [Event.write (Val.d [r.2]) pn.extension])
  | .ft_yesno =>
    if offset ≠ 0 then some (-EADDRNOTAVAIL, [], t)
    else
      let r := FS_input_yesno 0 buf size
      let text := if cbuf ∧ r.1 = 0 then env.FS_output_integer r.2 fl pn else []
      if r.1 ≠ 0 then some (1, text, t)
      else match ft.write with
        | none => none
        | some w =>
          some (if w.y t [r.2] pn.extension ≠ 0 then 1 else 0, text,
            t ++ [Event.write (Val.y [r.2]) pn.extension])
  | .ft_ascii =>
    let s0 := to_size_t ((fl : Int) - offset)
    let s := if s0 > size then size else s0
    match ft.write with
    | none => none
    | some w =>
      let ret := w.a t (bytes buf s) offset pn.extension
      some (ret, if cbuf ∧ ret = 0 then bytes buf s else [],
        t ++ [Event.write (Val.a (bytes buf s) offset) pn.extension])
  | .ft_binary =>
    let s0 := to_size_t ((fl : Int) - offset)
    let s := if s0 > size then size else s0
    match ft.write with
    | none => none
    | some w =>
      let ret := w.b t (bytes buf s) offset pn.extension
      some (ret, if cbuf ∧ ret = 0 then bytes buf s else [],
        t ++ [Event.write (Val.b (bytes buf s) offset) pn.extension])
  | .ft_directory | .ft_subdir => some (-ENOSYS, [], t)

/-- `FS_parse_write(buf, size, offset, pn)`: write a single element. Returns
0 if ok. -/
def FS_parse_write (env : Env) (buf : Mem) (size : Nat) (offset : Int) (pn : parsedname)
    (t : Trace) : Option (Int × Trace) :=
  match pn.ft with
  | none => none
  | some ft =>
    let fl := env.FileLength pn
    let cbuf : Bool := env.OW_CACHE && env.IsLocalCacheEnabled pn && env.alloc t AllocSite.cbuf
    match FS_parse_write_switch env buf size offset pn ft fl cbuf t with
    | none => none
    | some (ret, text, t1) => some (ret, cache_update env pn cbuf text ret t1)

/-- The packing loop of `FS_gamish` for a bitfield:
`for (i = elements-1; i >= 0; --i) U = (U<<1) | (y[i]&0x01)`. -/
def pack_bits (y : List Int) : Nat :=
  y.foldr (fun yi U => to_uint (U * 2) ||| (yi % 2).toNat) 0

/-- The `switch` of `FS_gamish`: result, cache text, trace; `none` also when
the array parser does not return. -/
def FS_gamish_switch (env : Env) (buf : Mem) (size : Nat) (offset : Int) (pn : parsedname)
    (ft : filetype) (elements : Nat) (ffl : Nat) (cbuf : Bool) (t : Trace) :
    Option (Int × List Char × Trace) :=
  match ft.format with
  | .ft_integer =>
    if ¬ env.alloc t AllocSite.values then some (-ENOMEM, [], t)
    else
      match FS_input_integer_array (List.replicate elements 0) buf size elements with
      | none => none
      | some r =>
        if r.1 = 0 then
          match ft.write with
          | none => none
          | some w =>
            some (w.i t r.2 pn.extension,
              if cbuf then env.FS_output_integer_array r.2 ffl pn else [],
              t ++ [Event.write (Val.i r.2) pn.extension])
        else some (r.1, [], t)
  | .ft_unsigned =>
    if ¬ env.alloc t AllocSite.values then some (-ENOMEM, [], t)
    else
      match FS_input_unsigned_array (List.replicate elements 0) buf size elements with
      | none => none
      | some r =>
        if r.1 = 0 then
          match ft.write with
          | none => none
          | some w =>
            some (w.u t r.2 pn.extension,
              if cbuf then env.FS_output_unsigned_array r.2 ffl pn else [],
              t ++ [Event.write (Val.u r.2) pn.extension])
        else some (r.1, [], t)
  | .ft_tempgap | .ft_float | .ft_temperature =>
    if ¬ env.alloc t AllocSite.values then some (-ENOMEM, [], t)
    else
      match FS_input_float_array env (List.replicate elements ⟨0⟩) buf size elements with
      | none => none
      | some r =>
        if r.1 = 0 then
          let f :=
            if ft.format = .ft_temperature then r.2.map (fun x => env.fromTemperature x pn)
            else if ft.format = .ft_tempgap then r.2.map (fun x => env.fromTempGap x pn)
            else r.2
          match ft.write with
          | none => none
          | some w =>
            some (w.f t f pn.extension,
              if cbuf then env.FS_output_float_array f ffl pn else [],
              t ++ [Event.write (Val.f f) pn.extension])
        else some (r.1, [], t)
  | .ft_date =>
    if ¬ env.alloc t AllocSite.values then some (-ENOMEM, [], t)
    else
      match FS_input_date_array env t (List.replicate elements 0) buf size elements with
      | none => none
      | some r =>
        if r.1 = 0 then
          match ft.write with
          | none => none
          | some w =>
            some (w.d t r.2 pn.extension,
              if cbuf then env.FS_output_date_array r.2 ffl pn else [],
              t ++ [Event.write (Val.d r.2) pn.extension])
        else some (r.1, [], t)
  | .ft_yesno =>
    if ¬ env.alloc t AllocSite.values then some (-ENOMEM, [], t)
    else
      match FS_input_yesno_array (List.replicate elements 0) buf size elements with
      | none => none
      | some r =>
        if r.1 = 0 then
          match ft.write with
          | none => none
          | some w =>
            some (w.y t r.2 pn.extension,
              if cbuf then env.FS_output_integer_array r.2 ffl pn else [],
              t ++ [Event.write (Val.y r.2) pn.extension])
        else some (r.1, [], t)
  | .ft_bitfield =>
    if ¬ env.alloc t AllocSite.values then some (-ENOMEM, [], t)
    else
      match FS_input_yesno_array (List.replicate elements 0) buf size elements with
      | none => none
      | some r =>
        if r.1 = 0 then
          let U := pack_bits r.2
          match ft.write with
          | none => none
          | some w =>
            some (w.u t [U] pn.extension,
              if cbuf then env.FS_output_integer_array r.2 ffl pn else [],
              t ++ [Event.write (Val.u [U]) pn.extension])
        else some (r.1, [], t)
  | .ft_ascii =>
    if offset > (ffl : Int) then some (-ERANGE, [], t)
    else
      let s0 := to_size_t ((ffl : Int) - offset)
      let s := if s0 > size then size else s0
      match ft.write with
      | none => none
      | some w =>
        let ret := w.a t (bytes buf s) offset pn.extension
        some (ret, if cbuf ∧ ret = 0 then bytes buf s else [],
          t ++ [Event.write (Val.a (bytes buf s) offset) pn.extension])
  | .ft_binary =>
    if offset > (ffl : Int) then some (-ERANGE, [], t)
    else
      let s0 := to_size_t ((ffl : Int) - offset)
      let s := if s0 > size then size else s0
      match ft.write with
      | none => none
      | some w =>
        let ret := w.b t (bytes buf s) offset pn.extension
        some (ret, if cbuf ∧ ret = 0 then bytes buf s else [],
          t ++ [Event.write (Val.b (bytes buf s) offset) pn.extension])
  | .ft_directory | .ft_subdir => some (-ENOSYS, [], t)

/-- `FS_gamish(buf, size, offset, pn)`: write aggregate all. Returns 0 if ok. -/
def FS_gamish (env : Env) (buf : Mem) (size : Nat) (offset : Int) (pn : parsedname)
    (t : Trace) : Option (Int × Trace) :=
  match pn.ft with
  | none => none
  | some ft =>
    match ft.ag with
    | none => none
    | some ag =>
      let elements := ag.elements
      let ffl := env.FullFileLength pn
      let cbuf : Bool := env.OW_CACHE && env.IsLocalCacheEnabled pn && env.alloc t AllocSite.cbuf
      if offset ≠ 0 then some (-EADDRNOTAVAIL, t)
      else
        match FS_gamish_switch env buf size offset pn ft elements ffl cbuf t with
        | none => none
        | some (ret, text, t1) => some (ret, cache_update env pn cbuf text ret t1)

/-- The binary loop of `FS_w_all` from extension `ext` on, `k` rounds; `p`
is the offset of the read pointer from `buf`. -/
def FS_w_all_binary (env : Env) (buf : Mem) (pname : parsedname) (suglen : Int) :
    Nat → Int → Int → Nat → Trace → Option (Int × Trace)
  | 0, _, _, _, t => some (0, t)
  | k + 1, ext, p, left, t =>
    if to_int left < suglen then some (-ERANGE, t)
    else
      match FS_parse_write env (shift buf p.toNat) (to_size_t suglen) 0
          { pname with extension := ext } t with
      | none => none
      | some (r, t1) =>
        if r ≠ 0 then some (r, t1)
        else FS_w_all_binary env buf pname suglen k (ext + 1) (p + suglen)
          (to_size_t ((left : Int) - suglen)) t1

/-- The comma loop of `FS_w_all` from extension `ext` on, `k` rounds; `p` is
the offset of the read pointer from `buf`. -/
def FS_w_all_comma (env : Env) (buf : Mem) (size : Nat) (pname : parsedname) :
    Nat → Int → Nat → Nat → Trace → Option (Int × Trace)
  | 0, _, _, _, t => some (0, t)
  | k + 1, ext, p, left, t =>
    match memchr buf ',' p left with
    | none =>
      match FS_parse_write env (shift buf p) left 0 { pname with extension := ext } t with
      | none => none
      | some (r, t1) =>
        if r ≠ 0 then some (r, t1)
        else FS_w_all_comma env buf size pname k (ext + 1) size 0 t1
    | some c =>
      match FS_parse_write env (shift buf p) (to_size_t ((c : Int) - (p : Int))) 0
          { pname with extension := ext } t with
      | none => none
      | some (r, t1) =>
        if r ≠ 0 then some (r, t1)
        else FS_w_all_comma env buf size pname k (ext + 1) (c + 1)
          (to_size_t ((size : Int) - ((0 : Int) - ((c + 1 : Nat) : Int)))) t1

/-- `FS_w_all(buf, size, offset, pn)`: non-combined input field, treated as
several separate transactions. Returns 0 if ok. -/
def FS_w_all (env : Env) (buf : Mem) (size : Nat) (offset : Int) (pn : parsedname)
    (t : Trace) : Option (Int × Trace) :=
  let t0 := t ++ [Event.stat Counter.write_array]
  if offset ≠ 0 then some (-ERANGE, t0)
  else
    match pn.ft with
    | none => none
    | some ft =>
      if ft.format = .ft_binary then
        match ft.ag with
        | none => none
        | some ag => FS_w_all_binary env buf pn ft.suglen ag.elements 0 0 size t0
      else
        match ft.ag with
        | none => none
        | some ag => FS_w_all_comma env buf size pn ag.elements 0 0 size t0

/-- The `switch` of `FS_w_split`: either an immediate return (`Sum.inl`) or
the result, the cache text and the trace (`Sum.inr`). -/
def FS_w_split_switch (env : Env) (buf : Mem) (size : Nat) (offset : Int) (pn : parsedname)
    (ft : filetype) (rd : read_union) (elements : Nat) (ffl : Nat) (cbuf : Bool) (t : Trace) :
    Option (Sum (Int × Trace) (Int × List Char × Trace)) :=
  let ext := pn.extension
  let t1 := fun (m : Member) => t ++ [Event.read m ext]
  match ft.format with
  | .ft_yesno =>
    if offset ≠ 0 then some (.inr (-EADDRNOTAVAIL, [], t))
    else if ¬ env.alloc t AllocSite.values then some (.inr (-ENOMEM, [], t))
    else
      let r := rd.y t ext
      let y := stored 0 elements r.2
      if r.1 < 0 then some (.inr (1, [], t1 .y))
      else
        let q := FS_input_yesno (y.getD ext.toNat 0) buf size
        let y1 := y.set ext.toNat q.2
        if q.1 ≠ 0 then some (.inr (1, [], t1 .y))
        else match ft.write with
          | none => none
          | some w =>
            let wr := w.y (t1 .y) y1 ext
            some (.inr (if wr ≠ 0 then 1 else 0,
              if cbuf ∧ wr = 0 then env.FS_output_integer_array y1 ffl pn else [],
              t1 .y ++ [Event.write (Val.y y1) ext]))
  | .ft_integer =>
    if offset ≠ 0 then some (.inr (-EADDRNOTAVAIL, [], t))
    else if ¬ env.alloc t AllocSite.values then some (.inr (-ENOMEM, [], t))
    else
      let r := rd.i t ext
      let i := stored 0 elements r.2
      if r.1 < 0 then some (.inr (1, [], t1 .i))
      else
        let q := FS_input_integer buf size
        let i1 := i.set ext.toNat q.2
        if q.1 ≠ 0 then some (.inr (1, [], t1 .i))
        else match ft.write with
          | none => none
          | some w =>
            let wr := w.i (t1 .i) i1 ext
            some (.inr (if wr ≠ 0 then 1 else 0,
              if cbuf ∧ wr = 0 then env.FS_output_integer_array i1 ffl pn else [],
              t1 .i ++ [Event.write (Val.i i1) ext]))
  | .ft_unsigned =>
    if offset ≠ 0 then some (.inr (-EADDRNOTAVAIL, [], t))
    else if ¬ env.alloc t AllocSite.values then some (.inr (-ENOMEM, [], t))
    else
      let r := rd.u t ext
      let u := stored 0 elements r.2
      if r.1 < 0 then some (.inr (1, [], t1 .u))
      else
        let q := FS_input_unsigned buf size
        let u1 := u.set ext.toNat q.2
        if q.1 ≠ 0 then some (.inr (1, [], t1 .u))
        else match ft.write with
          | none => none
          | some w =>
            let wr := w.u (t1 .u) u1 ext
            some (.inr (if wr ≠ 0 then 1 else 0,
              if cbuf ∧ wr = 0 then env.FS_output_unsigned_array u1 ffl pn else [],
              t1 .u ++ [Event.write (Val.u u1) ext]))
  | .ft_bitfield =>
    if offset ≠ 0 then some (.inr (-EADDRNOTAVAIL, [], t))
    else
      let r := rd.u t ext
      let U := (stored 0 1 r.2).getD 0 0
      if r.1 < 0 then some (.inr (1, [], t1 .u))
      else
        let q := FS_input_unsigned buf size
        if q.1 ≠ 0 then some (.inr (1, [], t1 .u))
        else
          let U1 := env.UT_setbit U ext (to_int q.2)
          match ft.write with
          | none => none
          | some w =>
            let wr := w.u (t1 .u) [U1] ext
            some (.inr (wr, if cbuf ∧ wr = 0 then env.FS_output_unsigned U1 ffl pn else [],
              t1 .u ++ [Event.write (Val.u [U1]) ext]))
  | .ft_tempgap | .ft_float =>
    if offset ≠ 0 then some (.inr (-EADDRNOTAVAIL, [], t))
    else if ¬ env.alloc t AllocSite.values then some (.inr (-ENOMEM, [], t))
    else
      let r := rd.f t ext
      let f := stored ⟨0⟩ elements r.2
      if r.1 < 0 then some (.inr (1, [], t1 .f))
      else
        let q := FS_input_float env buf size
        let f1 := f.set ext.toNat q.2
        if q.1 ≠ 0 then some (.inr (1, [], t1 .f))
        else match ft.write with
          | none => none
          | some w =>
            let wr := w.f (t1 .f) f1 ext
            some (.inr (if wr ≠ 0 then 1 else 0,
              if cbuf ∧ wr = 0 then env.FS_output_float_array f1 ffl pn else [],
              t1 .f ++ [Event.write (Val.f f1) ext]))
  | .ft_temperature =>
    if offset ≠ 0 then some (.inr (-EADDRNOTAVAIL, [], t))
    else if ¬ env.alloc t AllocSite.values then some (.inr (-ENOMEM, [], t))
    else
      let r := rd.f t ext
      let f := stored ⟨0⟩ elements r.2
      if r.1 < 0 then some (.inr (1, [], t1 .f))
      else
        let q := FS_input_float env buf size
        if q.1 ≠ 0 then some (.inr (q.1, [], t1 .f))
        else
          let f1 := f.set ext.toNat (env.fromTemperature q.2 pn)
          match ft.write with
          | none => none
          | some w =>
            let wr := w.f (t1 .f) f1 ext
            some (.inr (wr, if cbuf ∧ wr = 0 then env.FS_output_float_array f1 ffl pn else [],
              t1 .f ++ [Event.write (Val.f f1) ext]))
  | .ft_date =>
    if offset ≠ 0 then some (.inr (-EADDRNOTAVAIL, [], t))
    else if ¬ env.alloc t AllocSite.values then some (.inr (-ENOMEM, [], t))
    else
      let r := rd.d t ext
      let d := stored 0 elements r.2
      if r.1 < 0 then some (.inr (1, [], t1 .d))
      else
        let q := FS_input_date env (t1 .d) (d.getD ext.toNat 0) buf size
        let d1 := d.set ext.toNat q.2
        if q.1 ≠ 0 then some (.inr (1, [], t1 .d))
        else match ft.write with
          | none => none
          | some w =>
            let wr := w.d (t1 .d) d1 ext
            some (.inr (if wr ≠ 0 then 1 else 0,
              if cbuf ∧ wr = 0 then env.FS_output_date_array d1 ffl pn else [],
              t1 .d ++ [Event.write (Val.d d1) ext]))
  | .ft_binary =>
    let suglen := ft.suglen
    if offset > suglen then some (.inr (-ERANGE, [], t))
    else
      let s0 := to_size_t (suglen - offset)
      let s := if s0 > size then size else s0
      if ¬ env.alloc t AllocSite.all then some (.inr (-ENOMEM, [], t))
      else
        let r := rd.b t ffl 0 ext
        let all := stored NUL ffl r.2
        if r.1 = 0 then
          let all1 := memcpy_at all (suglen * ext + offset).toNat (bytes buf s)
          match ft.write with
          | none => none
          | some w =>
            let wr := w.b (t1 .b) all1 0 ext
            some (.inr (wr, if cbuf ∧ wr = 0 then all1 else [],
              t1 .b ++ [Event.write (Val.b all1 0) ext]))
        else some (.inr (r.1, [], t1 .b))
  | .ft_ascii =>
    if offset ≠ 0 then some (.inl (-EADDRNOTAVAIL, t))
    else
      let suglen := ft.suglen
      let s0 := to_size_t suglen
      let s := if s0 > size then size else s0
      if ¬ env.alloc t AllocSite.all then some (.inr (-ENOMEM, [], t))
      else
        let r := rd.a t ffl 0 ext
        let all := stored NUL ffl r.2
        if r.1 = 0 then
          let all1 := memcpy_at all ((suglen + 1) * ext).toNat (bytes buf s)
          match ft.write with
          | none => none
          | some w =>
            let wr := w.a (t1 .a) all1 0 ext
            some (.inr (wr, if cbuf ∧ wr = 0 then all1 else [],
              t1 .a ++ [Event.write (Val.a all1 0) ext]))
        else some (.inr (r.1, [], t1 .a))
  | .ft_directory | .ft_subdir => some (.inr (-ENOSYS, [], t))

/-- `FS_w_split(buf, size, offset, pn)`: combined field, so read all, change
the relevant field, and write back. Returns 0 if ok. -/
def FS_w_split (env : Env) (buf : Mem) (size : Nat) (offset : Int) (pn : parsedname)
    (t : Trace) : Option (Int × Trace) :=
  match pn.ft with
  | none => none
  | some ft =>
    match ft.ag with
    | none => none
    | some ag =>
      let elements := ag.elements
      let ffl := env.FullFileLength pn
      match ft.read with
      | none => some (-EFAULT, t)
      | some rd =>
        let cbuf : Bool := env.OW_CACHE && env.alloc t AllocSite.cbuf
        match FS_w_split_switch env buf size offset pn ft rd elements ffl cbuf t with
        | none => none
        | some (.inl r) => some r
        | some (.inr (ret, text, t1)) =>
          some (if ret ≠ 0 then -EINVAL else 0, cache_update env pn cbuf text ret t1)

/-- The loop `write individual entries` of `FS_real_write` from attempt `i`
on, `k` rounds, `r` being the result so far. -/
def FS_real_write_tries (env : Env) (buf : Mem) (size : Nat) (offset : Int) (pn : parsedname) :
    Nat → Nat → Int → Trace → Option (Int × Trace)
  | 0, _, r, t => some (r, t)
  | k + 1, i, _, t =>
    match FS_parse_write env buf size offset pn (t ++ [Event.stat (Counter.write_tries i)]) with
    | none => none
    | some (r, t1) =>
      if r = 0 then some (r, t1)
      else FS_real_write_tries env buf size offset pn k (i + 1) r t1

/-- `FS_real_write(buf, size, offset, pn)`: picks the write strategy. Returns
0 if ok. -/
def FS_real_write (env : Env) (buf : Mem) (size : Nat) (offset : Int) (pn : parsedname)
    (t : Trace) : Option (Int × Trace) :=
  match pn.ft with
  | none => none
  | some ft =>
    if ft.write.isNone then some (-ENOTSUP, t)
    else
      match ft.ag with
      | some ag =>
        match ag.combined with
        | .ag_aggregate =>
          if pn.extension > -1 then FS_w_split env buf size offset pn t
          else if pn.extension = -1 then FS_gamish env buf size offset pn t
          else FS_real_write_tries env buf size offset pn 3 0 0 t
        | .ag_mixed =>
          if pn.extension = -1 then FS_gamish env buf size offset pn t
          else FS_real_write_tries env buf size offset pn 3 0 0 t
        | .ag_separate =>
          if pn.extension = -1 then FS_w_all env buf size offset pn t
          else FS_real_write_tries env buf size offset pn 3 0 0 t
      | none => FS_real_write_tries env buf size offset pn 3 0 0 t

/-! ## Adapter walk and entry points -/

/-- The part of `FS_write_seek` that both builds share, for the adapter `i`
followed by `next`: test the connection, then write remotely or, under the
device lock, locally. `Sum.inl` is the immediate `return -EROFS`, `Sum.inr`
the value of `ret`. -/
def FS_write_seek_adapter (env : Env) (buf : Mem) (size : Nat) (offset : Int) (pn : parsedname)
    (i : connection_in) (next : List connection_in) (t : Trace) :
    Option (Sum (Int × Trace) (Int × Trace)) :=
  let pn2 : parsedname := { pn with in_ := i :: next }
  let t1 := t ++ [Event.TestConnection i.index]
  if env.TestConnection t pn2 ≠ 0 then some (.inr (-ECONNABORTED, t1))
  else if i.busmode = .bus_remote then
    some (.inr (env.ServerWrite t1 (bytes buf size) offset pn2,
      t1 ++ [Event.ServerWrite i.index (bytes buf size) offset]))
  else if env.readonly then some (.inl (-EROFS, t1))
  else
    let t2 := t1 ++ [Event.LockGet i.index]
    let ret := env.LockGet t1 pn2
    if ret = 0 then
      match FS_real_write env buf size offset pn2 t2 with
      | none => none
      | some (r, t3) => some (.inr (r, t3 ++ [Event.LockRelease i.index]))
    else some (.inr (ret, t2))

/-- `FS_write_seek(buf, size, offset, in, pn)`: go through the adapters from
`in` on. Without `OW_MT` the next adapter is tried when this one failed. With
`OW_MT` a thread is created for the next adapter unless the name is bound to
a bus; of its interleavings the one modelled runs the thread to its end
before this adapter is addressed. Returns 0 if ok. -/
def FS_write_seek (env : Env) (buf : Mem) (size : Nat) (offset : Int) (pn : parsedname) :
    List connection_in → Trace → Option (Int × Trace)
  | [], _ => none
  | i :: next, t =>
    if env.OW_MT then
      let tried : Bool := !pn.state_bus && !next.isEmpty
      let created : Bool := tried && env.pthread_create t = 0
      let t0 := if tried then t ++ [Event.pthread_create] else t
      let wss : Option (Int × Trace) :=
        if created then FS_write_seek env buf size offset pn next t0 else some (0, t0)
      match wss with
      | none => none
      | some (wss_ret, tw) =>
        match FS_write_seek_adapter env buf size offset pn i next tw with
        | none => none
        | some (.inl r) => some r
        | some (.inr (ret, t1)) =>
          let t2 := if pn.type = .pn_real ∧ ret = 0 then t1 ++ [Event.Cache_Add_Device i.index]
            else t1
          if created then
            if env.pthread_join t2 ≠ 0 then some (ret, t2 ++ [Event.pthread_join])
            else if wss_ret = 0 then some (0, t2 ++ [Event.pthread_join])
            else some (ret, t2 ++ [Event.pthread_join])
          else some (ret, t2)
    else
      match FS_write_seek_adapter env buf size offset pn i next t with
      | none => none
      | some (.inl r) => some r
      | some (.inr (ret, t1)) =>
        let t2 := if pn.type = .pn_real ∧ ret = 0 then t1 ++ [Event.Cache_Add_Device i.index]
          else t1
        if ret ≠ 0 ∧ next ≠ [] then FS_write_seek env buf size offset pn next t2
        else some (ret, t2)

/-- `FS_write_postparse(buf, size, offset, pn)`: returns `size` if ok, else
the result of the write. -/
def FS_write_postparse (env : Env) (buf : Mem) (size : Nat) (offset : Int) (pn : parsedname)
    (t : Trace) : Option (Int × Trace) :=
  let t0 := t ++ [Event.stat Counter.write_calls]
  if env.readonly then some (-EROFS, t0)
  else
    let r : Option (Int × Trace) :=
      match pn.type with
      | .pn_structure => some (-ENOTSUP, t0)
      | .pn_system | .pn_settings | .pn_statistics =>
        if pn.state_bus then FS_write_seek env buf size offset pn pn.in_ t0
        else FS_real_write env buf size offset pn t0
      | .pn_real =>
        if pn.dev = some DeviceSimultaneous then FS_write_seek env buf size offset pn pn.in_ t0
        else if ¬ pn.state_bus then
          let cg := env.Cache_Get_Device t0 pn
          let t1 := t0 ++ [Event.Cache_Get_Device]
          let bus_nr : Int := if cg.1 ≠ 0 then env.CheckPresence t1 pn else cg.2
          let t2 := if cg.1 ≠ 0 then t1 ++ [Event.CheckPresence] else t1
          if bus_nr ≥ 0 then
            let pn2 : parsedname :=
              { pn with in_ := env.find_connection_in bus_nr, state_bus := true, bus_nr := bus_nr }
            FS_write_seek env buf size offset pn2 pn2.in_ t2
          else some (-ENOENT, t2)
        else FS_write_seek env buf size offset pn pn.in_ t0
    match r with
    | none => none
    | some (r, t3) =>
      if r = 0 then
        some (to_int size,
          t3 ++ [Event.stat Counter.write_success, Event.stat (Counter.write_bytes size)])
      else some (r, t3)

/-- `FS_write(path, buf, size, offset)`: returns `size` if ok, else the
result of the checks or of `FS_write_postparse`. -/
def FS_write (env : Env) (path : String) (buf : Mem) (size : Nat) (offset : Int) (t : Trace) :
    Option (Int × Trace) :=
  if env.readonly then some (-EROFS, t)
  else
    let t1 := t ++ [Event.FS_ParsedName path]
    let r : Option (Int × Trace) :=
      match env.FS_ParsedName t path with
      | none => some (-ENOENT, t1)
      | some pn =>
        if pn.dev = none ∨ pn.ft.isNone then some (-EISDIR, t1)
        else if pn.type = .pn_structure then some (-ENOTSUP, t1)
        else if pn.in_ = [] then some (-ENODEV, t1)
        else FS_write_postparse env buf size offset pn t1
    match r with
    | none => none
    | some (r, t2) => some (r, t2 ++ [Event.FS_ParsedName_destroy])

/-! ## A concrete installation

One local adapter, no cache, every collaborator succeeding; the handlers of
the sample properties accept every value, and the bulk read of the sample
array property returns `10, 20, 30`. -/

/-- A read union whose bulk reads return `10, 20, 30`. -/
def sample_read : read_union where
  i := fun _ _ => (0, [10, 20, 30])
  u := fun _ _ => (0, [10, 20, 30])
  f := fun _ _ => (0, [])
  d := fun _ _ => (0, [10, 20, 30])
  y := fun _ _ => (0, [1, 0, 1])
  a := fun _ _ _ _ => (0, [])
  b := fun _ _ _ _ => (0, [])

/-- A write union that accepts every value. -/
def sample_write : write_union where
  i := fun _ _ _ => 0
  u := fun _ _ _ => 0
  f := fun _ _ _ => 0
  d := fun _ _ _ => 0
  y := fun _ _ _ => 0
  a := fun _ _ _ _ => 0
  b := fun _ _ _ _ => 0

/-- The only adapter of the sample installation. -/
def sample_adapter : connection_in := ⟨0, .bus_local⟩

/-- A property of the given format and aggregate with both handlers. -/
def sample_ft (format : ft_format) (ag : Option aggregate) : filetype :=
  { suglen := 12, ag := ag, format := format, read := some sample_read,
    write := some sample_write }

/-- A parsed name bound to the sample adapter. -/
def sample_pn (type : pn_type) (ft : filetype) (extension : Int) : parsedname :=
  { type := type, state_bus := true, dev := some ⟨"DS18B20"⟩, ft := some ft,
    extension := extension, in_ := [sample_adapter], bus_nr := 0 }

/-- The sample installation; `parse` is its path parser. -/
def sample_env (readonly : Bool) (parse : String → Option parsedname) : Env where
  readonly := readonly
  OW_MT := false
  OW_CACHE := false
  FS_ParsedName := fun _ path => parse path
  Cache_Get_Device := fun _ _ => (0, 0)
  CheckPresence := fun _ _ => 0
  find_connection_in := fun _ => [sample_adapter]
  TestConnection := fun _ _ => 0
  ServerWrite := fun _ _ _ _ => 0
  LockGet := fun _ _ => 0
  pthread_create := fun _ => 0
  pthread_join := fun _ => 0
  alloc := fun _ _ => true
  IsLocalCacheEnabled := fun _ => false
  FileLength := fun _ => 12
  FullFileLength := fun _ => 38
  FS_output_integer := fun _ _ _ => []
  FS_output_unsigned := fun _ _ _ => []
  FS_output_float := fun _ _ _ => []
  FS_output_date := fun _ _ _ => []
  FS_output_integer_array := fun _ _ _ => []
  FS_output_unsigned_array := fun _ _ _ => []
  FS_output_float_array := fun _ _ _ => []
  FS_output_date_array := fun _ _ _ => []
  strtod := fun _ => ⟨⟨0⟩, 0, 0⟩
  fromTemperature := fun x _ => x
  fromTempGap := fun x _ => x
  time := fun _ => 0
  strptime_mktime := fun _ => none
  UT_setbit := fun U _ _ => U

/-- A path parser that knows one path. -/
def parse_one (path : String) (pn : parsedname) : String → Option parsedname :=
  fun p => if p = path then some pn else none

/-- The spec's reading of the yes/no words: the whole input is, ignoring
case, one of `0`, `1`, `no`, `yes`, `off`, `on`. -/
def yesno_word (input : List Char) : Bool :=
  decide (input.map tolower ∈ ["0", "1", "no", "yes", "off", "on"].map String.toList)

/-- The `size`-byte input at `buf` begins, ignoring case, with the word `w`. -/
def begins_with (buf : Mem) (size : Nat) (w : List Char) : Prop :=
  w.length ≤ size ∧ (bytes buf w.length).map tolower = w

/-- The formats that are neither binary nor ascii and carry a value. -/
def numeric_format (f : ft_format) : Bool :=
  f = .ft_integer || f = .ft_unsigned || f = .ft_bitfield || f = .ft_yesno || f = .ft_float
    || f = .ft_temperature || f = .ft_tempgap || f = .ft_date

/-- A call of a property handler. -/
def Event.is_handler_call : Event → Bool
  | .read _ _ => true
  | .write _ _ => true
  | _ => false

/-- Sample properties and paths of the statements below. -/
def counter_pn : parsedname := sample_pn .pn_real (sample_ft .ft_unsigned none) 0

def counter_path : String := "/bus.0/1D.000000000000/counter"

def separate_pn : parsedname :=
  sample_pn .pn_real (sample_ft .ft_integer (some ⟨2, .ag_separate⟩)) (-1)

def aggregate_pn (format : ft_format) (extension : Int) : parsedname :=
  sample_pn .pn_real (sample_ft format (some ⟨3, .ag_aggregate⟩)) extension

def structure_pn : parsedname := sample_pn .pn_structure (sample_ft .ft_unsigned none) 0

def structure_path : String := "/structure/1D/counter"

def readonly_pn : parsedname :=
  sample_pn .pn_real { sample_ft .ft_unsigned none with write := none } 0

/-! ## Renderings, after the spec -/

/-- The character of a decimal digit. -/
def digitChar (d : Nat) : Char := Char.ofNat ('0'.toNat + d)

/-- Decimal rendering of an unsigned value, most significant digit first,
without leading zeros (the spec's `render` for `unsigned`). -/
def render_unsigned (u : Nat) : List Char :=
  if u = 0 then ['0'] else (Nat.digits 10 u).reverse.map digitChar

/-- Signed decimal rendering without leading zeros (the spec's `render` for
`integer`). -/
def render_integer (v : Int) : List Char :=
  if v < 0 then '-' :: render_unsigned v.natAbs else render_unsigned v.toNat

/-- Modelled from the spec: the rendering of a yes/no value, which the format
table of the spec gives as `0` or `1`; the function that renders a value read
is not part of the source here. A value is yes when it is not 0, which is how
the source tests one (`(val) ? 0x4C : 0x0C` in `OW_w_cp`). -/
def render_yesno (y : Int) : List Char := if y ≠ 0 then ['1'] else ['0']

/-- The value the spec gives a bitfield: the sum over `i` of `(y_i & 1) << i`. -/
def bits_sum (y : List Int) : Nat :=
  ∑ i in Finset.range y.length, ((y.getD i 0) % 2).toNat * 2 ^ i

/-- The yes/no values an ALL write of `elements` elements parses from the
text, when the parser returns. -/
def parsed_yesno (buf : Mem) (size : Nat) (elements : Nat) : Option (List Int) :=
  (FS_input_yesno_array (List.replicate elements 0) buf size elements).map Prod.snd

/-- A bitfield property of eight elements stored as one aggregate. -/
def bitfield_pn (extension : Int) : parsedname :=
  sample_pn .pn_real (sample_ft .ft_bitfield (some ⟨8, .ag_aggregate⟩)) extension

/-! ## DS2890 digital potentiometer (`module/owlib/src/c/ow_2890.c`) -/

/-- One entry of a `struct transaction_log` array: `TRXN_START` and
`TRXN_END` open and close the transaction, a `trxn_match` entry sends the
bytes of `out`, a `trxn_read` entry reads `size` bytes. -/
inductive transaction_log
  | TRXN_START
  | trxn_match (out : List Nat)
  | trxn_read (size : Nat)
  | TRXN_END
deriving DecidableEq, Repr

/-- `BUS_transaction(t, pn)`, which `ow_2890.c` calls without defining it:
its result and the bytes it stores into the read buffer. -/
abbrev Bus := List transaction_log → Int × List Nat

/-- `(BYTE) x`. -/
def to_byte (x : Nat) : Nat := x % 256

/-- `resp[0]` after the transaction. -/
def resp0 (r : Int × List Nat) : Nat := (stored 0 1 (r.2.map to_byte)).getD 0 0

/-- `OW_w_wiper(val, pn)`: its result and the transaction it issues. -/
def OW_w_wiper (bus : Bus) (val : Nat) : Int × List transaction_log :=
  let cmd := [0x0F, to_byte val]
  let ns := [0x96]
  let t := [transaction_log.TRXN_START, .trxn_match cmd, .trxn_read 1, .trxn_match ns,
    .TRXN_END]
  (if (bus t).1 ≠ 0 ∨ resp0 (bus t) ≠ val then 1 else 0, t)

/-- `FS_w_wiper(owq)`, `U` being `OWQ_U(owq)`: its result and the
transaction it issues. -/
def FS_w_wiper (bus : Bus) (U : Nat) : Int × List transaction_log :=
  let num := if U > 255 then 255 else U
  let r := OW_w_wiper bus num
  (if r.1 ≠ 0 then -EINVAL else 0, r.2)

/-- `OW_w_cp(val, pn)`: its result and the transaction it issues. -/
def OW_w_cp (bus : Bus) (val : Int) : Int × List transaction_log :=
  let cmd := [0x55, if val ≠ 0 then 0x4C else 0x0C]
  let ns := [0x96]
  let t := [transaction_log.TRXN_START, .trxn_match cmd, .trxn_read 1, .trxn_match ns,
    .TRXN_END]
  (if (bus t).1 ≠ 0 ∨ resp0 (bus t) ≠ cmd.getD 1 0 then 1 else 0, t)

/-- `FS_w_cp(owq)`, `Y` being `OWQ_Y(owq)`: its result and the transaction
it issues. -/
def FS_w_cp (bus : Bus) (Y : Int) : Int × List transaction_log :=
  let r := OW_w_cp bus Y
  (if r.1 ≠ 0 then -EINVAL else 0, r.2)

/-- The write handlers of the DS2890 as `ow_write.c` calls them: the value
handed over is the one the handler finds in its query. -/
def DS2890_write (bus : Bus) : write_union :=
  { sample_write with
    u := fun _ v _ => (FS_w_wiper bus (v.getD 0 0)).1
    y := fun _ v _ => (FS_w_cp bus (v.getD 0 0)).1 }

/-- The entries `wiper` and `chargepump` of the table `DS2890`. -/
def DS2890_wiper (bus : Bus) : filetype :=
  { suglen := 12, ag := none, format := .ft_unsigned, read := some sample_read,
    write := some (DS2890_write bus) }

def DS2890_chargepump (bus : Bus) : filetype :=
  { suglen := 1, ag := none, format := .ft_yesno, read := some sample_read,
    write := some (DS2890_write bus) }

/-- A parsed name of a DS2890 property that is not bound to a bus. -/
def DS2890_pn (ft : filetype) : parsedname :=
  { type := .pn_real, state_bus := false, dev := some ⟨"DS2890"⟩, ft := some ft,
    extension := 0, in_ := [sample_adapter], bus_nr := -1 }

/-- A device that answers every command with the second byte sent. -/
def echo_bus : Bus := fun t =>
  match t with
  | [_, .trxn_match [_, b], _, _, _] => (0, [b])
  | _ => (1, [])

def wiper_path : String := "/2C.0102030405E7/wiper"

def chargepump_path : String := "/2C.0102030405E7/chargepump"

/-- An aggregate-stored property with a write handler and no read handler,
addressed by element 1. -/
def writeonly_pn : parsedname :=
  sample_pn .pn_real { sample_ft .ft_unsigned (some ⟨3, .ag_aggregate⟩) with read := none } 1

/-- A path whose serial number is not hexadecimal. -/
def malformed_path : String := "/1G.00000000000Z/counter"

/-- A real-device name that is not bound to a bus. -/
def unbound_pn : parsedname := { counter_pn with state_bus := false, bus_nr := -1 }

def unbound_path : String := "/1D.000000000000/counter"

/-- The sample installation with an empty presence cache and a presence
check that finds the device on no bus. -/
def absent_env (parse : String → Option parsedname) : Env :=
  { sample_env false parse with
    Cache_Get_Device := fun _ _ => (1, -1)
    CheckPresence := fun _ _ => -1 }

/-- A second local adapter, linked behind the first. -/
def second_adapter : connection_in := ⟨1, .bus_local⟩

def two_adapters : List connection_in := [sample_adapter, second_adapter]

/-- The sample installation with two adapters, in either build; with
`first_down` the connection test of adapter 0 fails. -/
def two_adapter_env (mt : Bool) (first_down : Bool) : Env :=
  { sample_env false (fun _ => none) with
    OW_MT := mt
    find_connection_in := fun n => if n = 0 then two_adapters else [second_adapter]
    TestConnection := fun _ pn =>
      if first_down && (pn.in_.map (fun c => c.index)).head? == some 0 then 1 else 0 }

/-- A name bound to adapter 0 of the two, by its path. -/
def bound_pn : parsedname := { counter_pn with in_ := two_adapters }

/-- A name not bound to a bus, which the presence cache binds to adapter 0. -/
def cached_pn : parsedname := { unbound_pn with in_ := two_adapters }

/-- A property of the simultaneous pseudo-device, not bound to a bus. -/
def simultaneous_pn : parsedname :=
  { type := .pn_real, state_bus := false, dev := some DeviceSimultaneous,
    ft := some (sample_ft .ft_yesno none), extension := 0, in_ := two_adapters, bus_nr := -1 }

/-- A bulk read of a property. -/
def Event.is_read : Event → Bool
  | .read _ _ => true
  | _ => false

/-- An unsigned property of three elements with mixed storage. -/
def mixed_pn (extension : Int) : parsedname :=
  sample_pn .pn_real (sample_ft .ft_unsigned (some ⟨3, .ag_mixed⟩)) extension

/-- The unsigned values an ALL write of `elements` elements parses from the
text, when the parser returns. -/
def parsed_unsigned (buf : Mem) (size : Nat) (elements : Nat) : Option (List Nat) :=
  (FS_input_unsigned_array (List.replicate elements 0) buf size elements).map Prod.snd

/-- The calls made after the trace `t`, in a trace `t'` that continues it. -/
def events_after (t t' : Trace) : Trace := t'.drop t.length

/-- What the block `Add to cache?` does after a failure. -/
def cache_del_events (env : Env) (pn : parsedname) : Trace :=
  if env.IsLocalCacheEnabled pn then [Event.Cache_Del pn.extension] else []

/-- A call of the property cache. -/
def Event.is_cache : Event → Bool
  | .Cache_Add _ _ => true
  | .Cache_Del _ => true
  | _ => false

/-- An insertion into the property cache. -/
def Event.is_cache_add : Event → Bool
  | .Cache_Add _ _ => true
  | _ => false

/-- The formats integer, unsigned, bitfield and yesno. -/
def integral_format (f : ft_format) : Bool :=
  f = .ft_integer || f = .ft_unsigned || f = .ft_bitfield || f = .ft_yesno

/-- The text the format layer renders for the value a single-element write
parses from its input: `FS_output_integer` of the parsed `int` or yes/no
value, `FS_output_unsigned` of the parsed `unsigned int`. -/
def rendered_value (env : Env) (pn : parsedname) (ft : filetype) (buf : Mem) (size : Nat) :
    List Char :=
  match ft.format with
  | .ft_integer => env.FS_output_integer (FS_input_integer buf size).2 (env.FileLength pn) pn
  | .ft_unsigned | .ft_bitfield =>
    env.FS_output_unsigned (FS_input_unsigned buf size).2 (env.FileLength pn) pn
  | .ft_yesno => env.FS_output_integer (FS_input_yesno 0 buf size).2 (env.FileLength pn) pn
  | _ => []

/-- Decimal text of an `int`, for the sample renderers. -/
def sample_decimal (v : Int) : List Char :=
  (if v < 0 then ['-'] else []) ++ Nat.toDigits 10 v.natAbs

/-- The sample installation built with `OW_CACHE`, the local cache enabled or
not for every name, with renderers that write decimal texts joined by commas. -/
def cache_env (enabled : Bool) : Env :=
  { sample_env false (fun _ => none) with
    OW_CACHE := true
    IsLocalCacheEnabled := fun _ => enabled
    FS_output_integer := fun v _ _ => sample_decimal v
    FS_output_unsigned := fun u _ _ => sample_decimal u
    FS_output_integer_array := fun vs _ _ => List.intercalate [','] (vs.map sample_decimal)
    FS_output_unsigned_array := fun us _ _ =>
      List.intercalate [','] (us.map (fun u => sample_decimal u)) }

/-- A call made by the write strategies themselves: a statistics counter, a
property handler, the property cache. -/
def Event.is_strategy_call : Event → Bool
  | .stat _ => true
  | .read _ _ => true
  | .write _ _ => true
  | .Cache_Add _ _ => true
  | .Cache_Del _ => true
  | _ => false

/-- The trace `t'` continues `t` by calls of the write strategies only. -/
def strategy_calls_only (t t' : Trace) : Prop :=
  ∃ s, t' = t ++ s ∧ ∀ e ∈ s, e.is_strategy_call = true

/-- Between the traces `t` and `t'` the write strategies made calls of their
own only, and the last of them is `Cache_Del` for the name with extension
`ext`: the cache entry of that name was dropped and nothing was called
afterwards. -/
def cache_dropped (ext : Int) (t t' : Trace) : Prop :=
  ∃ s, t' = t ++ s ++ [Event.Cache_Del ext] ∧ ∀ e ∈ s, e.is_strategy_call = true

/-- The bytes left for element `j` of a binary ALL write of `size` bytes in
`FS_w_all`: `left -= suglen` was made `j` times. -/
def binary_left (suglen : Int) (size : Nat) (j : Nat) : Nat :=
  (fun l : Nat => to_size_t ((l : Int) - suglen))^[j] size

/-- A separately stored binary property of two elements of 12 bytes,
addressed as ALL. -/
def binary_separate_pn : parsedname :=
  sample_pn .pn_real (sample_ft .ft_binary (some ⟨2, .ag_separate⟩)) (-1)

/-- A call of the device lock. -/
def Event.is_lock : Event → Bool
  | .LockGet _ => true
  | .LockRelease _ => true
  | _ => false

/-- The adapters whose device lock is held after the calls `rest`, made after
the calls `before` with the locks `held`; `ok before i` tells whether a
`LockGet` on adapter `i` made after the calls `before` succeeds. -/
def locks_after (ok : Trace → Nat → Bool) : Trace → List Nat → Trace → List Nat
  | _, held, [] => held
  | before, held, e :: rest =>
    locks_after ok (before ++ [e])
      (match e with
       | .LockGet i => if ok before i then i :: held else held
       | .LockRelease i => held.erase i
       | _ => held) rest

/-- The trace `t'` continues `t`, and whatever locks were held at `t` are
the locks held at `t'`. -/
def locks_kept (ok : Trace → Nat → Bool) (t t' : Trace) : Prop :=
  ∃ s, t' = t ++ s ∧ ∀ held, locks_after ok t held s = held

/-! ## Bus settings (`ow_system.c`) -/

/-- The adapter types `FS_w_overdrive` tells apart: the DS9490 and any
other. -/
inductive adapter_type
  | adapter_DS9490 | adapter_other
deriving DecidableEq, Repr

/-- The bus speeds `ONEWIREBUSSPEED_REGULAR`, `ONEWIREBUSSPEED_FLEXIBLE` and
`ONEWIREBUSSPEED_OVERDRIVE`. -/
inductive bus_speed
  | ONEWIREBUSSPEED_REGULAR | ONEWIREBUSSPEED_FLEXIBLE | ONEWIREBUSSPEED_OVERDRIVE
deriving DecidableEq, Repr

/-- The fields of a `struct connection_in` that `FS_w_overdrive` reads and
writes. The adapters of the program form a table; a `struct connection_in *`
is a position in the table, NULL is `none`. -/
structure bus_connection where
  Adapter : adapter_type
  use_overdrive_speed : bus_speed
deriving DecidableEq, Repr

/-- `FS_w_overdrive(u, pn)`: `extension` is `pn->extension`, `pn_in` is
`pn->in`, `find_connection_in` the lookup of an adapter by its index. Returns
the result and the table of adapters afterwards; `none` is the dereference of
a pointer that is NULL or outside the table. -/
def FS_w_overdrive (find_connection_in : Int → Option Nat) (u : Nat) (extension : Int)
    (pn_in : Option Nat) (adapters : List bus_connection) : Option (Int × List bus_connection) :=
  let dindex : Int := if extension < 0 then 0 else extension
  match find_connection_in dindex with
  | none => some (-ENOENT, adapters)
  | some p =>
    match adapters[p]? with
    | none => none
    | some a =>
      match u with
      | 0 => some (0, adapters.set p { a with use_overdrive_speed := .ONEWIREBUSSPEED_REGULAR })
      | 1 =>
        match pn_in with
        | none => none
        | some q =>
          match adapters[q]? with
          | none => none
          | some b =>
            if b.Adapter ≠ .adapter_DS9490 then some (-ENOTSUP, adapters)
            else some (0, adapters.set p { a with use_overdrive_speed := .ONEWIREBUSSPEED_FLEXIBLE })
      | 2 => some (0, adapters.set p { a with use_overdrive_speed := .ONEWIREBUSSPEED_OVERDRIVE })
      | _ => some (-ENOTSUP, adapters)

/-- A table of two adapters at regular speed: a DS9490 and another. -/
def sample_adapters : List bus_connection :=
  [⟨.adapter_DS9490, .ONEWIREBUSSPEED_REGULAR⟩, ⟨.adapter_other, .ONEWIREBUSSPEED_REGULAR⟩]

/-- The lookup of the sample table: adapter `k` is at position `k`. -/
def sample_find (dindex : Int) : Option Nat :=
  if dindex = 0 then some 0 else if dindex = 1 then some 1 else none

/-- The sample installation with a `strtod` that reads the text `5` as the
value 5 and converts no other text, a temperature conversion that adds 1000
and a temperature-gap conversion that adds 100 to the bits of a value. -/
def gap_env : Env :=
  { sample_env false (fun _ => none) with
    strtod := fun cp => if cp = ['5'] then ⟨⟨5⟩, 1, 0⟩ else ⟨⟨0⟩, 0, 0⟩
    fromTemperature := fun x _ => ⟨x.bits + 1000⟩
    fromTempGap := fun x _ => ⟨x.bits + 100⟩ }

/-- A read union whose handlers fail with `-ENODEV`. -/
def refusing_read : read_union where
  i := fun _ _ => (-ENODEV, [])
  u := fun _ _ => (-ENODEV, [])
  f := fun _ _ => (-ENODEV, [])
  d := fun _ _ => (-ENODEV, [])
  y := fun _ _ => (-ENODEV, [])
  a := fun _ _ _ _ => (-ENODEV, [])
  b := fun _ _ _ _ => (-ENODEV, [])

/-- The sample integer aggregate with a failing read handler. -/
def unreadable_pn (extension : Int) : parsedname :=
  sample_pn .pn_real
    { sample_ft .ft_integer (some ⟨3, .ag_aggregate⟩) with read := some refusing_read } extension

/-- The outcomes of successive attempts at a single-element write, the first
being attempt `i` made after the calls `t`: each attempt increments
`write_tries` of its number and then runs `FS_parse_write`, and the next
attempt is made after the calls of the one before. -/
def attempts_chain (env : Env) (buf : Mem) (size : Nat) (offset : Int) (pn : parsedname) :
    Nat → Trace → List (Int × Trace) → Prop
  | _, _, [] => True
  | i, t, o :: rest =>
    FS_parse_write env buf size offset pn (t ++ [Event.stat (Counter.write_tries i)]) = some o ∧
    attempts_chain env buf size offset pn (i + 1) o.2 rest

/-- The result of the bulk read `FS_w_split` makes for a property of the
format `f`, after the calls `t`. -/
def bulk_read_result (rd : read_union) (f : ft_format) (t : Trace) (ext : Int) : Int :=
  match f with
  | .ft_integer => (rd.i t ext).1
  | .ft_unsigned | .ft_bitfield => (rd.u t ext).1
  | .ft_yesno => (rd.y t ext).1
  | .ft_float | .ft_temperature | .ft_tempgap => (rd.f t ext).1
  | .ft_date => (rd.d t ext).1
  | _ => 0

/-- What the scalar parser of the format `f` returns for the `size` bytes at
`buf`: 0 when the text parses. -/
def parse_result (env : Env) (f : ft_format) (buf : Mem) (size : Nat) : Int :=
  match f with
  | .ft_integer => (FS_input_integer buf size).1
  | .ft_unsigned | .ft_bitfield => (FS_input_unsigned buf size).1
  | .ft_yesno => (FS_input_yesno 0 buf size).1
  | .ft_float | .ft_temperature | .ft_tempgap => (FS_input_float env buf size).1
  | _ => 0

/-- An insertion into the presence cache. -/
def Event.is_presence_add : Event → Bool
  | .Cache_Add_Device _ => true
  | _ => false

/-- The adapter indices under which the calls `s` record the device in the
presence cache, in the order of the calls. -/
def presence_entries (s : Trace) : List Nat :=
  s.filterMap (fun e => match e with
    | .Cache_Add_Device k => some k
    | _ => none)

/-- The trace `t'` continues `t` without an insertion into the presence
cache. -/
def no_presence (t t' : Trace) : Prop :=
  ∃ s, t' = t ++ s ∧ ∀ e ∈ s, e.is_presence_add = false

/-- The adapters `pre`, which `rest` follows in the chain, are addressed one
after the other from the calls `t` on, the write fails on each of them, and
the calls made are `t0`. -/
def failed_on (env : Env) (buf : Mem) (size : Nat) (offset : Int) (pn : parsedname) :
    List connection_in → List connection_in → Trace → Trace → Prop
  | [], _, t, t0 => t0 = t
  | i :: pre, rest, t, t0 =>
    ∃ r t1, r ≠ 0 ∧
      FS_write_seek_adapter env buf size offset pn i (pre ++ rest) t = some (.inr (r, t1)) ∧
      failed_on env buf size offset pn pre rest t1 t0

/-- Every presence entry among the calls made after `t` in `t'` is for an
adapter of the chain on which the write returned 0, and the name is in the
real namespace. -/
def presence_sound (env : Env) (buf : Mem) (size : Nat) (offset : Int) (pn : parsedname)
    (chain : List connection_in) (t t' : Trace) : Prop :=
  ∃ s, t' = t ++ s ∧ ∀ k ∈ presence_entries s,
    pn.type = .pn_real ∧ ∃ i next t0 t1, (i :: next) <:+ chain ∧ i.index = k ∧
      FS_write_seek_adapter env buf size offset pn i next t0 = some (.inr (0, t1))

/-- `resp[1]` after the transaction. -/
def resp1 (r : Int × List Nat) : Nat := (stored 0 2 (r.2.map to_byte)).getD 1 0

/-- `OW_r_cp(val, pn)`: its result, `*val` afterwards, and the transaction
it issues. -/
def OW_r_cp (bus : Bus) (val : Int) : Int × Int × List transaction_log :=
  let aa := [0xAA]
  let t := [transaction_log.TRXN_START, .trxn_match aa, .trxn_read 2, .TRXN_END]
  if (bus t).1 ≠ 0 then (1, val, t)
  else (0, ((resp1 (bus t) &&& 0x40 : Nat) : Int), t)

/-- `FS_r_cp(owq)`, `Y` being `OWQ_Y(owq)` beforehand: its result, `OWQ_Y(owq)`
afterwards, and the transaction it issues. -/
def FS_r_cp (bus : Bus) (Y : Int) : Int × Int × List transaction_log :=
  let r := OW_r_cp bus Y
  (if r.1 ≠ 0 then -EINVAL else 0, r.2.1, r.2.2)

/-- A DS2890 whose feature and control registers hold `feature` and
`control`: it answers the command `0x55` with the byte sent after it and the
command `0xAA` with the two registers. -/
def control_device (feature control : Nat) : Bus := fun t =>
  match t with
  | [_, .trxn_match [0x55, b], _, _, _] => (0, [b])
  | [_, .trxn_match [0xAA], .trxn_read 2, _] => (0, [feature, control])
  | _ => (1, [])

/-- The control register of such a device after the transaction `t`: the byte
sent after a command `0x55`, else what it held. -/
def control_after (control : Nat) (t : List transaction_log) : Nat :=
  match t with
  | [_, .trxn_match [0x55, b], _, _, _] => b
  | _ => control

/-- The formats integer, unsigned, bitfield, yesno and float. -/
def scalar_text_format (f : ft_format) : Bool :=
  integral_format f || f = .ft_float

/-! ## Theorems -/

/-- C1. With the process-wide `readonly` flag set, `FS_write` returns
`-EROFS` for every path, buffer, size and offset, and the trace is the one it
was given: the path is not parsed and no handler, bus, lock or cache call is
made. -/
theorem FS_write_readonly (env : Env) (h : env.readonly = true) (path : String) (buf : Mem)
    (size : Nat) (offset : Int) (t : Trace) :
    FS_write env path buf size offset t = some (-EROFS, t) := by
  simp [FS_write, h]

/-- C1 on the sample installation with the flag set. -/
theorem FS_write_readonly_witness :
    (sample_env true (parse_one counter_path counter_pn)).readonly = true ∧
    FS_write (sample_env true (parse_one counter_path counter_pn)) counter_path (cmem "17") 2 0 []
      = some (-EROFS, []) :=
  ⟨rfl, FS_write_readonly _ rfl _ _ _ _ _⟩

/-- C2. On a bus-bound unsigned property whose handler accepts every value,
the two-byte text `xy` does not parse and `FS_write` returns 1: a value that
is neither `size` (2) nor negative. No write handler was called. -/
theorem FS_write_returns_one_on_parse_failure :
    FS_write (sample_env false (parse_one counter_path counter_pn)) counter_path (cmem "xy") 2 0 []
      = some (1, [Event.FS_ParsedName counter_path, Event.stat Counter.write_calls,
          Event.TestConnection 0, Event.LockGet 0, Event.stat (Counter.write_tries 0),
          Event.stat (Counter.write_tries 1), Event.stat (Counter.write_tries 2),
          Event.LockRelease 0, Event.FS_ParsedName_destroy]) := by
  decide

/-- C3, as the claim states it, fails: with offset 3 on an integer property
the write of ALL of a separately-stored property is rejected with `-ERANGE`
and the write of one element of an aggregate-stored property with `-EINVAL`,
neither with `-EADDRNOTAVAIL`. -/
theorem FS_w_all_and_FS_w_split_offset_codes :
    FS_w_all (sample_env false (fun _ => none)) (cmem "7") 1 3 separate_pn []
      = some (-ERANGE, [Event.stat Counter.write_array]) ∧
    FS_w_split (sample_env false (fun _ => none)) (cmem "7") 1 3 (aggregate_pn .ft_integer 1) []
      = some (-EINVAL, []) ∧
    -ERANGE ≠ -EADDRNOTAVAIL ∧ -EINVAL ≠ -EADDRNOTAVAIL := by
  decide

/-- C3, amended. For a property of a format that is neither binary nor ascii
and a non-zero offset every strategy rejects the write and calls no handler:
the trace grows by statistics and cache events only. The code returned is
`-EADDRNOTAVAIL` for a single element (`FS_parse_write`) and for ALL of an
aggregate-stored property (`FS_gamish`), `-ERANGE` for ALL of a
separately-stored property (`FS_w_all`), and for one element of an
aggregate-stored property (`FS_w_split`) `-EINVAL`, or `-EFAULT` when the
property has no read handler. -/
theorem nonzero_offset_rejected (env : Env) (buf : Mem) (size : Nat) (offset : Int)
    (pn : parsedname) (ft : filetype) (t : Trace)
    (hft : pn.ft = some ft) (hfmt : numeric_format ft.format = true) (hoff : offset ≠ 0) :
    FS_parse_write env buf size offset pn t
      = some (-EADDRNOTAVAIL,
          if env.IsLocalCacheEnabled pn then t ++ [Event.Cache_Del pn.extension] else t) ∧
    FS_w_all env buf size offset pn t = some (-ERANGE, t ++ [Event.stat Counter.write_array]) ∧
    (∀ ag : aggregate, ft.ag = some ag →
      FS_gamish env buf size offset pn t = some (-EADDRNOTAVAIL, t) ∧
      (ft.read = none → FS_w_split env buf size offset pn t = some (-EFAULT, t)) ∧
      (∀ rd : read_union, ft.read = some rd →
        FS_w_split env buf size offset pn t
          = some (-EINVAL,
              if env.IsLocalCacheEnabled pn then t ++ [Event.Cache_Del pn.extension] else t))) := by
  have hne : (-EADDRNOTAVAIL : Int) ≠ 0 := by decide
  refine ⟨?_, ?_, ?_⟩
  · cases hf : ft.format <;> simp [numeric_format, hf] at hfmt <;>
      simp [FS_parse_write, FS_parse_write_switch, hft, hf, hoff, cache_update, hne]
  · simp [FS_w_all, hoff]
  · intro ag hag
    refine ⟨?_, ?_, ?_⟩
    · simp [FS_gamish, hft, hag, hoff]
    · intro hrd
      simp [FS_w_split, hft, hag, hrd]
    · intro rd hrd
      cases hf : ft.format <;> simp [numeric_format, hf] at hfmt <;>
        simp [FS_w_split, FS_w_split_switch, hft, hag, hrd, hf, hoff, cache_update, hne]

/-- C3, amended, on the sample properties with offset 3. -/
theorem nonzero_offset_rejected_witness :
    FS_parse_write (sample_env false (fun _ => none)) (cmem "7") 1 3 counter_pn []
      = some (-EADDRNOTAVAIL, []) ∧
    FS_w_all (sample_env false (fun _ => none)) (cmem "7") 1 3 separate_pn []
      = some (-ERANGE, [Event.stat Counter.write_array]) ∧
    FS_gamish (sample_env false (fun _ => none)) (cmem "7") 1 3 (aggregate_pn .ft_yesno (-1)) []
      = some (-EADDRNOTAVAIL, []) ∧
    FS_w_split (sample_env false (fun _ => none)) (cmem "7") 1 3 (aggregate_pn .ft_yesno 1) []
      = some (-EINVAL, []) :=
  ⟨(nonzero_offset_rejected (sample_env false (fun _ => none)) (cmem "7") 1 3 counter_pn
      (sample_ft .ft_unsigned none) [] rfl rfl (by decide)).1,
   (nonzero_offset_rejected (sample_env false (fun _ => none)) (cmem "7") 1 3 separate_pn
      (sample_ft .ft_integer (some ⟨2, .ag_separate⟩)) [] rfl rfl (by decide)).2.1,
   ((nonzero_offset_rejected (sample_env false (fun _ => none)) (cmem "7") 1 3
      (aggregate_pn .ft_yesno (-1)) (sample_ft .ft_yesno (some ⟨3, .ag_aggregate⟩)) [] rfl rfl
      (by decide)).2.2 ⟨3, .ag_aggregate⟩ rfl).1,
   ((nonzero_offset_rejected (sample_env false (fun _ => none)) (cmem "7") 1 3
      (aggregate_pn .ft_yesno 1) (sample_ft .ft_yesno (some ⟨3, .ag_aggregate⟩)) [] rfl rfl
      (by decide)).2.2 ⟨3, .ag_aggregate⟩ rfl).2.2 sample_read rfl⟩

/-- C4, as the claim states it, fails: the write to a property without a
write handler is refused with `-ENOTSUP`, which is not `-EROFS`. -/
theorem FS_real_write_no_handler_not_EROFS :
    FS_real_write (sample_env false (fun _ => none)) (cmem "17") 2 0 readonly_pn []
      = some (-ENOTSUP, []) ∧ -ENOTSUP ≠ -EROFS := by
  decide

/-- C4, amended. `FS_real_write` refuses a write to a property that has no
write handler with `-ENOTSUP`, whatever its aggregate spec and extension, and
leaves the trace as it was: neither a read nor a write handler is called. -/
theorem FS_real_write_no_handler (env : Env) (buf : Mem) (size : Nat) (offset : Int)
    (pn : parsedname) (ft : filetype) (t : Trace)
    (hft : pn.ft = some ft) (hwr : ft.write = none) :
    FS_real_write env buf size offset pn t = some (-ENOTSUP, t) := by
  simp [FS_real_write, hft, hwr]

/-- C4, amended, on the sample property without a write handler. -/
theorem FS_real_write_no_handler_witness :
    FS_real_write (sample_env false (fun _ => none)) (cmem "17") 2 0 readonly_pn []
      = some (-ENOTSUP, []) :=
  FS_real_write_no_handler (sample_env false (fun _ => none)) (cmem "17") 2 0 readonly_pn
    { sample_ft .ft_unsigned none with write := none } [] rfl rfl

/-- C5, as the claim states it, fails: with the `readonly` flag set a write
to a structure path that names a device and a property is refused by
`FS_write` and by `FS_write_postparse` with `-EROFS`, not `-ENOTSUP`. -/
theorem FS_write_structure_readonly :
    (parse_one structure_path structure_pn structure_path).map
        (fun pn => (pn.type, pn.dev.isSome, pn.ft.isSome))
      = some (pn_type.pn_structure, true, true) ∧
    FS_write (sample_env true (parse_one structure_path structure_pn)) structure_path
      (cmem "17") 2 0 [] = some (-EROFS, []) ∧
    FS_write_postparse (sample_env true (parse_one structure_path structure_pn))
      (cmem "17") 2 0 structure_pn [] = some (-EROFS, [Event.stat Counter.write_calls]) ∧
    -EROFS ≠ -ENOTSUP := by
  decide

/-- C5, amended. With the `readonly` flag clear, a write to a path of the
structure namespace that names a device and a property is refused with
`-ENOTSUP` by `FS_write`, which only parses the path and destroys the parsed
name, and by `FS_write_postparse`, which only counts the call: no handler,
lock or bus call is made. -/
theorem FS_write_structure (env : Env) (path : String) (buf : Mem) (size : Nat) (offset : Int)
    (pn : parsedname) (t : Trace)
    (hro : env.readonly = false) (hparse : env.FS_ParsedName t path = some pn)
    (hdev : pn.dev ≠ none) (hft : pn.ft.isSome = true) (hty : pn.type = .pn_structure) :
    FS_write env path buf size offset t
      = some (-ENOTSUP, t ++ [Event.FS_ParsedName path, Event.FS_ParsedName_destroy]) ∧
    FS_write_postparse env buf size offset pn t
      = some (-ENOTSUP, t ++ [Event.stat Counter.write_calls]) := by
  have hne : (-ENOTSUP : Int) ≠ 0 := by decide
  have hft2 : pn.ft.isNone = false := by
    cases h : pn.ft <;> simp [h] at hft ⊢
  constructor
  · simp [FS_write, hro, hparse, hdev, hft2, hty]
  · simp [FS_write_postparse, hro, hty, hne]

/-- C5, amended, on the sample structure path. -/
theorem FS_write_structure_witness :
    FS_write (sample_env false (parse_one structure_path structure_pn)) structure_path
      (cmem "17") 2 0 []
      = some (-ENOTSUP, [Event.FS_ParsedName structure_path, Event.FS_ParsedName_destroy]) ∧
    FS_write_postparse (sample_env false (parse_one structure_path structure_pn))
      (cmem "17") 2 0 structure_pn [] = some (-ENOTSUP, [Event.stat Counter.write_calls]) :=
  FS_write_structure (sample_env false (parse_one structure_path structure_pn)) structure_path
    (cmem "17") 2 0 structure_pn [] rfl (by rfl) (by decide) rfl rfl

/-! ### Read-modify-write -/

/-- The array a handler leaves behind has the length of the allocation. -/
theorem stored_length {α : Type} (zero : α) (n : Nat) (out : List α) :
    (stored zero n out).length = n := by
  simp [stored]

/-- The cache block only appends, and never a handler call. -/
theorem cache_update_tail (env : Env) (pn : parsedname) (cbuf : Bool) (text : List Char)
    (ret : Int) (t : Trace) :
    ∃ tail, cache_update env pn cbuf text ret t = t ++ tail ∧
      ∀ e ∈ tail, e.is_handler_call = false := by
  unfold cache_update
  split_ifs
  · exact ⟨[_], rfl, by simp [Event.is_handler_call]⟩
  · exact ⟨[_], rfl, by simp [Event.is_handler_call]⟩
  · exact ⟨[], by simp, by simp⟩

/-- Whether `FS_input_yesno` succeeds, and what it stores when it does, does
not depend on the previous content of `*result`. -/
theorem FS_input_yesno_result_irrelevant (r r' : Int) (buf : Mem) (size : Nat) (v : Int)
    (h : FS_input_yesno r buf size = (0, v)) : FS_input_yesno r' buf size = (0, v) := by
  unfold FS_input_yesno at h ⊢
  split_ifs at h ⊢ <;> simp_all

/-- What `FS_w_split` makes of the outcome of its `switch`: every failure
becomes `-EINVAL`, and the trace is continued by the cache block only. -/
theorem FS_w_split_of_switch (env : Env) (buf : Mem) (size : Nat) (offset : Int)
    (pn : parsedname) (ft : filetype) (ag : aggregate) (rd : read_union) (t : Trace)
    (ret : Int) (text : List Char) (t1 : Trace)
    (hft : pn.ft = some ft) (hag : ft.ag = some ag) (hrd : ft.read = some rd)
    (h : FS_w_split_switch env buf size offset pn ft rd ag.elements (env.FullFileLength pn)
      (env.OW_CACHE && env.alloc t AllocSite.cbuf) t = some (.inr (ret, text, t1))) :
    ∃ tail, FS_w_split env buf size offset pn t
        = some (if ret ≠ 0 then -EINVAL else 0, t1 ++ tail) ∧
      ∀ e ∈ tail, e.is_handler_call = false := by
  obtain ⟨tail, htail, hno⟩ := cache_update_tail env pn
    (env.OW_CACHE && env.alloc t AllocSite.cbuf) text ret t1
  exact ⟨tail, by simp [FS_w_split, hft, hag, hrd, h, htail], hno⟩

/-- C6. Read-modify-write of element `i` (`0 ≤ i < N`) of an aggregate-stored
property with zero offset, for the formats integer, unsigned and yesno: when
the bulk read returns a non-negative result and the text parses to `v`,
`FS_w_split` calls the bulk read and then the bulk write handler, and the
array handed to the write handler is the array left by the bulk read with
position `i` set to `v` (every other position as read); position `i` exists.
What follows in the trace is no handler call. -/
theorem FS_w_split_replaces_element (env : Env) (buf : Mem) (size : Nat) (pn : parsedname)
    (ft : filetype) (ag : aggregate) (rd : read_union) (w : write_union) (t : Trace)
    (hft : pn.ft = some ft) (hag : ft.ag = some ag) (hrd : ft.read = some rd)
    (hwr : ft.write = some w) (halloc : env.alloc t AllocSite.values = true)
    (hlo : 0 ≤ pn.extension) (hhi : pn.extension < ag.elements) :
    (∀ v : Int, ft.format = .ft_integer → 0 ≤ (rd.i t pn.extension).1 →
      FS_input_integer buf size = (0, v) →
      ∃ ret tail, FS_w_split env buf size 0 pn t = some (ret,
          t ++ [Event.read .i pn.extension,
            Event.write (Val.i ((stored 0 ag.elements (rd.i t pn.extension).2).set
              pn.extension.toNat v)) pn.extension] ++ tail) ∧
        (∀ e ∈ tail, e.is_handler_call = false) ∧
        ((stored 0 ag.elements (rd.i t pn.extension).2).set pn.extension.toNat v)[
          pn.extension.toNat]? = some v) ∧
    (∀ v : Nat, ft.format = .ft_unsigned → 0 ≤ (rd.u t pn.extension).1 →
      FS_input_unsigned buf size = (0, v) →
      ∃ ret tail, FS_w_split env buf size 0 pn t = some (ret,
          t ++ [Event.read .u pn.extension,
            Event.write (Val.u ((stored 0 ag.elements (rd.u t pn.extension).2).set
              pn.extension.toNat v)) pn.extension] ++ tail) ∧
        (∀ e ∈ tail, e.is_handler_call = false) ∧
        ((stored 0 ag.elements (rd.u t pn.extension).2).set pn.extension.toNat v)[
          pn.extension.toNat]? = some v) ∧
    (∀ v : Int, ft.format = .ft_yesno → 0 ≤ (rd.y t pn.extension).1 →
      FS_input_yesno 0 buf size = (0, v) →
      ∃ ret tail, FS_w_split env buf size 0 pn t = some (ret,
          t ++ [Event.read .y pn.extension,
            Event.write (Val.y ((stored 0 ag.elements (rd.y t pn.extension).2).set
              pn.extension.toNat v)) pn.extension] ++ tail) ∧
        (∀ e ∈ tail, e.is_handler_call = false) ∧
        ((stored 0 ag.elements (rd.y t pn.extension).2).set pn.extension.toNat v)[
          pn.extension.toNat]? = some v) := by
  have hidx : pn.extension.toNat < ag.elements := by omega
  refine ⟨?_, ?_, ?_⟩
  · intro v hf hread hparse
    have hs : ∃ ret text, FS_w_split_switch env buf size 0 pn ft rd ag.elements
        (env.FullFileLength pn) (env.OW_CACHE && env.alloc t AllocSite.cbuf) t
        = some (.inr (ret, text, t ++ [Event.read .i pn.extension,
            Event.write (Val.i ((stored 0 ag.elements (rd.i t pn.extension).2).set
              pn.extension.toNat v)) pn.extension])) := by
      simp [FS_w_split_switch, hf, halloc, hparse, hwr, Int.not_lt.mpr hread]
    obtain ⟨ret, text, hs⟩ := hs
    obtain ⟨tail, h1, h2⟩ := FS_w_split_of_switch env buf size 0 pn ft ag rd t ret text _
      hft hag hrd hs
    exact ⟨_, tail, h1, h2, by simp [stored_length, hidx]⟩
  · intro v hf hread hparse
    have hs : ∃ ret text, FS_w_split_switch env buf size 0 pn ft rd ag.elements
        (env.FullFileLength pn) (env.OW_CACHE && env.alloc t AllocSite.cbuf) t
        = some (.inr (ret, text, t ++ [Event.read .u pn.extension,
            Event.write (Val.u ((stored 0 ag.elements (rd.u t pn.extension).2).set
              pn.extension.toNat v)) pn.extension])) := by
      simp [FS_w_split_switch, hf, halloc, hparse, hwr, Int.not_lt.mpr hread]
    obtain ⟨ret, text, hs⟩ := hs
    obtain ⟨tail, h1, h2⟩ := FS_w_split_of_switch env buf size 0 pn ft ag rd t ret text _
      hft hag hrd hs
    exact ⟨_, tail, h1, h2, by simp [stored_length, hidx]⟩
  · intro v hf hread hparse
    have hparse2 := FS_input_yesno_result_irrelevant 0
      ((stored 0 ag.elements (rd.y t pn.extension).2)[pn.extension.toNat]?.getD 0) buf size v hparse
    have hs : ∃ ret text, FS_w_split_switch env buf size 0 pn ft rd ag.elements
        (env.FullFileLength pn) (env.OW_CACHE && env.alloc t AllocSite.cbuf) t
        = some (.inr (ret, text, t ++ [Event.read .y pn.extension,
            Event.write (Val.y ((stored 0 ag.elements (rd.y t pn.extension).2).set
              pn.extension.toNat v)) pn.extension])) := by
      simp [FS_w_split_switch, hf, halloc, hparse2, hwr, Int.not_lt.mpr hread]
    obtain ⟨ret, text, hs⟩ := hs
    obtain ⟨tail, h1, h2⟩ := FS_w_split_of_switch env buf size 0 pn ft ag rd t ret text _
      hft hag hrd hs
    exact ⟨_, tail, h1, h2, by simp [stored_length, hidx]⟩

/-- C6 on the sample array property: `7` written to element 1 of `10, 20, 30`. -/
theorem FS_w_split_replaces_element_witness :
    ∃ ret tail, FS_w_split (sample_env false (fun _ => none)) (cmem "7") 1 0
        (aggregate_pn .ft_integer 1) []
      = some (ret, [] ++ [Event.read .i 1, Event.write (Val.i [10, 7, 30]) 1] ++ tail) :=
  match (FS_w_split_replaces_element (sample_env false (fun _ => none)) (cmem "7") 1
      (aggregate_pn .ft_integer 1) (sample_ft .ft_integer (some ⟨3, .ag_aggregate⟩))
      ⟨3, .ag_aggregate⟩ sample_read sample_write [] rfl rfl rfl rfl rfl (by decide)
      (by decide)).1 7 rfl (by decide) (by decide) with
  | ⟨ret, tail, h, _, _⟩ => ⟨ret, tail, h⟩

/-! ### Splitting the input of an ALL write -/

/-- C7. ALL of a separately-stored integer property of two elements is
written from the three bytes `1,2`, behind which the byte `9` lies in memory.
After the first field `left` is `size - (buf - p)`, that is `size` plus the
bytes consumed, so the second write is handed five bytes from offset 2 and
stores 29: a byte outside the `size`-byte input was passed on. -/
theorem FS_w_all_reads_behind_input :
    FS_w_all (sample_env false (fun _ => none)) (cmem "1,29") 3 0 separate_pn []
      = some (0, [Event.stat Counter.write_array, Event.write (Val.i [1]) 0,
          Event.write (Val.i [29]) 1]) ∧
    bytes (cmem "1,29") 3 = ['1', ',', '2'] := by
  decide

/-! ### Array parsers -/

/-- C8. The renderings of `5`, of `1, 2` and of `11, 22, 33`, joined by commas
with nothing behind them, are parsed by `FS_input_unsigned_array` to `0`, to
`1, 0` and to `11, 22, 3`, and `-4, 25` by `FS_input_integer_array` to
`-4, 2`: the last byte of the input is never part of a field. -/
theorem FS_input_array_drops_last_byte :
    FS_input_unsigned_array [0] (cmem "5") 1 1 = some (0, [0]) ∧
    FS_input_unsigned_array [0, 0] (cmem "1,2") 3 2 = some (0, [1, 0]) ∧
    FS_input_unsigned_array [0, 0, 0] (cmem "11,22,33") 8 3 = some (0, [11, 22, 3]) ∧
    FS_input_integer_array [0, 0] (cmem "-4,25") 5 2 = some (0, [-4, 2]) := by
  decide

/-- C9. ALL of a separately-stored integer property of two elements is
written from the single field `1`: `FS_w_all` writes element 0, hands the
empty rest to the write of element 1, which does not parse, and returns 1;
element 1 is not written. The same input written to ALL of an
aggregate-stored property (`FS_gamish`) succeeds with zeros for the absent
elements. -/
theorem FS_w_all_fails_on_missing_elements :
    FS_w_all (sample_env false (fun _ => none)) (cmem "1") 1 0 separate_pn []
      = some (1, [Event.stat Counter.write_array, Event.write (Val.i [1]) 0]) ∧
    FS_gamish (sample_env false (fun _ => none)) (cmem "1\n") 2 0 (aggregate_pn .ft_integer (-1)) []
      = some (0, [Event.write (Val.i [1, 0, 0]) (-1)]) := by
  decide

/-! ### Yes/no texts -/

/-- Two different bytes have different codes. -/
theorem char_sub_ne_zero {c1 c2 : Char} (h : c1 ≠ c2) :
    (c1.toNat : Int) - (c2.toNat : Int) ≠ 0 := by
  intro h0
  apply h
  have h1 : c1.toNat = c2.toNat := by omega
  rw [← Char.ofNat_toNat c1, h1, Char.ofNat_toNat]

/-- `strncasecmp(w, buf, 2)` is 0 exactly when the first two bytes of `buf`
are, ignoring case, the first two bytes `a`, `b` of the word `w`. -/
theorem strncasecmp_two (w buf : Mem) (a b : Char) (ha : tolower (w 0) = a)
    (hb : tolower (w 1) = b) (ha0 : a ≠ NUL) :
    strncasecmp w buf 2 = 0 ↔ tolower (buf 0) = a ∧ tolower (buf 1) = b := by
  simp only [strncasecmp, shift, ha, hb, Nat.add_zero]
  by_cases h0 : a = tolower (buf 0)
  · by_cases h1 : b = tolower (buf 1)
    · rw [if_neg (not_not.mpr h0), if_neg ha0, if_neg (not_not.mpr h1)]
      exact ⟨fun _ => ⟨h0.symm, h1.symm⟩, fun _ => by split_ifs <;> rfl⟩
    · rw [if_neg (not_not.mpr h0), if_neg ha0, if_pos h1]
      exact ⟨fun h => absurd h (char_sub_ne_zero h1), fun h => absurd h.2.symm h1⟩
  · rw [if_pos h0]
    exact ⟨fun h => absurd h (char_sub_ne_zero h0), fun h => absurd h.1.symm h0⟩

/-- C10, as the claim states it, fails: the two-byte input `1x` is none of the
six words, yet `FS_input_yesno` succeeds on it and stores 1; so it does on the
four bytes `yeti`. -/
theorem FS_input_yesno_accepts_more :
    yesno_word (bytes (cmem "1x") 2) = false ∧ FS_input_yesno 7 (cmem "1x") 2 = (0, 1) ∧
    yesno_word (bytes (cmem "yeti") 4) = false ∧ FS_input_yesno 7 (cmem "yeti") 4 = (0, 1) := by
  decide

/-- C10, amended. `FS_input_yesno` fails, leaving `*result` as it was, on the
empty input and on every input whose first byte is, ignoring case, none of
`0`, `1`, `o`, `y`, `n`. It succeeds on every non-empty input that begins,
ignoring case, with one of `1`, `on`, `yes`, storing 1, or with one of `0`,
`no`, `off`, storing 0, whatever bytes follow. On an input of two or more
bytes it succeeds exactly when the first byte is `0` or `1` or the first two
bytes are, ignoring case, `on`, `ye`, `of` or `no`. A success stores 0 or 1. -/
theorem FS_input_yesno_leading_bytes (result : Int) (buf : Mem) (size : Nat) :
    (size = 0 → FS_input_yesno result buf size = (1, result)) ∧
    ((size ≠ 0 ∧ buf 0 = '1') ∨ begins_with buf size ['o', 'n'] ∨
        begins_with buf size ['y', 'e', 's'] → FS_input_yesno result buf size = (0, 1)) ∧
    ((size ≠ 0 ∧ buf 0 = '0') ∨ begins_with buf size ['n', 'o'] ∨
        begins_with buf size ['o', 'f', 'f'] → FS_input_yesno result buf size = (0, 0)) ∧
    (tolower (buf 0) ∉ ['0', '1', 'o', 'y', 'n'] →
        FS_input_yesno result buf size = (1, result)) ∧
    (2 ≤ size → ((FS_input_yesno result buf size).1 = 0 ↔
        buf 0 = '1' ∨ buf 0 = '0' ∨ (tolower (buf 0) = 'o' ∧ tolower (buf 1) = 'n') ∨
        (tolower (buf 0) = 'y' ∧ tolower (buf 1) = 'e') ∨
        (tolower (buf 0) = 'o' ∧ tolower (buf 1) = 'f') ∨
        (tolower (buf 0) = 'n' ∧ tolower (buf 1) = 'o'))) ∧
    ((FS_input_yesno result buf size).1 = 0 →
        (FS_input_yesno result buf size).2 = 0 ∨ (FS_input_yesno result buf size).2 = 1) := by
  have hon : strncasecmp (cmem "on") buf 2 = 0 ↔ tolower (buf 0) = 'o' ∧ tolower (buf 1) = 'n' :=
    strncasecmp_two _ _ _ _ (by decide) (by decide) (by decide)
  have hyes : strncasecmp (cmem "yes") buf 2 = 0 ↔
      tolower (buf 0) = 'y' ∧ tolower (buf 1) = 'e' :=
    strncasecmp_two _ _ _ _ (by decide) (by decide) (by decide)
  have hoff : strncasecmp (cmem "off") buf 2 = 0 ↔
      tolower (buf 0) = 'o' ∧ tolower (buf 1) = 'f' :=
    strncasecmp_two _ _ _ _ (by decide) (by decide) (by decide)
  have hno : strncasecmp (cmem "no") buf 2 = 0 ↔ tolower (buf 0) = 'n' ∧ tolower (buf 1) = 'o' :=
    strncasecmp_two _ _ _ _ (by decide) (by decide) (by decide)
  have h2 : bytes buf 2 = [buf 0, buf 1] := rfl
  have h3 : bytes buf 3 = [buf 0, buf 1, buf 2] := rfl
  have hl1 : ∀ c : Char, buf 0 = '1' → tolower (buf 0) = c → c = '1' := by
    intro c h hc; rw [h] at hc; rw [← hc]; decide
  simp only [FS_input_yesno, hon, hyes, hoff, hno, begins_with, h2, h3, List.length_cons,
    List.length_nil, List.map_cons, List.map_nil]
  refine ⟨?_, ?_, ?_, ?_, ?_, ?_⟩
  · intro h
    simp [h]
  · rintro (⟨hs, h1⟩ | ⟨hs, hb⟩ | ⟨hs, hb⟩)
    · simp [hs, h1]
    · have hs' : size ≠ 0 := by omega
      simp only [List.cons.injEq, and_true] at hb
      simp [hs', hb.1, hb.2]
    · have hs' : size ≠ 0 := by omega
      simp only [List.cons.injEq, and_true] at hb
      simp [hs', hb.1, hb.2.1]
  · rintro (⟨hs, h1⟩ | ⟨hs, hb⟩ | ⟨hs, hb⟩)
    · have e1 : tolower '0' = '0' := by decide
      simp [hs, h1, e1]
    · have hs' : size ≠ 0 := by omega
      simp only [List.cons.injEq, and_true] at hb
      have n1 : buf 0 ≠ '1' := fun h => absurd (hl1 _ h hb.1) (by decide)
      simp [hs', hb.1, hb.2, n1]
    · have hs' : size ≠ 0 := by omega
      simp only [List.cons.injEq, and_true] at hb
      have n1 : buf 0 ≠ '1' := fun h => absurd (hl1 _ h hb.1) (by decide)
      simp [hs', hb.1, hb.2.1, n1]
  · intro h
    simp only [List.mem_cons, List.mem_singleton, not_or, List.not_mem_nil, or_false] at h
    obtain ⟨c0, c1, co, cy, cn⟩ := h
    have n1 : buf 0 ≠ '1' := fun h => c1 (by rw [h]; decide)
    have n0 : buf 0 ≠ '0' := fun h => c0 (by rw [h]; decide)
    simp [n1, n0, co, cy, cn]
  · intro hs
    have hs' : size ≠ 0 := by omega
    simp only [hs', ne_eq, not_false_eq_true, if_true]
    split_ifs with ha hb
    · refine ⟨fun _ => ?_, fun _ => rfl⟩
      rcases ha with h | h | h
      · exact Or.inl h
      · exact Or.inr (Or.inr (Or.inl h))
      · exact Or.inr (Or.inr (Or.inr (Or.inl h)))
    · refine ⟨fun _ => ?_, fun _ => rfl⟩
      rcases hb with h | h | h
      · exact Or.inr (Or.inl h)
      · exact Or.inr (Or.inr (Or.inr (Or.inr (Or.inl h))))
      · exact Or.inr (Or.inr (Or.inr (Or.inr (Or.inr h))))
    · refine ⟨fun h => absurd h one_ne_zero, fun h => ?_⟩
      rcases h with h | h | h | h | h | h
      · exact absurd (Or.inl h) ha
      · exact absurd (Or.inl h) hb
      · exact absurd (Or.inr (Or.inl h)) ha
      · exact absurd (Or.inr (Or.inr h)) ha
      · exact absurd (Or.inr (Or.inl h)) hb
      · exact absurd (Or.inr (Or.inr h)) hb
  · intro h
    split_ifs at h ⊢ <;> simp_all

/-- C10, amended, on the empty input, on `Yes` followed by a newline, on `OFF`,
on `maybe` and on `yeti`. -/
theorem FS_input_yesno_leading_bytes_witness :
    FS_input_yesno 7 (cmem "") 0 = (1, 7) ∧
    FS_input_yesno 7 (cmem "Yes\n") 4 = (0, 1) ∧
    FS_input_yesno 7 (cmem "OFF") 3 = (0, 0) ∧
    FS_input_yesno 7 (cmem "maybe") 5 = (1, 7) ∧
    (FS_input_yesno 7 (cmem "yeti") 4).1 = 0 :=
  ⟨(FS_input_yesno_leading_bytes 7 (cmem "") 0).1 rfl,
   (FS_input_yesno_leading_bytes 7 (cmem "Yes\n") 4).2.1 (Or.inr (Or.inr ⟨by decide, by decide⟩)),
   (FS_input_yesno_leading_bytes 7 (cmem "OFF") 3).2.2.1 (Or.inr (Or.inr ⟨by decide, by decide⟩)),
   (FS_input_yesno_leading_bytes 7 (cmem "maybe") 5).2.2.2.1 (by decide),
   ((FS_input_yesno_leading_bytes 7 (cmem "yeti") 4).2.2.2.2.1 (by decide)).2
     (Or.inr (Or.inr (Or.inr (Or.inl ⟨by decide, by decide⟩))))⟩

/-! ### Round trip of the scalar formats -/

/-- What the parsers need to know of a digit character. -/
theorem digitChar_facts : ∀ d, d < 10 →
    isdigit (digitChar d) = true ∧ isspace (digitChar d) = false ∧ digitChar d ≠ NUL ∧
    digitChar d ≠ '-' ∧ digitChar d ≠ '+' ∧ (digitChar d).toNat - '0'.toNat = d := by
  decide

/-- Every character of a rendering is a digit character. -/
theorem render_unsigned_digits (u : Nat) :
    ∀ c ∈ render_unsigned u, ∃ d, d < 10 ∧ c = digitChar d := by
  intro c hc
  unfold render_unsigned at hc
  split_ifs at hc with h0
  · simp only [List.mem_singleton] at hc
    exact ⟨0, by omega, by rw [hc]; rfl⟩
  · simp only [List.mem_map, List.mem_reverse] at hc
    obtain ⟨d, hd, rfl⟩ := hc
    exact ⟨d, Nat.digits_lt_base (by omega) hd, rfl⟩

/-- A rendering is not empty. -/
theorem render_unsigned_ne_nil (u : Nat) : render_unsigned u ≠ [] := by
  unfold render_unsigned
  split_ifs with h0
  · simp
  · simpa using (Nat.digits_ne_nil_iff_ne_zero.mpr h0)

/-- The digits of a number, read most significant first, give the number. -/
theorem digitsVal_reverse_map (l : List Nat) (h : ∀ d ∈ l, d < 10) :
    digitsVal (l.reverse.map digitChar) = Nat.ofDigits 10 l := by
  induction l with
  | nil => rfl
  | cons d l ih =>
    have hd := (digitChar_facts d (h d (List.mem_cons_self _ _))).2.2.2.2.2
    have ih' := ih (fun x hx => h x (List.mem_cons_of_mem _ hx))
    unfold digitsVal at ih' ⊢
    rw [List.reverse_cons, List.map_append, List.foldl_append, ih']
    simp only [List.map_cons, List.map_nil, List.foldl_cons, List.foldl_nil, hd, Nat.ofDigits_cons]
    omega

/-- The value of a rendering. -/
theorem digitsVal_render_unsigned (u : Nat) : digitsVal (render_unsigned u) = u := by
  unfold render_unsigned
  split_ifs with h0
  · rw [h0]; rfl
  · rw [digitsVal_reverse_map _ (fun d hd => Nat.digits_lt_base (by omega) hd),
      Nat.ofDigits_digits]

/-- A string of digit characters holds no NUL. -/
theorem cstr_digits (l : List Char) (h : ∀ c ∈ l, ∃ d, d < 10 ∧ c = digitChar d) :
    cstr l = l := by
  unfold cstr
  rw [List.takeWhile_eq_self_iff]
  intro c hc
  obtain ⟨d, hd, rfl⟩ := h c hc
  simpa using (digitChar_facts d hd).2.2.1

/-- All of a string of digit characters is taken as digits. -/
theorem takeWhile_isdigit_digits (l : List Char) (h : ∀ c ∈ l, ∃ d, d < 10 ∧ c = digitChar d) :
    l.takeWhile isdigit = l := by
  rw [List.takeWhile_eq_self_iff]
  intro c hc
  obtain ⟨d, hd, rfl⟩ := h c hc
  exact (digitChar_facts d hd).1

/-- The subject sequence of a non-empty string of digit characters. -/
theorem subject_digits (l : List Char) (h : ∀ c ∈ l, ∃ d, d < 10 ∧ c = digitChar d)
    (hne : l ≠ []) : subject l = (0, false, l) := by
  cases l with
  | nil => exact absurd rfl hne
  | cons c r =>
    obtain ⟨d, hd, hc⟩ := h c (List.mem_cons_self _ _)
    have f := digitChar_facts d hd
    have htw := takeWhile_isdigit_digits (c :: r) h
    subst hc
    unfold subject
    simp only [List.takeWhile_cons, List.dropWhile_cons, f.2.1, Bool.false_eq_true, if_false,
      List.length_nil]
    split
    · rename_i heq
      exact absurd (List.cons.inj heq).1 f.2.2.2.1
    · rename_i heq
      exact absurd (List.cons.inj heq).1 f.2.2.2.2.1
    · rw [List.takeWhile_cons] at htw
      rw [htw]

/-- The subject sequence of a minus sign before digit characters. -/
theorem subject_minus_digits (l : List Char) (h : ∀ c ∈ l, ∃ d, d < 10 ∧ c = digitChar d) :
    subject ('-' :: l) = (1, true, l) := by
  have hs : isspace '-' = false := by decide
  unfold subject
  simp only [List.takeWhile_cons, List.dropWhile_cons, hs, Bool.false_eq_true, if_false,
    List.length_nil, takeWhile_isdigit_digits l h]

/-- `FS_input_unsigned` reads back the rendering of an `unsigned int`. -/
theorem FS_input_unsigned_render (u : Nat) (hu : u < 2 ^ 32) (buf : Mem)
    (hbuf : bytes buf (render_unsigned u).length = render_unsigned u) :
    FS_input_unsigned buf (render_unsigned u).length = (0, u) := by
  have hd := render_unsigned_digits u
  have hne := render_unsigned_ne_nil u
  have hlen : (render_unsigned u).length ≠ 0 := by
    simpa [List.length_eq_zero] using hne
  unfold FS_input_unsigned strtoul
  rw [hbuf, cstr_digits _ hd, subject_digits _ hd hne]
  cases hr : render_unsigned u with
  | nil => exact absurd hr hne
  | cons c r =>
    have hv : digitsVal (c :: r) = u := by rw [← hr]; exact digitsVal_render_unsigned u
    have h1 : ¬ u > ULONG_MAX := by unfold ULONG_MAX; omega
    have h2 : to_uint u = u := by unfold to_uint; omega
    simp [hv, h1, h2]

/-- `FS_input_integer` reads back the rendering of an `int`. -/
theorem FS_input_integer_render (v : Int) (hlo : -(2 ^ 31) ≤ v) (hhi : v < 2 ^ 31) (buf : Mem)
    (hbuf : bytes buf (render_integer v).length = render_integer v) :
    FS_input_integer buf (render_integer v).length = (0, v) := by
  have h2 : to_int v = v := by unfold to_int; omega
  unfold FS_input_integer strtol
  rw [hbuf]
  unfold render_integer
  split_ifs with hneg
  · have hd := render_unsigned_digits v.natAbs
    have hne := render_unsigned_ne_nil v.natAbs
    have hc : cstr ('-' :: render_unsigned v.natAbs) = '-' :: render_unsigned v.natAbs := by
      unfold cstr
      rw [List.takeWhile_cons]
      have : ('-' != NUL) = true := by decide
      rw [if_pos this]
      exact congrArg _ (cstr_digits _ hd)
    rw [hc, subject_minus_digits _ hd]
    cases hr : render_unsigned v.natAbs with
    | nil => exact absurd hr hne
    | cons c r =>
      have hv : (digitsVal (c :: r) : Int) = -v := by
        rw [← hr, digitsVal_render_unsigned]; omega
      have h3 : ¬ v > LONG_MAX := by unfold LONG_MAX; omega
      have h4 : ¬ v < LONG_MIN := by unfold LONG_MIN; omega
      simp [hv, h3, h4, h2]
  · have hd := render_unsigned_digits v.toNat
    have hne := render_unsigned_ne_nil v.toNat
    rw [cstr_digits _ hd, subject_digits _ hd hne]
    cases hr : render_unsigned v.toNat with
    | nil => exact absurd hr hne
    | cons c r =>
      have hv : (digitsVal (c :: r) : Int) = v := by
        rw [← hr, digitsVal_render_unsigned]; omega
      have h3 : ¬ v > LONG_MAX := by unfold LONG_MAX; omega
      have h4 : ¬ v < LONG_MIN := by unfold LONG_MIN; omega
      simp [hv, h3, h4, h2]

/-- `FS_input_yesno` on the one-byte texts `1` and `0`. -/
theorem FS_input_yesno_digit (result : Int) (buf : Mem) :
    (buf 0 = '1' → FS_input_yesno result buf 1 = (0, 1)) ∧
    (buf 0 = '0' → FS_input_yesno result buf 1 = (0, 0)) := by
  have hon : strncasecmp (cmem "on") buf 2 = 0 ↔ tolower (buf 0) = 'o' ∧ tolower (buf 1) = 'n' :=
    strncasecmp_two _ _ _ _ (by decide) (by decide) (by decide)
  have hyes : strncasecmp (cmem "yes") buf 2 = 0 ↔
      tolower (buf 0) = 'y' ∧ tolower (buf 1) = 'e' :=
    strncasecmp_two _ _ _ _ (by decide) (by decide) (by decide)
  have e0 : tolower '0' = '0' := by decide
  constructor
  · intro h
    simp [FS_input_yesno, h]
  · intro h
    simp [FS_input_yesno, hon, hyes, h, e0]

/-- C11. Round trip of the scalar formats. For every `int` `v` the signed
decimal rendering of `v` without leading zeros is parsed by `FS_input_integer`
with result 0 and `v` stored; for every `unsigned int` `u` the decimal
rendering of `u` is parsed by `FS_input_unsigned` with result 0 and `u`
stored; `FS_input_yesno` stores 1 for the text `1` and 0 for the text `0`,
with result 0. The bytes behind the text do not matter. -/
theorem scalar_round_trip (buf : Mem) :
    (∀ v : Int, -(2 ^ 31) ≤ v → v < 2 ^ 31 →
      bytes buf (render_integer v).length = render_integer v →
      FS_input_integer buf (render_integer v).length = (0, v)) ∧
    (∀ u : Nat, u < 2 ^ 32 →
      bytes buf (render_unsigned u).length = render_unsigned u →
      FS_input_unsigned buf (render_unsigned u).length = (0, u)) ∧
    (∀ result : Int, bytes buf 1 = ['1'] → FS_input_yesno result buf 1 = (0, 1)) ∧
    (∀ result : Int, bytes buf 1 = ['0'] → FS_input_yesno result buf 1 = (0, 0)) := by
  have h1 : bytes buf 1 = [buf 0] := rfl
  refine ⟨?_, ?_, ?_, ?_⟩
  · intro v hlo hhi hbuf
    exact FS_input_integer_render v hlo hhi buf hbuf
  · intro u hu hbuf
    exact FS_input_unsigned_render u hu buf hbuf
  · intro result h
    rw [h1] at h
    exact (FS_input_yesno_digit result buf).1 (List.cons.inj h).1
  · intro result h
    rw [h1] at h
    exact (FS_input_yesno_digit result buf).2 (List.cons.inj h).1

/-- The renderings used below. -/
theorem render_samples :
    render_integer (-12) = ['-', '1', '2'] ∧ render_unsigned 4294967295
      = ['4', '2', '9', '4', '9', '6', '7', '2', '9', '5'] ∧
    render_unsigned 128 = ['1', '2', '8'] ∧ render_unsigned 5 = ['5'] := by
  refine ⟨?_, ?_, ?_, ?_⟩ <;>
    simp [render_integer, render_unsigned] <;> decide

/-- C11 on `-12`, on the largest `unsigned int` and on `1`. -/
theorem scalar_round_trip_witness :
    FS_input_integer (cmem "-12") 3 = (0, -12) ∧
    FS_input_unsigned (cmem "4294967295") 10 = (0, 4294967295) ∧
    FS_input_yesno 7 (cmem "1") 1 = (0, 1) := by
  refine ⟨?_, ?_, ?_⟩
  · have h := (scalar_round_trip (cmem "-12")).1 (-12) (by norm_num) (by norm_num)
    rw [render_samples.1] at h
    exact h (by decide)
  · have h := (scalar_round_trip (cmem "4294967295")).2.1 4294967295 (by norm_num)
    rw [render_samples.2.1] at h
    exact h (by decide)
  · exact (scalar_round_trip (cmem "1")).2.2.1 7 (by decide)

/-! ### Bitfields -/

/-- The packing loop computes the sum of the low bits, each shifted to its
index, and stays within as many bits as there are elements. -/
theorem pack_bits_eq (y : List Int) (h : y.length ≤ 32) :
    pack_bits y = bits_sum y ∧ pack_bits y < 2 ^ y.length := by
  induction y with
  | nil => simp [pack_bits, bits_sum]
  | cons a l ih =>
    have hl : l.length ≤ 31 := by simpa using h
    obtain ⟨ih1, ih2⟩ := ih (by omega)
    have hb : (a % 2).toNat < 2 ^ 1 := by omega
    have hp : pack_bits l * 2 < 2 ^ 32 := by
      have : (2 : Nat) ^ l.length ≤ 2 ^ 31 := Nat.pow_le_pow_right (by omega) hl
      omega
    have hstep : pack_bits (a :: l) = 2 * pack_bits l + (a % 2).toNat := by
      have e := Nat.mul_add_lt_is_or hb (pack_bits l)
      have hu : to_uint (pack_bits l * 2) = 2 ^ 1 * pack_bits l := by
        unfold to_uint
        rw [Nat.mod_eq_of_lt hp]
        omega
      show to_uint (pack_bits l * 2) ||| (a % 2).toNat = 2 * pack_bits l + (a % 2).toNat
      rw [hu, ← e]
    constructor
    · rw [hstep, ih1]
      unfold bits_sum
      rw [List.length_cons, Finset.sum_range_succ', Finset.mul_sum]
      simp only [List.getD_cons_succ, List.getD_cons_zero, pow_zero, mul_one, pow_succ]
      congr 1
      apply Finset.sum_congr rfl
      intro i _
      ring
    · rw [hstep, List.length_cons, pow_succ]
      omega

/-- The yes/no array parser, when it returns, keeps the length of the array. -/
theorem FS_input_yesno_array_loop_length (buf : Mem) (endp : Int) (k : Nat) :
    ∀ (i : Nat) (next : Int) (results rs : List Int),
      FS_input_yesno_array_loop buf endp k i next results = some rs →
      rs.length = results.length := by
  induction k with
  | zero =>
    intro i next results rs h
    simp only [FS_input_yesno_array_loop, Option.some.injEq] at h
    rw [← h]
  | succ k ih =>
    intro i next results rs h
    rw [FS_input_yesno_array_loop] at h
    simp only at h
    split_ifs at h
    · cases hf : field_end buf endp next with
      | none => simp [hf] at h
      | some next1 =>
        simp only [hf] at h
        rw [ih _ _ _ _ h]
        split_ifs <;> simp
    · rw [ih _ _ _ _ h]
      simp

/-- The integer array parser, when it returns, keeps the length of the array. -/
theorem FS_input_integer_array_loop_length (buf : Mem) (endp : Int) (k : Nat) :
    ∀ (i : Nat) (next : Int) (results rs : List Int),
      FS_input_integer_array_loop buf endp k i next results = some rs →
      rs.length = results.length := by
  induction k with
  | zero =>
    intro i next results rs h
    simp only [FS_input_integer_array_loop, Option.some.injEq] at h
    rw [← h]
  | succ k ih =>
    intro i next results rs h
    rw [FS_input_integer_array_loop] at h
    simp only at h
    split_ifs at h
    · cases hf : field_end buf endp next with
      | none => simp [hf] at h
      | some next1 =>
        simp only [hf] at h
        rw [ih _ _ _ _ h]
        split_ifs <;> simp
    · rw [ih _ _ _ _ h]
      simp

/-- What `FS_parse_write` makes of the outcome of its `switch`: the result
is handed on and the trace is continued by the cache block only. -/
theorem FS_parse_write_of_switch (env : Env) (buf : Mem) (size : Nat) (offset : Int)
    (pn : parsedname) (ft : filetype) (t : Trace) (ret : Int) (text : List Char) (t1 : Trace)
    (hft : pn.ft = some ft)
    (h : FS_parse_write_switch env buf size offset pn ft (env.FileLength pn)
      (env.OW_CACHE && env.IsLocalCacheEnabled pn && env.alloc t AllocSite.cbuf) t
      = some (ret, text, t1)) :
    ∃ tail, FS_parse_write env buf size offset pn t = some (ret, t1 ++ tail) ∧
      ∀ e ∈ tail, e.is_handler_call = false := by
  obtain ⟨tail, htail, hno⟩ := cache_update_tail env pn
    (env.OW_CACHE && env.IsLocalCacheEnabled pn && env.alloc t AllocSite.cbuf) text ret t1
  exact ⟨tail, by simp [FS_parse_write, hft, h, htail], hno⟩

/-- What `FS_gamish` makes of the outcome of its `switch` when the offset
is zero. -/
theorem FS_gamish_of_switch (env : Env) (buf : Mem) (size : Nat)
    (pn : parsedname) (ft : filetype) (ag : aggregate) (t : Trace) (ret : Int)
    (text : List Char) (t1 : Trace) (hft : pn.ft = some ft) (hag : ft.ag = some ag)
    (h : FS_gamish_switch env buf size 0 pn ft ag.elements (env.FullFileLength pn)
      (env.OW_CACHE && env.IsLocalCacheEnabled pn && env.alloc t AllocSite.cbuf) t
      = some (ret, text, t1)) :
    ∃ tail, FS_gamish env buf size 0 pn t = some (ret, t1 ++ tail) ∧
      ∀ e ∈ tail, e.is_handler_call = false := by
  obtain ⟨tail, htail, hno⟩ := cache_update_tail env pn
    (env.OW_CACHE && env.IsLocalCacheEnabled pn && env.alloc t AllocSite.cbuf) text ret t1
  exact ⟨tail, by simp [FS_gamish, hft, hag, h, htail], hno⟩

/-- One attempt at a single-element write of an unsigned or bitfield
property whose text parses to `U`: the handler is called with `U`. -/
theorem FS_parse_write_unsigned (env : Env) (buf : Mem) (size : Nat) (pn : parsedname)
    (ft : filetype) (w : write_union) (U : Nat) (t : Trace)
    (hft : pn.ft = some ft) (hfmt : ft.format = .ft_bitfield ∨ ft.format = .ft_unsigned)
    (hwr : ft.write = some w) (hparse : FS_input_unsigned buf size = (0, U)) :
    ∃ tail, FS_parse_write env buf size 0 pn t
        = some (if w.u t [U] pn.extension ≠ 0 then 1 else 0,
            t ++ [Event.write (Val.u [U]) pn.extension] ++ tail) ∧
      ∀ e ∈ tail, e.is_handler_call = false := by
  have hs : ∃ text, FS_parse_write_switch env buf size 0 pn ft (env.FileLength pn)
      (env.OW_CACHE && env.IsLocalCacheEnabled pn && env.alloc t AllocSite.cbuf) t
      = some (if w.u t [U] pn.extension ≠ 0 then 1 else 0, text,
          t ++ [Event.write (Val.u [U]) pn.extension]) := by
    rcases hfmt with hf | hf <;> simp [FS_parse_write_switch, hf, hparse, hwr]
  obtain ⟨text, hs⟩ := hs
  exact FS_parse_write_of_switch env buf size 0 pn ft t _ text _ hft hs

/-- The attempts at a single-element write of an unsigned or bitfield
property whose text parses to `U`: the first attempt calls the write handler
with `U`, and every handler call is such a call. -/
theorem FS_real_write_tries_unsigned (env : Env) (buf : Mem) (size : Nat) (pn : parsedname)
    (ft : filetype) (w : write_union) (U : Nat)
    (hft : pn.ft = some ft) (hfmt : ft.format = .ft_bitfield ∨ ft.format = .ft_unsigned)
    (hwr : ft.write = some w) (hparse : FS_input_unsigned buf size = (0, U)) (k : Nat) :
    ∀ (i : Nat) (r : Int) (t : Trace),
      ∃ ret suffix, FS_real_write_tries env buf size 0 pn (k + 1) i r t
          = some (ret, t ++ [Event.stat (Counter.write_tries i),
              Event.write (Val.u [U]) pn.extension] ++ suffix) ∧
        ∀ e ∈ suffix, e.is_handler_call = true → e = Event.write (Val.u [U]) pn.extension := by
  induction k with
  | zero =>
    intro i r t
    obtain ⟨tail, h1, h2⟩ := FS_parse_write_unsigned env buf size pn ft w U
      (t ++ [Event.stat (Counter.write_tries i)]) hft hfmt hwr hparse
    refine ⟨if w.u (t ++ [Event.stat (Counter.write_tries i)]) [U] pn.extension ≠ 0
      then (1 : Int) else 0, tail, ?_, ?_⟩
    · unfold FS_real_write_tries
      rw [h1]
      simp only [FS_real_write_tries, List.append_assoc, List.singleton_append, ite_self,
        List.cons_append, List.nil_append]
    · intro e he hc
      rw [h2 e he] at hc
      exact absurd hc (by decide)
  | succ k ih =>
    intro i r t
    obtain ⟨tail, h1, h2⟩ := FS_parse_write_unsigned env buf size pn ft w U
      (t ++ [Event.stat (Counter.write_tries i)]) hft hfmt hwr hparse
    by_cases hz : (if w.u (t ++ [Event.stat (Counter.write_tries i)]) [U] pn.extension ≠ 0
        then (1 : Int) else 0) = 0
    · refine ⟨0, tail, ?_, ?_⟩
      · unfold FS_real_write_tries
        rw [h1]
        simp only [hz, if_true, List.append_assoc, List.singleton_append,
          List.cons_append, List.nil_append]
      · intro e he hc
        rw [h2 e he] at hc
        exact absurd hc (by decide)
    · obtain ⟨ret, suffix, h3, h4⟩ := ih (i + 1)
        (if w.u (t ++ [Event.stat (Counter.write_tries i)]) [U] pn.extension ≠ 0
          then (1 : Int) else 0)
        (t ++ [Event.stat (Counter.write_tries i)] ++ [Event.write (Val.u [U]) pn.extension]
          ++ tail)
      refine ⟨ret, tail ++ [Event.stat (Counter.write_tries (i + 1)),
        Event.write (Val.u [U]) pn.extension] ++ suffix, ?_, ?_⟩
      · rw [FS_real_write_tries, h1]
        simp only [hz, if_false]
        rw [h3]
        simp only [List.append_assoc, List.singleton_append, List.cons_append, List.nil_append]
      · intro e he hc
        simp only [List.mem_append, List.mem_cons, List.mem_singleton, List.not_mem_nil,
          or_false] at he
        rcases he with (he | he | he) | he
        · rw [h2 e he] at hc
          exact absurd hc (by decide)
        · rw [he] at hc
          exact absurd hc (by simp [Event.is_handler_call])
        · exact he
        · exact h4 e he hc

/-- What `FS_input_yesno_array` hands back when the parse of `parsed_yesno`
returns. -/
theorem parsed_yesno_array (buf : Mem) (size elements : Nat) (y : List Int)
    (h : parsed_yesno buf size elements = some y) :
    FS_input_yesno_array (List.replicate elements 0) buf size elements = some (0, y) ∧
    y.length = elements := by
  simp only [parsed_yesno, FS_input_yesno_array, Option.map_map] at h
  cases hl : FS_input_yesno_array_loop buf ((size : Int) - 1) elements 0 0
      (List.replicate elements 0) with
  | none => simp [hl] at h
  | some rs =>
    simp only [hl, Option.map_some', Function.comp_apply, Option.some.injEq] at h
    have hlen := FS_input_yesno_array_loop_length buf _ elements 0 0 _ rs hl
    subst h
    refine ⟨?_, by simpa using hlen⟩
    simp [FS_input_yesno_array, hl]

/-- C12. For a bitfield property of `N ≤ 32` elements that is not stored per
element, whenever the parse of the text as `N` yes/no values returns, with
the values `y_i`, a write of ALL (extension -1) calls the write handler once,
with the single unsigned `U` that is the sum over `i < N` of `(y_i & 1) << i`;
and a write of BYTE (extension -2) of the decimal text of `U` calls the write
handler with the same `U` in its first and in every further attempt. -/
theorem bitfield_all_write (env : Env) (buf : Mem) (size : Nat) (pn : parsedname)
    (ft : filetype) (ag : aggregate) (w : write_union) (t : Trace) (y : List Int)
    (hft : pn.ft = some ft) (hfmt : ft.format = .ft_bitfield) (hag : ft.ag = some ag)
    (hcomb : ag.combined ≠ .ag_separate) (hwr : ft.write = some w)
    (hN : ag.elements ≤ 32) (halloc : env.alloc t AllocSite.values = true)
    (hy : parsed_yesno buf size ag.elements = some y) :
    (pn.extension = -1 →
      ∃ tail, FS_real_write env buf size 0 pn t
          = some (w.u t [bits_sum y] (-1),
              t ++ [Event.write (Val.u [bits_sum y]) (-1)] ++ tail) ∧
        ∀ e ∈ tail, e.is_handler_call = false) ∧
    (pn.extension = -2 → ∀ text : Mem,
      bytes text (render_unsigned (bits_sum y)).length = render_unsigned (bits_sum y) →
      ∃ ret suffix, FS_real_write env text (render_unsigned (bits_sum y)).length 0 pn t
          = some (ret, t ++ [Event.stat (Counter.write_tries 0),
              Event.write (Val.u [bits_sum y]) (-2)] ++ suffix) ∧
        ∀ e ∈ suffix, e.is_handler_call = true →
          e = Event.write (Val.u [bits_sum y]) (-2)) := by
  obtain ⟨harr, hlen⟩ := parsed_yesno_array buf size ag.elements y hy
  obtain ⟨hpack, hlt⟩ := pack_bits_eq y (by omega)
  have hwn : ft.write.isNone = false := by simp [hwr]
  constructor
  · intro hext
    have hs : ∃ text, FS_gamish_switch env buf size 0 pn ft ag.elements (env.FullFileLength pn)
        (env.OW_CACHE && env.IsLocalCacheEnabled pn && env.alloc t AllocSite.cbuf) t
        = some (w.u t [bits_sum y] (-1), text,
            t ++ [Event.write (Val.u [bits_sum y]) (-1)]) := by
      rw [← hpack]
      simp [FS_gamish_switch, hfmt, halloc, hwr, hext, harr]
    obtain ⟨text, hs⟩ := hs
    obtain ⟨tail, h1, h2⟩ := FS_gamish_of_switch env buf size pn ft ag t _ text _ hft hag hs
    refine ⟨tail, ?_, h2⟩
    rw [← h1]
    cases hc : ag.combined with
    | ag_separate => exact absurd hc hcomb
    | ag_aggregate => simp [FS_real_write, hft, hwn, hag, hc, hext]
    | ag_mixed => simp [FS_real_write, hft, hwn, hag, hc, hext]
  · intro hext text htext
    have hU : bits_sum y < 2 ^ 32 := by
      have : (2 : Nat) ^ y.length ≤ 2 ^ 32 :=
        Nat.pow_le_pow_right (by omega) (by omega)
      omega
    have hparse := FS_input_unsigned_render _ hU text htext
    obtain ⟨ret, suffix, h1, h2⟩ := FS_real_write_tries_unsigned env text _ pn ft w _ hft
      (Or.inl hfmt) hwr hparse 2 0 0 t
    rw [hext] at h1 h2
    refine ⟨ret, suffix, ?_, h2⟩
    rw [← h1]
    cases hc : ag.combined with
    | ag_separate => exact absurd hc hcomb
    | ag_aggregate => simp [FS_real_write, hft, hwn, hag, hc, hext]
    | ag_mixed => simp [FS_real_write, hft, hwn, hag, hc, hext]

/-- C12 on a bitfield of eight elements: the text `1,0,1,1` followed by a
newline, written to ALL, and the text `13`, written to BYTE, both hand 13 to
the write handler. -/
theorem bitfield_all_write_witness :
    parsed_yesno (cmem "1,0,1,1\n") 8 8 = some [1, 0, 1, 1, 0, 0, 0, 0] ∧
    bits_sum [1, 0, 1, 1, 0, 0, 0, 0] = 13 ∧
    (∃ tail, FS_real_write (sample_env false (fun _ => none)) (cmem "1,0,1,1\n") 8 0
        (bitfield_pn (-1)) []
      = some (0, [] ++ [Event.write (Val.u [13]) (-1)] ++ tail)) ∧
    (∃ ret suffix, FS_real_write (sample_env false (fun _ => none)) (cmem "13") 2 0
        (bitfield_pn (-2)) []
      = some (ret, [] ++ [Event.stat (Counter.write_tries 0), Event.write (Val.u [13]) (-2)]
          ++ suffix)) := by
  have hy : parsed_yesno (cmem "1,0,1,1\n") 8 8 = some [1, 0, 1, 1, 0, 0, 0, 0] := by decide
  have hb : bits_sum [1, 0, 1, 1, 0, 0, 0, 0] = 13 := by decide
  have h := bitfield_all_write (sample_env false (fun _ => none)) (cmem "1,0,1,1\n") 8
    (bitfield_pn (-1)) (sample_ft .ft_bitfield (some ⟨8, .ag_aggregate⟩)) ⟨8, .ag_aggregate⟩
    sample_write [] [1, 0, 1, 1, 0, 0, 0, 0] rfl rfl rfl (by decide) rfl (by decide) rfl hy
  have h' := bitfield_all_write (sample_env false (fun _ => none)) (cmem "1,0,1,1\n") 8
    (bitfield_pn (-2)) (sample_ft .ft_bitfield (some ⟨8, .ag_aggregate⟩)) ⟨8, .ag_aggregate⟩
    sample_write [] [1, 0, 1, 1, 0, 0, 0, 0] rfl rfl rfl (by decide) rfl (by decide) rfl hy
  refine ⟨hy, hb, ?_, ?_⟩
  · obtain ⟨tail, h1, _⟩ := h.1 rfl
    rw [hb] at h1
    exact ⟨tail, h1⟩
  · have h2 := h'.2 rfl (cmem "13")
    rw [hb] at h2
    have hr : render_unsigned 13 = ['1', '3'] := by
      simp [render_unsigned]; decide
    rw [hr] at h2
    obtain ⟨ret, suffix, h3, _⟩ := h2 (by decide)
    exact ⟨ret, suffix, h3⟩

/-! ### DS2890 -/

/-- The result of a DS2890 write handler is 0 exactly when neither the
transaction nor the comparison of the byte read back failed. -/
theorem handler_result_zero_iff (P : Prop) [Decidable P] :
    (if (if P then (1 : Int) else 0) ≠ 0 then -EINVAL else 0) = 0 ↔ ¬ P := by
  by_cases h : P <;> simp [h, EINVAL]

/-- C13. For every unsigned `v` the wiper write issues the transaction
Start, Match `0x0F, min(v,255)`, Read 1 byte, Match `0x96`, End, and returns
0 exactly when the bus transaction returns 0 and the byte read back is
`min(v,255)`. Writing the body `128` to a device that echoes 128 makes
`FS_write` return 3, the write handler being called once with 128. -/
theorem DS2890_wiper_write (bus : Bus) (v : Nat) :
    (FS_w_wiper bus v).2
      = [.TRXN_START, .trxn_match [0x0F, min v 255], .trxn_read 1, .trxn_match [0x96],
          .TRXN_END] ∧
    ((FS_w_wiper bus v).1 = 0 ↔
      (bus [.TRXN_START, .trxn_match [0x0F, min v 255], .trxn_read 1, .trxn_match [0x96],
          .TRXN_END]).1 = 0 ∧
      resp0 (bus [.TRXN_START, .trxn_match [0x0F, min v 255], .trxn_read 1, .trxn_match [0x96],
          .TRXN_END]) = min v 255) ∧
    FS_write (sample_env false (parse_one wiper_path (DS2890_pn (DS2890_wiper echo_bus))))
        wiper_path (cmem "128") 3 0 []
      = some (3, [Event.FS_ParsedName wiper_path, Event.stat Counter.write_calls,
          Event.Cache_Get_Device, Event.TestConnection 0, Event.LockGet 0,
          Event.stat (Counter.write_tries 0), Event.write (Val.u [128]) 0, Event.LockRelease 0,
          Event.Cache_Add_Device 0, Event.stat Counter.write_success,
          Event.stat (Counter.write_bytes 3), Event.FS_ParsedName_destroy]) := by
  have hm : (if v > 255 then 255 else v) = min v 255 := by
    split_ifs with h <;> omega
  have hb : to_byte (min v 255) = min v 255 := by
    unfold to_byte
    omega
  refine ⟨?_, ?_, by decide⟩
  · simp only [FS_w_wiper, OW_w_wiper, hm, hb]
  · simp only [FS_w_wiper, OW_w_wiper, hm, hb]
    rw [handler_result_zero_iff, not_or, not_not, not_not]

/-- C14. A chargepump write sends the command bytes `0x55, 0x4C` when the
yes/no value is true and `0x55, 0x0C` when it is false, within the
transaction Start, Match, Read 1 byte, Match `0x96`, End, and returns 0
exactly when the bus transaction returns 0 and the byte read back is that
second command byte. The body `on` parses to true and the body `off` to
false, and `FS_write` of `on` to a device that echoes the command returns 2. -/
theorem DS2890_chargepump_write (bus : Bus) (val : Int) :
    (FS_w_cp bus val).2
      = [.TRXN_START, .trxn_match [0x55, if val ≠ 0 then 0x4C else 0x0C], .trxn_read 1,
          .trxn_match [0x96], .TRXN_END] ∧
    ((FS_w_cp bus val).1 = 0 ↔
      (bus [.TRXN_START, .trxn_match [0x55, if val ≠ 0 then 0x4C else 0x0C], .trxn_read 1,
          .trxn_match [0x96], .TRXN_END]).1 = 0 ∧
      resp0 (bus [.TRXN_START, .trxn_match [0x55, if val ≠ 0 then 0x4C else 0x0C],
          .trxn_read 1, .trxn_match [0x96], .TRXN_END])
        = if val ≠ 0 then 0x4C else 0x0C) ∧
    (FS_w_cp bus (FS_input_yesno 0 (cmem "on") 2).2).2
      = [.TRXN_START, .trxn_match [0x55, 0x4C], .trxn_read 1, .trxn_match [0x96],
          .TRXN_END] ∧
    (FS_w_cp bus (FS_input_yesno 0 (cmem "off") 3).2).2
      = [.TRXN_START, .trxn_match [0x55, 0x0C], .trxn_read 1, .trxn_match [0x96],
          .TRXN_END] ∧
    FS_write (sample_env false
        (parse_one chargepump_path (DS2890_pn (DS2890_chargepump echo_bus))))
        chargepump_path (cmem "on") 2 0 []
      = some (2, [Event.FS_ParsedName chargepump_path, Event.stat Counter.write_calls,
          Event.Cache_Get_Device, Event.TestConnection 0, Event.LockGet 0,
          Event.stat (Counter.write_tries 0), Event.write (Val.y [1]) 0, Event.LockRelease 0,
          Event.Cache_Add_Device 0, Event.stat Counter.write_success,
          Event.stat (Counter.write_bytes 2), Event.FS_ParsedName_destroy]) := by
  have hon : (FS_input_yesno 0 (cmem "on") 2).2 = 1 := by decide
  have hoff : (FS_input_yesno 0 (cmem "off") 3).2 = 0 := by decide
  refine ⟨?_, ?_, ?_, ?_, by decide⟩
  · simp only [FS_w_cp, OW_w_cp]
  · simp only [FS_w_cp, OW_w_cp, List.getD_cons_succ, List.getD_cons_zero]
    rw [handler_result_zero_iff, not_or, not_not, not_not]
  · rw [hon]; rfl
  · rw [hoff]; rfl

/-! ### Refusals of the dispatcher and of the entry points -/

/-- C15, as the claim states it, fails: the write to element 1 of an
aggregate-stored property without a read handler is refused with `-EFAULT`,
which is not `-EROFS`. -/
theorem FS_real_write_no_read_handler_not_EROFS :
    FS_real_write (sample_env false (fun _ => none)) (cmem "17") 2 0 writeonly_pn []
      = some (-EFAULT, []) ∧ -EFAULT ≠ -EROFS := by
  decide

/-- C15, amended. A write to one element of an aggregate-stored property
that has a write handler and no bulk read handler is refused by
`FS_real_write` (through `FS_w_split`) with `-EFAULT`, and the trace is left
as it was: no handler is called. -/
theorem FS_real_write_no_read_handler (env : Env) (buf : Mem) (size : Nat) (offset : Int)
    (pn : parsedname) (ft : filetype) (ag : aggregate) (w : write_union) (t : Trace)
    (hft : pn.ft = some ft) (hwr : ft.write = some w) (hrd : ft.read = none)
    (hag : ft.ag = some ag) (hcomb : ag.combined = .ag_aggregate) (hext : pn.extension > -1) :
    FS_real_write env buf size offset pn t = some (-EFAULT, t) ∧
    FS_w_split env buf size offset pn t = some (-EFAULT, t) := by
  constructor
  · simp [FS_real_write, FS_w_split, hft, hwr, hrd, hag, hcomb, hext]
  · simp [FS_w_split, hft, hrd, hag]

/-- C15, amended, on the sample property without a read handler. -/
theorem FS_real_write_no_read_handler_witness :
    FS_real_write (sample_env false (fun _ => none)) (cmem "17") 2 0 writeonly_pn []
      = some (-EFAULT, []) :=
  (FS_real_write_no_read_handler (sample_env false (fun _ => none)) (cmem "17") 2 0 writeonly_pn
    { sample_ft .ft_unsigned (some ⟨3, .ag_aggregate⟩) with read := none } ⟨3, .ag_aggregate⟩
    sample_write [] rfl rfl rfl rfl rfl (by decide)).1

/-- C16, as the claim states it, fails: a path with a serial number that is
not hexadecimal, which the parser rejects, makes `FS_write` return `-ENOENT`,
not `-EINVAL`. -/
theorem FS_write_malformed_path :
    (parse_one counter_path counter_pn malformed_path).isNone = true ∧
    FS_write (sample_env false (parse_one counter_path counter_pn)) malformed_path
        (cmem "17") 2 0 []
      = some (-ENOENT, [Event.FS_ParsedName malformed_path, Event.FS_ParsedName_destroy]) ∧
    -ENOENT ≠ -EINVAL := by
  decide

/-- C16, amended. `FS_write` does not distinguish parse failures: whenever
`FS_ParsedName` returns non-zero, for a malformed path as for a path that is
not found, `FS_write` returns `-ENOENT` (the `readonly` flag being clear). -/
theorem FS_write_parse_failure (env : Env) (path : String) (buf : Mem) (size : Nat)
    (offset : Int) (t : Trace)
    (hro : env.readonly = false) (hparse : env.FS_ParsedName t path = none) :
    FS_write env path buf size offset t
      = some (-ENOENT, t ++ [Event.FS_ParsedName path, Event.FS_ParsedName_destroy]) := by
  simp [FS_write, hro, hparse]

/-- C16, amended, on the malformed sample path. -/
theorem FS_write_parse_failure_witness :
    FS_write (sample_env false (parse_one counter_path counter_pn)) malformed_path
        (cmem "17") 2 0 []
      = some (-ENOENT, [] ++ [Event.FS_ParsedName malformed_path, Event.FS_ParsedName_destroy]) :=
  FS_write_parse_failure (sample_env false (parse_one counter_path counter_pn)) malformed_path
    (cmem "17") 2 0 [] rfl (by rfl)

/-- C17, as the claim states it, fails: a write to an unbound real-device
path whose device is in no presence cache and is found on no bus returns
`-ENOENT`, not `-ENODEV`. -/
theorem FS_write_absent_device :
    FS_write (absent_env (parse_one unbound_path unbound_pn)) unbound_path (cmem "17") 2 0 []
      = some (-ENOENT, [Event.FS_ParsedName unbound_path, Event.stat Counter.write_calls,
          Event.Cache_Get_Device, Event.CheckPresence, Event.FS_ParsedName_destroy]) ∧
    -ENOENT ≠ -ENODEV := by
  decide

/-- C17, amended. A write to a real-device name that is not bound to a bus
(and is not the simultaneous pseudo-device), whose device the presence cache
does not hold and the presence check finds on no bus, returns `-ENOENT` from
`FS_write_postparse` and from `FS_write`; the cache lookup and the presence
check are the only calls made, no write handler is called. -/
theorem FS_write_device_not_present (env : Env) (path : String) (buf : Mem) (size : Nat)
    (offset : Int) (pn : parsedname) (t : Trace)
    (hro : env.readonly = false) (hty : pn.type = .pn_real)
    (hdev : pn.dev ≠ some DeviceSimultaneous) (hbus : pn.state_bus = false) :
    ((env.Cache_Get_Device (t ++ [Event.stat Counter.write_calls]) pn).1 ≠ 0 →
      env.CheckPresence (t ++ [Event.stat Counter.write_calls, Event.Cache_Get_Device]) pn < 0 →
      FS_write_postparse env buf size offset pn t
        = some (-ENOENT, t ++ [Event.stat Counter.write_calls, Event.Cache_Get_Device,
            Event.CheckPresence])) ∧
    (env.FS_ParsedName t path = some pn → pn.dev ≠ none → pn.ft.isSome = true → pn.in_ ≠ [] →
      (env.Cache_Get_Device (t ++ [Event.FS_ParsedName path, Event.stat Counter.write_calls])
        pn).1 ≠ 0 →
      env.CheckPresence (t ++ [Event.FS_ParsedName path, Event.stat Counter.write_calls,
        Event.Cache_Get_Device]) pn < 0 →
      FS_write env path buf size offset t
        = some (-ENOENT, t ++ [Event.FS_ParsedName path, Event.stat Counter.write_calls,
            Event.Cache_Get_Device, Event.CheckPresence, Event.FS_ParsedName_destroy])) := by
  have hne : (-ENOENT : Int) ≠ 0 := by decide
  have hpost : ∀ t0 : Trace, (env.Cache_Get_Device (t0 ++ [Event.stat Counter.write_calls]) pn).1 ≠ 0 →
      env.CheckPresence (t0 ++ [Event.stat Counter.write_calls, Event.Cache_Get_Device]) pn < 0 →
      FS_write_postparse env buf size offset pn t0
        = some (-ENOENT, t0 ++ [Event.stat Counter.write_calls, Event.Cache_Get_Device,
            Event.CheckPresence]) := by
    intro t0 hc hp
    have hp' : ¬ env.CheckPresence (t0 ++ [Event.stat Counter.write_calls,
        Event.Cache_Get_Device]) pn ≥ 0 := by omega
    simp [FS_write_postparse, hro, hty, hdev, hbus, hc, hp', hne]
  constructor
  · exact hpost t
  · intro hparse hd hft hin hc hp
    have hft2 : pn.ft.isNone = false := by
      cases h : pn.ft <;> simp [h] at hft ⊢
    have hty2 : pn.type ≠ .pn_structure := by rw [hty]; decide
    have h := hpost (t ++ [Event.FS_ParsedName path]) (by simpa using hc) (by simpa using hp)
    simp [FS_write, hro, hparse, hd, hft2, hty2, hin, h]

/-- C17, amended, on the sample installation with an absent device. -/
theorem FS_write_device_not_present_witness :
    FS_write (absent_env (parse_one unbound_path unbound_pn)) unbound_path (cmem "17") 2 0 []
      = some (-ENOENT, [] ++ [Event.FS_ParsedName unbound_path, Event.stat Counter.write_calls,
          Event.Cache_Get_Device, Event.CheckPresence, Event.FS_ParsedName_destroy]) :=
  (FS_write_device_not_present (absent_env (parse_one unbound_path unbound_pn)) unbound_path
    (cmem "17") 2 0 unbound_pn [] rfl rfl (by decide) rfl).2 (by rfl) (by decide) rfl
    (by decide) (by decide) (by decide)

/-! ### Adapter walk -/

/-- C18. Two local adapters, the connection test of adapter 0 failing. A
write of `17` whose name is bound to adapter 0, by its path or by a hit of the
presence cache, is tried without `OW_MT` on adapter 1 as well, where it
succeeds, and 2 is returned instead of the error of adapter 0. With `OW_MT`
the same write is tried on adapter 0 only and returns `-ECONNABORTED`. -/
theorem FS_write_seek_leaves_bound_adapter :
    FS_write_postparse (two_adapter_env false true) (cmem "17") 2 0 bound_pn []
      = some (2, [Event.stat Counter.write_calls, Event.TestConnection 0,
          Event.TestConnection 1, Event.LockGet 1, Event.stat (Counter.write_tries 0),
          Event.write (Val.u [17]) 0, Event.LockRelease 1, Event.Cache_Add_Device 1,
          Event.stat Counter.write_success, Event.stat (Counter.write_bytes 2)]) ∧
    FS_write_postparse (two_adapter_env false true) (cmem "17") 2 0 cached_pn []
      = some (2, [Event.stat Counter.write_calls, Event.Cache_Get_Device,
          Event.TestConnection 0, Event.TestConnection 1, Event.LockGet 1,
          Event.stat (Counter.write_tries 0), Event.write (Val.u [17]) 0, Event.LockRelease 1,
          Event.Cache_Add_Device 1, Event.stat Counter.write_success,
          Event.stat (Counter.write_bytes 2)]) ∧
    FS_write_postparse (two_adapter_env true true) (cmem "17") 2 0 bound_pn []
      = some (-ECONNABORTED, [Event.stat Counter.write_calls, Event.TestConnection 0]) ∧
    FS_write_postparse (two_adapter_env true true) (cmem "17") 2 0 cached_pn []
      = some (-ECONNABORTED, [Event.stat Counter.write_calls, Event.Cache_Get_Device,
          Event.TestConnection 0]) := by
  decide

/-- C19. Two local adapters, both in order. A write of `on` to a property of
the simultaneous pseudo-device that is not bound to a bus is, without
`OW_MT`, made on adapter 0 only: it succeeds there and adapter 1 is never
addressed. With `OW_MT` it is made on both adapters. -/
theorem FS_write_seek_stops_at_first_success :
    FS_write_postparse (two_adapter_env false false) (cmem "on") 2 0 simultaneous_pn []
      = some (2, [Event.stat Counter.write_calls, Event.TestConnection 0, Event.LockGet 0,
          Event.stat (Counter.write_tries 0), Event.write (Val.y [1]) 0, Event.LockRelease 0,
          Event.Cache_Add_Device 0, Event.stat Counter.write_success,
          Event.stat (Counter.write_bytes 2)]) ∧
    FS_write_postparse (two_adapter_env true false) (cmem "on") 2 0 simultaneous_pn []
      = some (2, [Event.stat Counter.write_calls, Event.pthread_create,
          Event.TestConnection 1, Event.LockGet 1, Event.stat (Counter.write_tries 0),
          Event.write (Val.y [1]) 0, Event.LockRelease 1, Event.Cache_Add_Device 1,
          Event.TestConnection 0, Event.LockGet 0, Event.stat (Counter.write_tries 0),
          Event.write (Val.y [1]) 0, Event.LockRelease 0, Event.Cache_Add_Device 0,
          Event.pthread_join, Event.stat Counter.write_success,
          Event.stat (Counter.write_bytes 2)]) := by
  decide

/-! ### Mixed storage -/

/-- The unsigned array parser, when it returns, keeps the length of the array. -/
theorem FS_input_unsigned_array_loop_length (buf : Mem) (endp : Int) (k : Nat) :
    ∀ (i : Nat) (next : Int) (results rs : List Nat),
      FS_input_unsigned_array_loop buf endp k i next results = some rs →
      rs.length = results.length := by
  induction k with
  | zero =>
    intro i next results rs h
    simp only [FS_input_unsigned_array_loop, Option.some.injEq] at h
    rw [← h]
  | succ k ih =>
    intro i next results rs h
    rw [FS_input_unsigned_array_loop] at h
    simp only at h
    split_ifs at h
    · cases hf : field_end buf endp next with
      | none => simp [hf] at h
      | some next1 =>
        simp only [hf] at h
        rw [ih _ _ _ _ h]
        split_ifs <;> simp
    · rw [ih _ _ _ _ h]
      simp

/-- The `switch` of `FS_parse_write` leaves the trace as it was or adds one
call of the write handler. -/
theorem FS_parse_write_switch_trace (env : Env) (buf : Mem) (size : Nat) (offset : Int)
    (pn : parsedname) (ft : filetype) (fl : Nat) (cbuf : Bool) (t : Trace) (ret : Int)
    (text : List Char) (t1 : Trace)
    (h : FS_parse_write_switch env buf size offset pn ft fl cbuf t = some (ret, text, t1)) :
    t1 = t ∨ ∃ v, t1 = t ++ [Event.write v pn.extension] := by
  unfold FS_parse_write_switch at h
  cases hf : ft.format <;> simp only [hf] at h <;> (try split_ifs at h) <;>
    first
    | (simp only [Option.some.injEq, Prod.mk.injEq] at h
       exact Or.inl h.2.2.symm)
    | (cases hw : ft.write <;> simp only [hw] at h
       · exact absurd h (by simp)
       · simp only [Option.some.injEq, Prod.mk.injEq] at h
         exact Or.inr ⟨_, h.2.2.symm⟩)

/-- One attempt at a single-element write makes no bulk read. -/
theorem FS_parse_write_no_read (env : Env) (buf : Mem) (size : Nat) (offset : Int)
    (pn : parsedname) (t : Trace) (ret : Int) (t' : Trace)
    (h : FS_parse_write env buf size offset pn t = some (ret, t')) :
    ∃ suffix, t' = t ++ suffix ∧ ∀ e ∈ suffix, e.is_read = false := by
  unfold FS_parse_write at h
  cases hft : pn.ft with
  | none => simp [hft] at h
  | some ft =>
    simp only [hft] at h
    cases hs : FS_parse_write_switch env buf size offset pn ft (env.FileLength pn)
        (env.OW_CACHE && env.IsLocalCacheEnabled pn && env.alloc t AllocSite.cbuf) t with
    | none => simp [hs] at h
    | some x =>
      obtain ⟨r, text, t1⟩ := x
      simp only [hs, Option.some.injEq, Prod.mk.injEq] at h
      obtain ⟨tail, htail, hno⟩ := cache_update_tail env pn
        (env.OW_CACHE && env.IsLocalCacheEnabled pn && env.alloc t AllocSite.cbuf) text r t1
      have hnr : ∀ e ∈ tail, e.is_read = false := by
        intro e he
        have := hno e he
        cases e <;> simp_all [Event.is_handler_call, Event.is_read]
      rcases FS_parse_write_switch_trace env buf size offset pn ft _ _ t r text t1 hs with
        h1 | ⟨v, h1⟩
      · exact ⟨tail, by rw [← h.2, htail, h1], hnr⟩
      · refine ⟨[Event.write v pn.extension] ++ tail, by
          rw [← h.2, htail, h1, List.append_assoc], ?_⟩
        intro e he
        simp only [List.mem_append, List.mem_singleton] at he
        rcases he with he | he
        · rw [he]; rfl
        · exact hnr e he

/-- The attempts at a single-element write make no bulk read. -/
theorem FS_real_write_tries_no_read (env : Env) (buf : Mem) (size : Nat) (offset : Int)
    (pn : parsedname) (k : Nat) :
    ∀ (i : Nat) (r : Int) (t : Trace) (ret : Int) (t' : Trace),
      FS_real_write_tries env buf size offset pn k i r t = some (ret, t') →
      ∃ suffix, t' = t ++ suffix ∧ ∀ e ∈ suffix, e.is_read = false := by
  induction k with
  | zero =>
    intro i r t ret t' h
    simp only [FS_real_write_tries, Option.some.injEq, Prod.mk.injEq] at h
    exact ⟨[], by simp [h.2], by simp⟩
  | succ k ih =>
    intro i r t ret t' h
    rw [FS_real_write_tries] at h
    cases hp : FS_parse_write env buf size offset pn
        (t ++ [Event.stat (Counter.write_tries i)]) with
    | none => simp [hp] at h
    | some x =>
      obtain ⟨r1, t1⟩ := x
      obtain ⟨s1, hs1, hn1⟩ := FS_parse_write_no_read env buf size offset pn _ r1 t1 hp
      simp only [hp] at h
      split_ifs at h with hz
      · simp only [Option.some.injEq, Prod.mk.injEq] at h
        refine ⟨[Event.stat (Counter.write_tries i)] ++ s1, by
          rw [← h.2, hs1, List.append_assoc], ?_⟩
        intro e he
        simp only [List.mem_append, List.mem_singleton] at he
        rcases he with he | he
        · rw [he]; rfl
        · exact hn1 e he
      · obtain ⟨s2, hs2, hn2⟩ := ih (i + 1) r1 t1 ret t' h
        refine ⟨[Event.stat (Counter.write_tries i)] ++ s1 ++ s2, by
          rw [hs2, hs1]; simp only [List.append_assoc], ?_⟩
        intro e he
        simp only [List.mem_append, List.mem_singleton] at he
        rcases he with (he | he) | he
        · rw [he]; rfl
        · exact hn1 e he
        · exact hn2 e he

/-- What `FS_input_unsigned_array` hands back when the parse of
`parsed_unsigned` returns. -/
theorem parsed_unsigned_array (buf : Mem) (size elements : Nat) (us : List Nat)
    (h : parsed_unsigned buf size elements = some us) :
    FS_input_unsigned_array (List.replicate elements 0) buf size elements = some (0, us) ∧
    us.length = elements := by
  simp only [parsed_unsigned, FS_input_unsigned_array, Option.map_map] at h
  cases hl : FS_input_unsigned_array_loop buf ((size : Int) - 1) elements 0 0
      (List.replicate elements 0) with
  | none => simp [hl] at h
  | some rs =>
    simp only [hl, Option.map_some', Function.comp_apply, Option.some.injEq] at h
    have hlen := FS_input_unsigned_array_loop_length buf _ elements 0 0 _ rs hl
    subst h
    refine ⟨?_, by simpa using hlen⟩
    simp [FS_input_unsigned_array, hl]

/-- C20. For a property with mixed storage and a write handler,
`FS_real_write` with an extension `≥ 0` takes the per-element path: it is the
loop of attempts at `FS_parse_write`, no bulk read is made, and for an
unsigned property whose text parses to `U` the write handler is called with
the one value `U`. With extension -1 it takes the bulk path `FS_gamish`: for
an unsigned property, whenever the parse of the text as an array of `N`
elements returns, the write handler is called once, with that array. -/
theorem mixed_storage_write (env : Env) (buf : Mem) (size : Nat) (offset : Int)
    (pn : parsedname) (ft : filetype) (ag : aggregate) (w : write_union) (t : Trace)
    (hft : pn.ft = some ft) (hag : ft.ag = some ag) (hcomb : ag.combined = .ag_mixed)
    (hwr : ft.write = some w) :
    (0 ≤ pn.extension →
      FS_real_write env buf size offset pn t
        = FS_real_write_tries env buf size offset pn 3 0 0 t ∧
      (∀ ret t', FS_real_write env buf size offset pn t = some (ret, t') →
        ∃ suffix, t' = t ++ suffix ∧ ∀ e ∈ suffix, e.is_read = false) ∧
      (∀ U : Nat, ft.format = .ft_unsigned → FS_input_unsigned buf size = (0, U) →
        ∃ ret suffix, FS_real_write env buf size 0 pn t
            = some (ret, t ++ [Event.stat (Counter.write_tries 0),
                Event.write (Val.u [U]) pn.extension] ++ suffix) ∧
          ∀ e ∈ suffix, e.is_handler_call = true →
            e = Event.write (Val.u [U]) pn.extension)) ∧
    (pn.extension = -1 →
      FS_real_write env buf size offset pn t = FS_gamish env buf size offset pn t ∧
      (ft.format = .ft_unsigned → env.alloc t AllocSite.values = true →
        ∀ us : List Nat, parsed_unsigned buf size ag.elements = some us →
        ∃ tail, FS_real_write env buf size 0 pn t
            = some (w.u t us (-1), t ++ [Event.write (Val.u us) (-1)] ++ tail) ∧
          (∀ e ∈ tail, e.is_handler_call = false) ∧
          us.length = ag.elements)) := by
  have hwn : ft.write.isNone = false := by simp [hwr]
  constructor
  · intro hext
    have hne : pn.extension ≠ -1 := by omega
    have hdisp : ∀ off : Int, FS_real_write env buf size off pn t
        = FS_real_write_tries env buf size off pn 3 0 0 t := by
      intro off
      simp [FS_real_write, hft, hwn, hag, hcomb, hne]
    refine ⟨hdisp offset, ?_, ?_⟩
    · intro ret t' h
      rw [hdisp] at h
      exact FS_real_write_tries_no_read env buf size offset pn 3 0 0 t ret t' h
    · intro U hf hparse
      rw [hdisp]
      exact FS_real_write_tries_unsigned env buf size pn ft w U hft (Or.inr hf) hwr hparse
        2 0 0 t
  · intro hext
    have hdisp : ∀ off : Int, FS_real_write env buf size off pn t
        = FS_gamish env buf size off pn t := by
      intro off
      simp [FS_real_write, hft, hwn, hag, hcomb, hext]
    refine ⟨hdisp offset, ?_⟩
    intro hf halloc us hus
    obtain ⟨harr, hlen⟩ := parsed_unsigned_array buf size ag.elements us hus
    have hs : ∃ text, FS_gamish_switch env buf size 0 pn ft ag.elements (env.FullFileLength pn)
        (env.OW_CACHE && env.IsLocalCacheEnabled pn && env.alloc t AllocSite.cbuf) t
        = some (w.u t us (-1), text, t ++ [Event.write (Val.u us) (-1)]) := by
      simp [FS_gamish_switch, hf, halloc, hwr, hext, harr]
    obtain ⟨text, hs⟩ := hs
    obtain ⟨tail, h1, h2⟩ := FS_gamish_of_switch env buf size pn ft ag t _ text _ hft hag hs
    refine ⟨tail, ?_, h2, hlen⟩
    rw [hdisp, h1]

/-- C20 on the sample property with mixed storage: `7` written to element 1
and `7,8` followed by a newline written to ALL. -/
theorem mixed_storage_write_witness :
    (∃ ret suffix, FS_real_write (sample_env false (fun _ => none)) (cmem "7") 1 0
        (mixed_pn 1) []
      = some (ret, [] ++ [Event.stat (Counter.write_tries 0), Event.write (Val.u [7]) 1]
          ++ suffix)) ∧
    parsed_unsigned (cmem "7,8\n") 4 3 = some [7, 8, 0] ∧
    (∃ tail, FS_real_write (sample_env false (fun _ => none)) (cmem "7,8\n") 4 0
        (mixed_pn (-1)) []
      = some (0, [] ++ [Event.write (Val.u [7, 8, 0]) (-1)] ++ tail)) := by
  have h1 := (mixed_storage_write (sample_env false (fun _ => none)) (cmem "7") 1 0
    (mixed_pn 1) (sample_ft .ft_unsigned (some ⟨3, .ag_mixed⟩)) ⟨3, .ag_mixed⟩ sample_write []
    rfl rfl rfl rfl).1 (by decide)
  have h2 := (mixed_storage_write (sample_env false (fun _ => none)) (cmem "7,8\n") 4 0
    (mixed_pn (-1)) (sample_ft .ft_unsigned (some ⟨3, .ag_mixed⟩)) ⟨3, .ag_mixed⟩ sample_write
    [] rfl rfl rfl rfl).2 rfl
  have hp : parsed_unsigned (cmem "7,8\n") 4 3 = some [7, 8, 0] := by decide
  refine ⟨?_, hp, ?_⟩
  · obtain ⟨ret, suffix, h, _⟩ := h1.2.2 7 rfl (by decide)
    exact ⟨ret, suffix, h⟩
  · obtain ⟨tail, h, _, _⟩ := h2.2 rfl rfl [7, 8, 0] hp
    exact ⟨tail, h⟩

/-! ### Single-element writes -/

/-- The calls made after `t` in `t ++ s` are `s`. -/
theorem events_after_append (t s : Trace) : events_after t (t ++ s) = s := by
  simp [events_after]

/-- C21. A write to the BYTE view (extension -2) of an aggregate-stored
bitfield property whose text parses to the unsigned `U` calls the write
handler with the one value `U`, in its first attempt and in every further
one; whatever the text and the offset, no read handler is called on this
path, so there is no read-modify-write. -/
theorem bitfield_byte_write (env : Env) (buf : Mem) (size : Nat) (pn : parsedname)
    (ft : filetype) (ag : aggregate) (w : write_union) (t : Trace)
    (hft : pn.ft = some ft) (hfmt : ft.format = .ft_bitfield) (hag : ft.ag = some ag)
    (hcomb : ag.combined = .ag_aggregate) (hwr : ft.write = some w)
    (hext : pn.extension = -2) :
    (∀ U : Nat, FS_input_unsigned buf size = (0, U) →
      ∃ ret suffix, FS_real_write env buf size 0 pn t
          = some (ret, t ++ [Event.stat (Counter.write_tries 0),
              Event.write (Val.u [U]) (-2)] ++ suffix) ∧
        ∀ e ∈ suffix, e.is_handler_call = true → e = Event.write (Val.u [U]) (-2)) ∧
    (∀ (offset : Int) (ret : Int) (t' : Trace),
      FS_real_write env buf size offset pn t = some (ret, t') →
      ∃ suffix, t' = t ++ suffix ∧ ∀ e ∈ suffix, e.is_read = false) := by
  have hwn : ft.write.isNone = false := by simp [hwr]
  have hdisp : ∀ off : Int, FS_real_write env buf size off pn t
      = FS_real_write_tries env buf size off pn 3 0 0 t := by
    intro off
    simp [FS_real_write, hft, hwn, hag, hcomb, hext]
  constructor
  · intro U hparse
    rw [hdisp]
    have h := FS_real_write_tries_unsigned env buf size pn ft w U hft (Or.inl hfmt) hwr hparse
      2 0 0 t
    rw [hext] at h
    exact h
  · intro offset ret t' h
    rw [hdisp] at h
    exact FS_real_write_tries_no_read env buf size offset pn 3 0 0 t ret t' h

/-- C21 on the sample bitfield: the text `13` written to BYTE. -/
theorem bitfield_byte_write_witness :
    ∃ ret suffix, FS_real_write (sample_env false (fun _ => none)) (cmem "13") 2 0
        (bitfield_pn (-2)) []
      = some (ret, [] ++ [Event.stat (Counter.write_tries 0), Event.write (Val.u [13]) (-2)]
          ++ suffix) :=
  match (bitfield_byte_write (sample_env false (fun _ => none)) (cmem "13") 2 (bitfield_pn (-2))
      (sample_ft .ft_bitfield (some ⟨8, .ag_aggregate⟩)) ⟨8, .ag_aggregate⟩ sample_write []
      rfl rfl rfl rfl rfl rfl).1 13 (by decide) with
  | ⟨ret, suffix, h, _⟩ => ⟨ret, suffix, h⟩

/-- One attempt at a single-element write of a numeric format with a
non-zero offset. -/
theorem FS_parse_write_nonzero_offset (env : Env) (buf : Mem) (size : Nat) (offset : Int)
    (pn : parsedname) (ft : filetype) (t : Trace)
    (hft : pn.ft = some ft) (hfmt : numeric_format ft.format = true) (hoff : offset ≠ 0) :
    FS_parse_write env buf size offset pn t
      = some (-EADDRNOTAVAIL, t ++ cache_del_events env pn) := by
  have hne : (-EADDRNOTAVAIL : Int) ≠ 0 := by decide
  cases hf : ft.format <;> simp [numeric_format, hf] at hfmt <;>
    simp [FS_parse_write, FS_parse_write_switch, hft, hf, hoff, cache_update, hne,
      cache_del_events] <;> split_ifs <;> simp

/-- C22, as the claim states it, fails: a single-element write of an
unsigned property with offset 3 is attempted three times, and
`write_tries[1]` and `write_tries[2]` are incremented as well. -/
theorem FS_real_write_retries_offset_error :
    FS_real_write (sample_env false (fun _ => none)) (cmem "7") 1 3 counter_pn []
      = some (-EADDRNOTAVAIL, [Event.stat (Counter.write_tries 0),
          Event.stat (Counter.write_tries 1), Event.stat (Counter.write_tries 2)]) := by
  decide

/-- C22, amended. A single-element write of a numeric format with a non-zero
offset fails with `-EADDRNOTAVAIL` in each of three attempts:
`FS_real_write` increments `write_tries[0]`, `write_tries[1]` and
`write_tries[2]`, calls no handler, and returns `-EADDRNOTAVAIL`. -/
theorem FS_real_write_offset_three_attempts (env : Env) (buf : Mem) (size : Nat) (offset : Int)
    (pn : parsedname) (ft : filetype) (w : write_union) (t : Trace)
    (hft : pn.ft = some ft) (hwr : ft.write = some w) (hag : ft.ag = none)
    (hfmt : numeric_format ft.format = true) (hoff : offset ≠ 0) :
    FS_real_write env buf size offset pn t
      = some (-EADDRNOTAVAIL,
          t ++ [Event.stat (Counter.write_tries 0)] ++ cache_del_events env pn
            ++ [Event.stat (Counter.write_tries 1)] ++ cache_del_events env pn
            ++ [Event.stat (Counter.write_tries 2)] ++ cache_del_events env pn) := by
  have hne : (-EADDRNOTAVAIL : Int) ≠ 0 := by decide
  have hwn : ft.write.isNone = false := by simp [hwr]
  have hp := fun t0 => FS_parse_write_nonzero_offset env buf size offset pn ft t0 hft hfmt hoff
  simp only [FS_real_write, hft, hwn, hag, FS_real_write_tries, hp, hne, if_false,
    Bool.false_eq_true]

/-- C22, amended, on the sample unsigned property with offset 3. -/
theorem FS_real_write_offset_three_attempts_witness :
    FS_real_write (sample_env false (fun _ => none)) (cmem "7") 1 3 counter_pn []
      = some (-EADDRNOTAVAIL,
          [] ++ [Event.stat (Counter.write_tries 0)] ++ [] ++ [Event.stat (Counter.write_tries 1)]
            ++ [] ++ [Event.stat (Counter.write_tries 2)] ++ []) :=
  FS_real_write_offset_three_attempts (sample_env false (fun _ => none)) (cmem "7") 1 3
    counter_pn (sample_ft .ft_unsigned none) sample_write [] rfl rfl rfl rfl (by decide)

/-! ### Property cache -/

/-- C23. A single-element write (`FS_parse_write`) of integer, unsigned,
bitfield or yesno format, in a build with `OW_CACHE`, the local cache enabled
for the name and the cache string buffer allocated: when it returns 0 the only
cache call is one `Cache_Add` for the name, holding the text the format layer
renders for the parsed value; when it returns non-zero the only cache call is
one `Cache_Del` for the name. -/
theorem FS_parse_write_cache (env : Env) (buf : Mem) (size : Nat) (offset : Int)
    (pn : parsedname) (ft : filetype) (t : Trace)
    (hft : pn.ft = some ft) (hfmt : integral_format ft.format = true)
    (hcache : env.OW_CACHE = true) (hlocal : env.IsLocalCacheEnabled pn = true)
    (halloc : env.alloc t AllocSite.cbuf = true) (ret : Int) (t' : Trace)
    (h : FS_parse_write env buf size offset pn t = some (ret, t')) :
    t' = t ++ events_after t t' ∧
    (events_after t t').filter Event.is_cache
      = [if ret = 0 then Event.Cache_Add (cstr (rendered_value env pn ft buf size)) pn.extension
         else Event.Cache_Del pn.extension] := by
  have hne : (-EADDRNOTAVAIL : Int) ≠ 0 := by decide
  cases hf : ft.format <;> simp [integral_format, hf] at hfmt <;>
    simp only [FS_parse_write, hft, FS_parse_write_switch, hf, hcache, hlocal, halloc,
      Bool.and_self, true_and] at h <;>
    split_ifs at h <;>
    first
    | (simp only [Option.some.injEq, Prod.mk.injEq] at h
       obtain ⟨rfl, rfl⟩ := h
       simp_all [events_after_append, cache_update, Event.is_cache, rendered_value])
    | (cases hw : ft.write <;> simp only [hw] at h
       · exact absurd h (by simp)
       · simp only [Option.some.injEq, Prod.mk.injEq] at h
         obtain ⟨rfl, rfl⟩ := h
         simp only [cache_update, List.append_assoc]
         split_ifs <;>
           simp_all [events_after_append, cache_update, Event.is_cache, rendered_value])

/-- C23 on the sample unsigned property with the cache enabled: the text
`17` is written and cached, the text `xy` is not written and the entry is
dropped. -/
theorem FS_parse_write_cache_witness :
    FS_parse_write (cache_env true) (cmem "17") 2 0 counter_pn []
      = some (0, [Event.write (Val.u [17]) 0, Event.Cache_Add ['1', '7'] 0]) ∧
    (events_after [] [Event.write (Val.u [17]) 0, Event.Cache_Add ['1', '7'] 0]).filter
        Event.is_cache
      = [if (0 : Int) = 0
          then Event.Cache_Add (cstr (rendered_value (cache_env true) counter_pn
            (sample_ft .ft_unsigned none) (cmem "17") 2)) 0
          else Event.Cache_Del 0] ∧
    FS_parse_write (cache_env true) (cmem "xy") 2 0 counter_pn [] = some (1, [Event.Cache_Del 0]) :=
  ⟨by decide,
   (FS_parse_write_cache (cache_env true) (cmem "17") 2 0 counter_pn (sample_ft .ft_unsigned none)
      [] rfl rfl rfl rfl rfl 0 [Event.write (Val.u [17]) 0, Event.Cache_Add ['1', '7'] 0]
      (by decide)).2,
   by decide⟩

/-- The `switch` of `FS_gamish` leaves the trace as it was or adds one call
of the write handler. -/
theorem FS_gamish_switch_trace (env : Env) (buf : Mem) (size : Nat) (offset : Int)
    (pn : parsedname) (ft : filetype) (elements : Nat) (ffl : Nat) (cbuf : Bool) (t : Trace)
    (ret : Int) (text : List Char) (t1 : Trace)
    (h : FS_gamish_switch env buf size offset pn ft elements ffl cbuf t = some (ret, text, t1)) :
    t1 = t ∨ ∃ v, t1 = t ++ [Event.write v pn.extension] := by
  unfold FS_gamish_switch at h
  cases hf : ft.format <;> simp only [hf] at h <;> (try split_ifs at h) <;>
    (try split at h) <;> (try split_ifs at h) <;> (try split at h) <;>
    first
    | (simp only [Option.some.injEq, Prod.mk.injEq] at h
       exact Or.inl h.2.2.symm)
    | (simp only [Option.some.injEq, Prod.mk.injEq] at h
       exact Or.inr ⟨_, h.2.2.symm⟩)
    | simp at h

set_option maxHeartbeats 2000000 in
/-- The `switch` of `FS_w_split` adds to the trace nothing, one call of the
read handler, or one call of the read handler and one of the write handler;
it returns at once only for an ascii property with a non-zero offset. -/
theorem FS_w_split_switch_trace (env : Env) (buf : Mem) (size : Nat) (offset : Int)
    (pn : parsedname) (ft : filetype) (rd : read_union) (elements : Nat) (ffl : Nat)
    (cbuf : Bool) (t : Trace) :
    (∀ r t1, FS_w_split_switch env buf size offset pn ft rd elements ffl cbuf t
        = some (.inl (r, t1)) → t1 = t ∧ ft.format = .ft_ascii ∧ offset ≠ 0) ∧
    (∀ ret text t1, FS_w_split_switch env buf size offset pn ft rd elements ffl cbuf t
        = some (.inr (ret, text, t1)) →
      t1 = t ∨ (∃ m, t1 = t ++ [Event.read m pn.extension]) ∨
        ∃ m v, t1 = t ++ [Event.read m pn.extension] ++ [Event.write v pn.extension]) := by
  constructor
  · intro r t1 h
    unfold FS_w_split_switch at h
    cases hf : ft.format <;> simp only [hf] at h <;> (try split_ifs at h) <;>
      first
      | (simp only [Option.some.injEq, Sum.inl.injEq, Prod.mk.injEq] at h
         exact ⟨h.2.symm, rfl, by assumption⟩)
      | (cases hw : ft.write <;> simp [hw] at h)
  · intro ret text t1 h
    unfold FS_w_split_switch at h
    cases hf : ft.format <;> simp only [hf] at h <;> (try split_ifs at h) <;>
      first
      | (simp only [Option.some.injEq, Sum.inr.injEq, Prod.mk.injEq] at h
         first
         | exact Or.inl h.2.2.symm
         | exact Or.inr (Or.inl ⟨_, h.2.2.symm⟩))
      | (cases hw : ft.write <;> simp only [hw] at h
         · simp at h
         · simp only [Option.some.injEq, Sum.inr.injEq, Prod.mk.injEq] at h
           exact Or.inr (Or.inr ⟨_, _, h.2.2.symm⟩))
      | (simp at h)

/-- After a failure the cache block drops the entry of a name for which the
local cache is enabled. -/
theorem cache_update_failure (env : Env) (pn : parsedname) (cbuf : Bool) (text : List Char)
    (ret : Int) (t : Trace) (hlocal : env.IsLocalCacheEnabled pn = true) (hret : ret ≠ 0) :
    cache_update env pn cbuf text ret t = t ++ [Event.Cache_Del pn.extension] := by
  simp [cache_update, hlocal, hret]

/-! ### The calls a write strategy makes -/

theorem strategy_calls_only_refl (t : Trace) : strategy_calls_only t t :=
  ⟨[], by simp, by simp⟩

theorem strategy_calls_only_trans {t t1 t2 : Trace} (h1 : strategy_calls_only t t1)
    (h2 : strategy_calls_only t1 t2) : strategy_calls_only t t2 := by
  obtain ⟨s1, rfl, hs1⟩ := h1
  obtain ⟨s2, rfl, hs2⟩ := h2
  refine ⟨s1 ++ s2, by simp, ?_⟩
  intro e he
  rcases List.mem_append.mp he with he | he
  · exact hs1 e he
  · exact hs2 e he

theorem strategy_calls_only_one (t : Trace) (e : Event) (he : e.is_strategy_call = true) :
    strategy_calls_only t (t ++ [e]) :=
  ⟨[e], rfl, by simpa using he⟩

/-- The cache block continues the trace by a call of the cache or not at all. -/
theorem cache_update_calls (env : Env) (pn : parsedname) (cbuf : Bool) (text : List Char)
    (ret : Int) (t : Trace) : strategy_calls_only t (cache_update env pn cbuf text ret t) := by
  unfold cache_update
  split_ifs
  · exact strategy_calls_only_one _ _ rfl
  · exact strategy_calls_only_one _ _ rfl
  · exact strategy_calls_only_refl _

/-- `FS_parse_write` makes strategy calls only. -/
theorem FS_parse_write_calls (env : Env) (buf : Mem) (size : Nat) (offset : Int)
    (pn : parsedname) (t : Trace) (ret : Int) (t' : Trace)
    (h : FS_parse_write env buf size offset pn t = some (ret, t')) :
    strategy_calls_only t t' := by
  unfold FS_parse_write at h
  cases hft : pn.ft with
  | none => simp [hft] at h
  | some ft =>
    simp only [hft] at h
    cases hs : FS_parse_write_switch env buf size offset pn ft (env.FileLength pn)
        (env.OW_CACHE && env.IsLocalCacheEnabled pn && env.alloc t AllocSite.cbuf) t with
    | none => simp [hs] at h
    | some x =>
      obtain ⟨r, text, t1⟩ := x
      simp only [hs, Option.some.injEq, Prod.mk.injEq] at h
      rw [← h.2]
      refine strategy_calls_only_trans ?_ (cache_update_calls _ _ _ _ _ _)
      rcases FS_parse_write_switch_trace env buf size offset pn ft _ _ t r text t1 hs with
        h1 | ⟨v, h1⟩
      · rw [h1]; exact strategy_calls_only_refl _
      · rw [h1]; exact strategy_calls_only_one _ _ rfl

/-- The attempts at a single-element write make strategy calls only. -/
theorem FS_real_write_tries_calls (env : Env) (buf : Mem) (size : Nat) (offset : Int)
    (pn : parsedname) (k : Nat) :
    ∀ (i : Nat) (r : Int) (t : Trace) (ret : Int) (t' : Trace),
      FS_real_write_tries env buf size offset pn k i r t = some (ret, t') →
      strategy_calls_only t t' := by
  induction k with
  | zero =>
    intro i r t ret t' h
    simp only [FS_real_write_tries, Option.some.injEq, Prod.mk.injEq] at h
    rw [← h.2]
    exact strategy_calls_only_refl _
  | succ k ih =>
    intro i r t ret t' h
    rw [FS_real_write_tries] at h
    cases hp : FS_parse_write env buf size offset pn
        (t ++ [Event.stat (Counter.write_tries i)]) with
    | none => simp [hp] at h
    | some x =>
      obtain ⟨r1, t1⟩ := x
      have h1 := strategy_calls_only_trans
        (strategy_calls_only_one t (Event.stat (Counter.write_tries i)) rfl)
        (FS_parse_write_calls env buf size offset pn _ r1 t1 hp)
      simp only [hp] at h
      split_ifs at h with hz
      · simp only [Option.some.injEq, Prod.mk.injEq] at h
        rw [← h.2]
        exact h1
      · exact strategy_calls_only_trans h1 (ih (i + 1) r1 t1 ret t' h)

/-- `FS_gamish` makes strategy calls only. -/
theorem FS_gamish_calls (env : Env) (buf : Mem) (size : Nat) (offset : Int)
    (pn : parsedname) (t : Trace) (ret : Int) (t' : Trace)
    (h : FS_gamish env buf size offset pn t = some (ret, t')) :
    strategy_calls_only t t' := by
  unfold FS_gamish at h
  cases hft : pn.ft with
  | none => simp [hft] at h
  | some ft =>
    simp only [hft] at h
    cases hag : ft.ag with
    | none => simp [hag] at h
    | some ag =>
      simp only [hag] at h
      split_ifs at h with hoff
      · simp only [Option.some.injEq, Prod.mk.injEq] at h
        rw [← h.2]
        exact strategy_calls_only_refl _
      · cases hs : FS_gamish_switch env buf size offset pn ft ag.elements (env.FullFileLength pn)
            (env.OW_CACHE && env.IsLocalCacheEnabled pn && env.alloc t AllocSite.cbuf) t with
        | none => simp [hs] at h
        | some x =>
          obtain ⟨r, text, t1⟩ := x
          simp only [hs, Option.some.injEq, Prod.mk.injEq] at h
          rw [← h.2]
          refine strategy_calls_only_trans ?_ (cache_update_calls _ _ _ _ _ _)
          rcases FS_gamish_switch_trace env buf size offset pn ft _ _ _ t r text t1 hs with
            h1 | ⟨v, h1⟩
          · rw [h1]; exact strategy_calls_only_refl _
          · rw [h1]; exact strategy_calls_only_one _ _ rfl

/-- `FS_w_split` makes strategy calls only. -/
theorem FS_w_split_calls (env : Env) (buf : Mem) (size : Nat) (offset : Int)
    (pn : parsedname) (t : Trace) (ret : Int) (t' : Trace)
    (h : FS_w_split env buf size offset pn t = some (ret, t')) :
    strategy_calls_only t t' := by
  unfold FS_w_split at h
  cases hft : pn.ft with
  | none => simp [hft] at h
  | some ft =>
    simp only [hft] at h
    cases hag : ft.ag with
    | none => simp [hag] at h
    | some ag =>
      simp only [hag] at h
      cases hrd : ft.read with
      | none =>
        simp only [hrd, Option.some.injEq, Prod.mk.injEq] at h
        rw [← h.2]
        exact strategy_calls_only_refl _
      | some rd =>
        simp only [hrd] at h
        have htr := FS_w_split_switch_trace env buf size offset pn ft rd ag.elements
          (env.FullFileLength pn) (env.OW_CACHE && env.alloc t AllocSite.cbuf) t
        cases hs : FS_w_split_switch env buf size offset pn ft rd ag.elements
            (env.FullFileLength pn) (env.OW_CACHE && env.alloc t AllocSite.cbuf) t with
        | none => simp [hs] at h
        | some x =>
          cases x with
          | inl y =>
            obtain ⟨r, t1⟩ := y
            simp only [hs, Option.some.injEq, Prod.mk.injEq] at h
            rw [← h.2, (htr.1 r t1 hs).1]
            exact strategy_calls_only_refl _
          | inr y =>
            obtain ⟨r, text, t1⟩ := y
            simp only [hs, Option.some.injEq, Prod.mk.injEq] at h
            rw [← h.2]
            refine strategy_calls_only_trans ?_ (cache_update_calls _ _ _ _ _ _)
            rcases htr.2 r text t1 hs with h1 | ⟨m, h1⟩ | ⟨m, v, h1⟩
            · rw [h1]; exact strategy_calls_only_refl _
            · rw [h1]; exact strategy_calls_only_one _ _ rfl
            · rw [h1]
              exact strategy_calls_only_trans
                (strategy_calls_only_one t (Event.read m pn.extension) rfl)
                (strategy_calls_only_one _ (Event.write v pn.extension) rfl)

/-- The loops of `FS_w_all` make strategy calls only. -/
theorem FS_w_all_comma_calls (env : Env) (buf : Mem) (size : Nat) (pname : parsedname)
    (k : Nat) :
    ∀ (ext : Int) (p left : Nat) (t : Trace) (ret : Int) (t' : Trace),
      FS_w_all_comma env buf size pname k ext p left t = some (ret, t') →
      strategy_calls_only t t' := by
  induction k with
  | zero =>
    intro ext p left t ret t' h
    simp only [FS_w_all_comma, Option.some.injEq, Prod.mk.injEq] at h
    rw [← h.2]
    exact strategy_calls_only_refl _
  | succ k ih =>
    intro ext p left t ret t' h
    rw [FS_w_all_comma] at h
    cases hm : memchr buf ',' p left with
    | none =>
      simp only [hm] at h
      cases hp : FS_parse_write env (shift buf p) left 0 { pname with extension := ext } t with
      | none => simp [hp] at h
      | some x =>
        obtain ⟨r1, t1⟩ := x
        have h1 := FS_parse_write_calls env _ _ _ _ t r1 t1 hp
        simp only [hp] at h
        split_ifs at h with hz
        · simp only [Option.some.injEq, Prod.mk.injEq] at h
          rw [← h.2]
          exact h1
        · exact strategy_calls_only_trans h1 (ih _ _ _ _ _ _ h)
    | some c =>
      simp only [hm] at h
      cases hp : FS_parse_write env (shift buf p) (to_size_t ((c : Int) - (p : Int))) 0
          { pname with extension := ext } t with
      | none => simp [hp] at h
      | some x =>
        obtain ⟨r1, t1⟩ := x
        have h1 := FS_parse_write_calls env _ _ _ _ t r1 t1 hp
        simp only [hp] at h
        split_ifs at h with hz
        · simp only [Option.some.injEq, Prod.mk.injEq] at h
          rw [← h.2]
          exact h1
        · exact strategy_calls_only_trans h1 (ih _ _ _ _ _ _ h)

theorem FS_w_all_binary_calls (env : Env) (buf : Mem) (pname : parsedname) (suglen : Int)
    (k : Nat) :
    ∀ (ext p : Int) (left : Nat) (t : Trace) (ret : Int) (t' : Trace),
      FS_w_all_binary env buf pname suglen k ext p left t = some (ret, t') →
      strategy_calls_only t t' := by
  induction k with
  | zero =>
    intro ext p left t ret t' h
    simp only [FS_w_all_binary, Option.some.injEq, Prod.mk.injEq] at h
    rw [← h.2]
    exact strategy_calls_only_refl _
  | succ k ih =>
    intro ext p left t ret t' h
    rw [FS_w_all_binary] at h
    split_ifs at h with hlt
    · simp only [Option.some.injEq, Prod.mk.injEq] at h
      rw [← h.2]
      exact strategy_calls_only_refl _
    · cases hp : FS_parse_write env (shift buf p.toNat) (to_size_t suglen) 0
          { pname with extension := ext } t with
      | none => simp [hp] at h
      | some x =>
        obtain ⟨r1, t1⟩ := x
        have h1 := FS_parse_write_calls env _ _ _ _ t r1 t1 hp
        simp only [hp] at h
        split_ifs at h with hz
        · simp only [Option.some.injEq, Prod.mk.injEq] at h
          rw [← h.2]
          exact h1
        · exact strategy_calls_only_trans h1 (ih _ _ _ _ _ _ h)

/-- `FS_w_all` makes strategy calls only. -/
theorem FS_w_all_calls (env : Env) (buf : Mem) (size : Nat) (offset : Int)
    (pn : parsedname) (t : Trace) (ret : Int) (t' : Trace)
    (h : FS_w_all env buf size offset pn t = some (ret, t')) :
    strategy_calls_only t t' := by
  have h0 := strategy_calls_only_one t (Event.stat Counter.write_array) rfl
  unfold FS_w_all at h
  simp only at h
  split_ifs at h with hoff
  · simp only [Option.some.injEq, Prod.mk.injEq] at h
    rw [← h.2]
    exact h0
  · cases hft : pn.ft with
    | none => simp [hft] at h
    | some ft =>
      simp only [hft] at h
      cases hag : ft.ag with
      | none => simp [hag] at h
      | some ag =>
        simp only [hag] at h
        split_ifs at h with hb
        · exact strategy_calls_only_trans h0 (FS_w_all_binary_calls _ _ _ _ _ _ _ _ _ _ _ h)
        · exact strategy_calls_only_trans h0 (FS_w_all_comma_calls _ _ _ _ _ _ _ _ _ _ _ h)

/-- `FS_real_write` makes strategy calls only: no lock, adapter or path
parser call is made below it. -/
theorem FS_real_write_calls (env : Env) (buf : Mem) (size : Nat) (offset : Int)
    (pn : parsedname) (t : Trace) (ret : Int) (t' : Trace)
    (h : FS_real_write env buf size offset pn t = some (ret, t')) :
    strategy_calls_only t t' := by
  unfold FS_real_write at h
  cases hft : pn.ft with
  | none => simp [hft] at h
  | some ft =>
    simp only [hft] at h
    cases hw : ft.write.isNone with
    | true =>
      simp only [hw, if_true, Option.some.injEq, Prod.mk.injEq] at h
      rw [← h.2]
      exact strategy_calls_only_refl _
    | false =>
      simp only [hw, Bool.false_eq_true, if_false] at h
      cases hag : ft.ag with
      | none =>
        simp only [hag] at h
        exact FS_real_write_tries_calls _ _ _ _ _ _ _ _ _ _ _ h
      | some ag =>
        simp only [hag] at h
        cases hc : ag.combined <;> simp only [hc] at h <;> split_ifs at h <;>
          first
          | exact FS_w_split_calls _ _ _ _ _ _ _ _ h
          | exact FS_gamish_calls _ _ _ _ _ _ _ _ h
          | exact FS_w_all_calls _ _ _ _ _ _ _ _ h
          | exact FS_real_write_tries_calls _ _ _ _ _ _ _ _ _ _ _ h

/-! ### Dropping the cache entry after a failed write -/

theorem cache_dropped_after {ext : Int} {t t1 t' : Trace} (h1 : strategy_calls_only t t1)
    (h2 : cache_dropped ext t1 t') : cache_dropped ext t t' := by
  obtain ⟨s1, rfl, hs1⟩ := h1
  obtain ⟨s2, rfl, hs2⟩ := h2
  refine ⟨s1 ++ s2, by simp, ?_⟩
  intro e he
  rcases List.mem_append.mp he with he | he
  · exact hs1 e he
  · exact hs2 e he

theorem cache_update_dropped (env : Env) (pn : parsedname) (cbuf : Bool) (text : List Char)
    (ret : Int) (t : Trace) (hlocal : env.IsLocalCacheEnabled pn = true) (hret : ret ≠ 0) :
    cache_dropped pn.extension t (cache_update env pn cbuf text ret t) :=
  ⟨[], by rw [cache_update_failure env pn cbuf text ret t hlocal hret]; simp, by simp⟩

/-- A failed `FS_parse_write` on a locally cached name ends with the drop of
the entry. -/
theorem FS_parse_write_dropped (env : Env) (buf : Mem) (size : Nat) (offset : Int)
    (pn : parsedname) (t : Trace) (ret : Int) (t' : Trace)
    (hlocal : env.IsLocalCacheEnabled pn = true)
    (h : FS_parse_write env buf size offset pn t = some (ret, t')) (hret : ret ≠ 0) :
    cache_dropped pn.extension t t' := by
  unfold FS_parse_write at h
  cases hft : pn.ft with
  | none => simp [hft] at h
  | some ft =>
    simp only [hft] at h
    cases hs : FS_parse_write_switch env buf size offset pn ft (env.FileLength pn)
        (env.OW_CACHE && env.IsLocalCacheEnabled pn && env.alloc t AllocSite.cbuf) t with
    | none => simp [hs] at h
    | some x =>
      obtain ⟨r, text, t1⟩ := x
      simp only [hs, Option.some.injEq, Prod.mk.injEq] at h
      obtain ⟨hr, ht⟩ := h
      subst hr
      rw [← ht]
      refine cache_dropped_after ?_ (cache_update_dropped _ _ _ _ _ _ hlocal hret)
      rcases FS_parse_write_switch_trace env buf size offset pn ft _ _ t r text t1 hs with
        h1 | ⟨v, h1⟩
      · rw [h1]; exact strategy_calls_only_refl _
      · rw [h1]; exact strategy_calls_only_one _ _ rfl

/-- Failed attempts at a single-element write on a locally cached name end
with the drop of the entry. -/
theorem FS_real_write_tries_dropped (env : Env) (buf : Mem) (size : Nat) (offset : Int)
    (pn : parsedname) (hlocal : env.IsLocalCacheEnabled pn = true) (k : Nat) :
    ∀ (i : Nat) (r : Int) (t : Trace) (ret : Int) (t' : Trace),
      FS_real_write_tries env buf size offset pn (k + 1) i r t = some (ret, t') → ret ≠ 0 →
      cache_dropped pn.extension t t' := by
  induction k with
  | zero =>
    intro i r t ret t' h hret
    rw [FS_real_write_tries] at h
    cases hp : FS_parse_write env buf size offset pn
        (t ++ [Event.stat (Counter.write_tries i)]) with
    | none => simp [hp] at h
    | some x =>
      obtain ⟨r1, t1⟩ := x
      simp only [hp] at h
      split_ifs at h with hz
      · simp only [Option.some.injEq, Prod.mk.injEq] at h
        exact absurd (h.1 ▸ hz) hret
      · simp only [FS_real_write_tries, Option.some.injEq, Prod.mk.injEq] at h
        rw [← h.2]
        exact cache_dropped_after
          (strategy_calls_only_one t (Event.stat (Counter.write_tries i)) rfl)
          (FS_parse_write_dropped env buf size offset pn _ r1 t1 hlocal hp hz)
  | succ k ih =>
    intro i r t ret t' h hret
    rw [FS_real_write_tries] at h
    cases hp : FS_parse_write env buf size offset pn
        (t ++ [Event.stat (Counter.write_tries i)]) with
    | none => simp [hp] at h
    | some x =>
      obtain ⟨r1, t1⟩ := x
      simp only [hp] at h
      split_ifs at h with hz
      · simp only [Option.some.injEq, Prod.mk.injEq] at h
        exact absurd (h.1 ▸ hz) hret
      · exact cache_dropped_after
          (strategy_calls_only_trans
            (strategy_calls_only_one t (Event.stat (Counter.write_tries i)) rfl)
            (FS_parse_write_calls env buf size offset pn _ r1 t1 hp))
          (ih _ _ _ _ _ h hret)

/-- `FS_gamish` with an offset returns `-EADDRNOTAVAIL` before its `switch`
and its cache block. -/
theorem FS_gamish_offset (env : Env) (buf : Mem) (size : Nat) (offset : Int)
    (pn : parsedname) (t : Trace) (ret : Int) (t' : Trace) (hoff : offset ≠ 0)
    (h : FS_gamish env buf size offset pn t = some (ret, t')) :
    ret = -EADDRNOTAVAIL ∧ t' = t := by
  unfold FS_gamish at h
  cases hft : pn.ft with
  | none => simp [hft] at h
  | some ft =>
    simp only [hft] at h
    cases hag : ft.ag with
    | none => simp [hag] at h
    | some ag =>
      simp only [hag, ne_eq, hoff, not_false_eq_true, if_true, Option.some.injEq,
        Prod.mk.injEq] at h
      exact ⟨h.1.symm, h.2.symm⟩

/-- A failed `FS_gamish` at offset 0 on a locally cached name ends with the
drop of the entry. -/
theorem FS_gamish_dropped (env : Env) (buf : Mem) (size : Nat)
    (pn : parsedname) (t : Trace) (ret : Int) (t' : Trace)
    (hlocal : env.IsLocalCacheEnabled pn = true)
    (h : FS_gamish env buf size 0 pn t = some (ret, t')) (hret : ret ≠ 0) :
    cache_dropped pn.extension t t' := by
  unfold FS_gamish at h
  cases hft : pn.ft with
  | none => simp [hft] at h
  | some ft =>
    simp only [hft] at h
    cases hag : ft.ag with
    | none => simp [hag] at h
    | some ag =>
      simp only [hag, ne_eq, not_true_eq_false, if_false] at h
      cases hs : FS_gamish_switch env buf size 0 pn ft ag.elements (env.FullFileLength pn)
          (env.OW_CACHE && env.IsLocalCacheEnabled pn && env.alloc t AllocSite.cbuf) t with
      | none => simp [hs] at h
      | some x =>
        obtain ⟨r, text, t1⟩ := x
        simp only [hs, Option.some.injEq, Prod.mk.injEq] at h
        obtain ⟨hr, ht⟩ := h
        subst hr
        rw [← ht]
        refine cache_dropped_after ?_ (cache_update_dropped _ _ _ _ _ _ hlocal hret)
        rcases FS_gamish_switch_trace env buf size 0 pn ft _ _ _ t r text t1 hs with
          h1 | ⟨v, h1⟩
        · rw [h1]; exact strategy_calls_only_refl _
        · rw [h1]; exact strategy_calls_only_one _ _ rfl

/-- A failed `FS_w_split` on a locally cached name: without a read handler it
returns `-EFAULT`, and for ascii with an offset `-EADDRNOTAVAIL`, both before
its cache block and without a call; every other failure is `-EINVAL` and ends
with the drop of the entry. -/
theorem FS_w_split_failed (env : Env) (buf : Mem) (size : Nat) (offset : Int)
    (pn : parsedname) (ft : filetype) (t : Trace) (ret : Int) (t' : Trace)
    (hlocal : env.IsLocalCacheEnabled pn = true) (hft : pn.ft = some ft)
    (h : FS_w_split env buf size offset pn t = some (ret, t')) (hret : ret ≠ 0) :
    (ft.read.isNone = true → ret = -EFAULT ∧ t' = t) ∧
    (ft.read.isNone = false → ft.format = .ft_ascii → offset ≠ 0 →
      ret = -EADDRNOTAVAIL ∧ t' = t) ∧
    (ft.read.isNone = false → ¬ (ft.format = .ft_ascii ∧ offset ≠ 0) →
      ret = -EINVAL ∧ cache_dropped pn.extension t t') := by
  unfold FS_w_split at h
  simp only [hft] at h
  cases hag : ft.ag with
  | none => simp [hag] at h
  | some ag =>
    simp only [hag] at h
    cases hrd : ft.read with
    | none =>
      simp only [hrd, Option.some.injEq, Prod.mk.injEq] at h
      exact ⟨fun _ => ⟨h.1.symm, h.2.symm⟩, by simp, by simp⟩
    | some rd =>
      simp only [hrd] at h
      refine ⟨by simp, ?_, ?_⟩
      · intro _ hf hoff
        have hs : FS_w_split_switch env buf size offset pn ft rd ag.elements
            (env.FullFileLength pn) (env.OW_CACHE && env.alloc t AllocSite.cbuf) t
            = some (.inl (-EADDRNOTAVAIL, t)) := by
          simp [FS_w_split_switch, hf, hoff]
        simp only [hs, Option.some.injEq, Prod.mk.injEq] at h
        exact ⟨h.1.symm, h.2.symm⟩
      · intro _ hascii
        have htr := FS_w_split_switch_trace env buf size offset pn ft rd ag.elements
          (env.FullFileLength pn) (env.OW_CACHE && env.alloc t AllocSite.cbuf) t
        cases hs : FS_w_split_switch env buf size offset pn ft rd ag.elements
            (env.FullFileLength pn) (env.OW_CACHE && env.alloc t AllocSite.cbuf) t with
        | none => simp [hs] at h
        | some x =>
          cases x with
          | inl y =>
            obtain ⟨r, t1⟩ := y
            exact absurd (htr.1 r t1 hs).2 hascii
          | inr y =>
            obtain ⟨r, text, t1⟩ := y
            simp only [hs, Option.some.injEq, Prod.mk.injEq] at h
            obtain ⟨hr, ht⟩ := h
            have hr0 : r ≠ 0 := by
              intro h0
              rw [h0] at hr
              simp at hr
              exact hret hr.symm
            refine ⟨by rw [← hr, if_pos hr0], ?_⟩
            rw [← ht]
            refine cache_dropped_after ?_ (cache_update_dropped _ _ _ _ _ _ hlocal hr0)
            rcases htr.2 r text t1 hs with h1 | ⟨m, h1⟩ | ⟨m, v, h1⟩
            · rw [h1]; exact strategy_calls_only_refl _
            · rw [h1]; exact strategy_calls_only_one _ _ rfl
            · rw [h1]
              exact strategy_calls_only_trans
                (strategy_calls_only_one t (Event.read m pn.extension) rfl)
                (strategy_calls_only_one _ (Event.write v pn.extension) rfl)

/-- A failed comma loop of `FS_w_all` returns what the write of one element
returned, and ends with the drop of the entry of that element. -/
theorem FS_w_all_comma_failed (env : Env) (buf : Mem) (size : Nat) (pname : parsedname)
    (hlocal : ∀ e, env.IsLocalCacheEnabled { pname with extension := e } = true) (k : Nat) :
    ∀ (ext : Int) (p left : Nat) (t : Trace) (ret : Int) (t' : Trace),
      FS_w_all_comma env buf size pname k ext p left t = some (ret, t') → ret ≠ 0 →
      ∃ (e : Int) (t0 : Trace), ext ≤ e ∧ e < ext + k ∧ strategy_calls_only t t0 ∧
        (∃ q len, FS_parse_write env (shift buf q) len 0 { pname with extension := e } t0
          = some (ret, t')) ∧
        cache_dropped e t0 t' := by
  induction k with
  | zero =>
    intro ext p left t ret t' h hret
    simp only [FS_w_all_comma, Option.some.injEq, Prod.mk.injEq] at h
    exact absurd h.1.symm hret
  | succ k ih =>
    intro ext p left t ret t' h hret
    rw [FS_w_all_comma] at h
    cases hm : memchr buf ',' p left with
    | none =>
      simp only [hm] at h
      cases hp : FS_parse_write env (shift buf p) left 0 { pname with extension := ext } t with
      | none => simp [hp] at h
      | some x =>
        obtain ⟨r1, t1⟩ := x
        simp only [hp] at h
        split_ifs at h with hz
        · simp only [Option.some.injEq, Prod.mk.injEq] at h
          obtain ⟨hr, ht⟩ := h
          subst hr
          subst ht
          exact ⟨ext, t, le_refl _, by push_cast; omega, strategy_calls_only_refl _,
            ⟨p, left, hp⟩, FS_parse_write_dropped env _ _ _ _ t r1 t1 (hlocal ext) hp hz⟩
        · obtain ⟨e, t0, he1, he2, hc, hq, hd⟩ := ih _ _ _ _ _ _ h hret
          exact ⟨e, t0, by omega, by push_cast at he2 ⊢; omega,
            strategy_calls_only_trans (FS_parse_write_calls env _ _ _ _ t r1 t1 hp) hc, hq, hd⟩
    | some c =>
      simp only [hm] at h
      cases hp : FS_parse_write env (shift buf p) (to_size_t ((c : Int) - (p : Int))) 0
          { pname with extension := ext } t with
      | none => simp [hp] at h
      | some x =>
        obtain ⟨r1, t1⟩ := x
        simp only [hp] at h
        split_ifs at h with hz
        · simp only [Option.some.injEq, Prod.mk.injEq] at h
          obtain ⟨hr, ht⟩ := h
          subst hr
          subst ht
          exact ⟨ext, t, le_refl _, by push_cast; omega, strategy_calls_only_refl _,
            ⟨p, _, hp⟩, FS_parse_write_dropped env _ _ _ _ t r1 t1 (hlocal ext) hp hz⟩
        · obtain ⟨e, t0, he1, he2, hc, hq, hd⟩ := ih _ _ _ _ _ _ h hret
          exact ⟨e, t0, by omega, by push_cast at he2 ⊢; omega,
            strategy_calls_only_trans (FS_parse_write_calls env _ _ _ _ t r1 t1 hp) hc, hq, hd⟩

/-- A failed binary loop of `FS_w_all`: either fewer than `suglen` bytes were
left for an element, which returns `-ERANGE` without a call, or the write of
an element returned the error and ended with the drop of its entry. -/
theorem FS_w_all_binary_failed (env : Env) (buf : Mem) (pname : parsedname) (suglen : Int)
    (hlocal : ∀ e, env.IsLocalCacheEnabled { pname with extension := e } = true) (k : Nat) :
    ∀ (ext p : Int) (left : Nat) (t : Trace) (ret : Int) (t' : Trace),
      FS_w_all_binary env buf pname suglen k ext p left t = some (ret, t') → ret ≠ 0 →
      ∃ (j : Nat) (t0 : Trace), j < k ∧ strategy_calls_only t t0 ∧
        ((to_int (binary_left suglen left j) < suglen ∧ ret = -ERANGE ∧ t' = t0) ∨
         ((∃ q len, FS_parse_write env (shift buf q) len 0
              { pname with extension := ext + j } t0 = some (ret, t')) ∧
           cache_dropped (ext + j) t0 t')) := by
  induction k with
  | zero =>
    intro ext p left t ret t' h hret
    simp only [FS_w_all_binary, Option.some.injEq, Prod.mk.injEq] at h
    exact absurd h.1.symm hret
  | succ k ih =>
    intro ext p left t ret t' h hret
    rw [FS_w_all_binary] at h
    split_ifs at h with hshort
    · simp only [Option.some.injEq, Prod.mk.injEq] at h
      exact ⟨0, t, Nat.succ_pos k, strategy_calls_only_refl _,
        Or.inl ⟨by simpa [binary_left] using hshort, h.1.symm, h.2.symm⟩⟩
    · cases hp : FS_parse_write env (shift buf p.toNat) (to_size_t suglen) 0
          { pname with extension := ext } t with
      | none => simp [hp] at h
      | some x =>
        obtain ⟨r1, t1⟩ := x
        simp only [hp] at h
        split_ifs at h with hz
        · simp only [Option.some.injEq, Prod.mk.injEq] at h
          obtain ⟨hr, ht⟩ := h
          subst hr
          subst ht
          refine ⟨0, t, Nat.succ_pos k, strategy_calls_only_refl _,
            Or.inr ⟨⟨p.toNat, to_size_t suglen, ?_⟩, ?_⟩⟩
          · simpa using hp
          · simpa using FS_parse_write_dropped env _ _ _ _ t r1 t1 (hlocal ext) hp hz
        · obtain ⟨j, t0, hj, hc, hd⟩ := ih _ _ _ _ _ _ h hret
          refine ⟨j + 1, t0, Nat.succ_lt_succ hj,
            strategy_calls_only_trans (FS_parse_write_calls env _ _ _ _ t r1 t1 hp) hc, ?_⟩
          have he : ext + 1 + (j : Int) = ext + ((j + 1 : Nat) : Int) := by
            push_cast
            ring
          rw [he] at hd
          rcases hd with hd | hd
          · exact Or.inl (by simpa [binary_left, Function.iterate_succ_apply] using hd)
          · exact Or.inr hd

/-- Which strategy `FS_real_write` picks for a property with a write
handler. -/
theorem FS_real_write_dispatch (env : Env) (buf : Mem) (size : Nat) (offset : Int)
    (pn : parsedname) (ft : filetype) (t : Trace) (hft : pn.ft = some ft)
    (hw : ft.write.isNone = false) :
    (ft.ag = none → FS_real_write env buf size offset pn t
      = FS_real_write_tries env buf size offset pn 3 0 0 t) ∧
    (∀ ag, ft.ag = some ag →
      (pn.extension < -1 ∨ (pn.extension ≠ -1 ∧ ag.combined ≠ .ag_aggregate) →
        FS_real_write env buf size offset pn t
          = FS_real_write_tries env buf size offset pn 3 0 0 t) ∧
      (ag.combined = .ag_aggregate → pn.extension > -1 →
        FS_real_write env buf size offset pn t = FS_w_split env buf size offset pn t) ∧
      (ag.combined ≠ .ag_separate → pn.extension = -1 →
        FS_real_write env buf size offset pn t = FS_gamish env buf size offset pn t) ∧
      (ag.combined = .ag_separate → pn.extension = -1 →
        FS_real_write env buf size offset pn t = FS_w_all env buf size offset pn t)) := by
  refine ⟨fun hag => by simp [FS_real_write, hft, hw, hag], fun ag hag => ⟨?_, ?_, ?_, ?_⟩⟩
  · intro hc
    cases hcomb : ag.combined with
    | ag_aggregate =>
      have h1 : pn.extension < -1 := by
        rcases hc with h1 | ⟨_, h2⟩
        · exact h1
        · exact absurd hcomb h2
      have h2 : ¬ pn.extension > -1 := by omega
      have h3 : pn.extension ≠ -1 := by omega
      simp [FS_real_write, hft, hw, hag, hcomb, h2, h3]
    | ag_mixed =>
      have h3 : pn.extension ≠ -1 := by
        rcases hc with h1 | ⟨h1, _⟩
        · omega
        · exact h1
      simp [FS_real_write, hft, hw, hag, hcomb, h3]
    | ag_separate =>
      have h3 : pn.extension ≠ -1 := by
        rcases hc with h1 | ⟨h1, _⟩
        · omega
        · exact h1
      simp [FS_real_write, hft, hw, hag, hcomb, h3]
  · intro hcomb hext
    simp [FS_real_write, hft, hw, hag, hcomb, hext]
  · intro hcomb hext
    cases hc : ag.combined with
    | ag_aggregate => simp [FS_real_write, hft, hw, hag, hc, hext]
    | ag_mixed => simp [FS_real_write, hft, hw, hag, hc, hext]
    | ag_separate => exact absurd hc hcomb
  · intro hcomb hext
    simp [FS_real_write, hft, hw, hag, hcomb, hext]

/-- C24, as stated, fails: with the local cache enabled, six writes through
`FS_real_write` return an error before the cache block of their strategy is
reached, so without `Cache_Del`: a write to a property without write handler
(`-ENOTSUP`, no call); an ALL write with an offset to a property stored as
aggregate (`-EADDRNOTAVAIL` from `FS_gamish`, no call) and to one stored
separately (`-ERANGE` from `FS_w_all`, after its statistics counter only); an
ALL write of one byte to a separately stored binary property of 12 bytes per
element (`-ERANGE`); and a read-modify-write of a property without read
handler (`-EFAULT`, no call) and of an ascii property with an offset
(`-EADDRNOTAVAIL`, no call). -/
theorem FS_real_write_error_keeps_cache :
    (∀ pn, (cache_env true).IsLocalCacheEnabled pn = true) ∧
    FS_real_write (cache_env true) (cmem "1") 1 0 readonly_pn [] = some (-ENOTSUP, []) ∧
    FS_real_write (cache_env true) (cmem "1,2,3,") 6 1 (aggregate_pn .ft_integer (-1)) []
      = some (-EADDRNOTAVAIL, []) ∧
    FS_real_write (cache_env true) (cmem "1,2") 3 1 separate_pn []
      = some (-ERANGE, [Event.stat Counter.write_array]) ∧
    FS_real_write (cache_env true) (cmem "a") 1 0 binary_separate_pn []
      = some (-ERANGE, [Event.stat Counter.write_array]) ∧
    FS_real_write (cache_env true) (cmem "1") 1 0 writeonly_pn [] = some (-EFAULT, []) ∧
    FS_real_write (cache_env true) (cmem "a") 1 1 (aggregate_pn .ft_ascii 1) []
      = some (-EADDRNOTAVAIL, []) := by
  refine ⟨fun _ => rfl, ?_, ?_, ?_, ?_, ?_, ?_⟩ <;> decide

/-- C24 (amended). A write through `FS_real_write` to a property with the
local cache enabled that returns an error. Six returns come before the cache
block of the strategy: without a write handler `-ENOTSUP`, without any call;
in an ALL write with an offset `-EADDRNOTAVAIL` from `FS_gamish`, without any
call, and `-ERANGE` from `FS_w_all`, after its statistics counter; in an ALL
write of a separately stored binary property `-ERANGE` when fewer than
`suglen` bytes are left for an element; in a read-modify-write `-EFAULT`
without a read handler and `-EADDRNOTAVAIL` for ascii with an offset, both
without any call. Every other error ends with `Cache_Del` as the last call
made: for the name written in a single-element write, in a read-modify-write
(which returns `-EINVAL`) and in an ALL write through `FS_gamish`, and in an
ALL write of a separately stored property for the element whose
`FS_parse_write` returned the error. -/
theorem FS_real_write_error_drops_cache (env : Env) (buf : Mem) (size : Nat) (offset : Int)
    (pn : parsedname) (ft : filetype) (t : Trace) (ret : Int) (t' : Trace)
    (hlocal : ∀ e, env.IsLocalCacheEnabled { pn with extension := e } = true)
    (hft : pn.ft = some ft)
    (h : FS_real_write env buf size offset pn t = some (ret, t')) (hret : ret ≠ 0) :
    (ft.write.isNone = true → ret = -ENOTSUP ∧ t' = t) ∧
    (ft.write.isNone = false →
      (ft.ag = none → cache_dropped pn.extension t t') ∧
      (∀ ag, ft.ag = some ag →
        (pn.extension < -1 ∨ (pn.extension ≠ -1 ∧ ag.combined ≠ .ag_aggregate) →
          cache_dropped pn.extension t t') ∧
        (ag.combined = .ag_aggregate → pn.extension > -1 →
          (ft.read.isNone = true → ret = -EFAULT ∧ t' = t) ∧
          (ft.read.isNone = false → ft.format = .ft_ascii → offset ≠ 0 →
            ret = -EADDRNOTAVAIL ∧ t' = t) ∧
          (ft.read.isNone = false → ¬ (ft.format = .ft_ascii ∧ offset ≠ 0) →
            ret = -EINVAL ∧ cache_dropped pn.extension t t')) ∧
        (ag.combined ≠ .ag_separate → pn.extension = -1 →
          (offset ≠ 0 → ret = -EADDRNOTAVAIL ∧ t' = t) ∧
          (offset = 0 → cache_dropped pn.extension t t')) ∧
        (ag.combined = .ag_separate → pn.extension = -1 →
          (offset ≠ 0 → ret = -ERANGE ∧ t' = t ++ [Event.stat Counter.write_array]) ∧
          (offset = 0 →
            ∃ (e : Nat) (t0 : Trace), e < ag.elements ∧ strategy_calls_only t t0 ∧
              ((ft.format = .ft_binary ∧ to_int (binary_left ft.suglen size e) < ft.suglen ∧
                  ret = -ERANGE ∧ t' = t0) ∨
               ((∃ q len, FS_parse_write env (shift buf q) len 0
                    { pn with extension := (e : Int) } t0 = some (ret, t')) ∧
                 cache_dropped (e : Int) t0 t')))))) := by
  have hpn : env.IsLocalCacheEnabled pn = true := hlocal pn.extension
  constructor
  · intro hw
    simp only [FS_real_write, hft, hw, if_true, Option.some.injEq, Prod.mk.injEq] at h
    exact ⟨h.1.symm, h.2.symm⟩
  · intro hw
    obtain ⟨d0, d1⟩ := FS_real_write_dispatch env buf size offset pn ft t hft hw
    refine ⟨?_, fun ag hag => ⟨?_, ?_, ?_, ?_⟩⟩
    · intro hag
      rw [d0 hag] at h
      exact FS_real_write_tries_dropped env buf size offset pn hpn 2 0 0 t ret t' h hret
    · intro hc
      rw [(d1 ag hag).1 hc] at h
      exact FS_real_write_tries_dropped env buf size offset pn hpn 2 0 0 t ret t' h hret
    · intro hcomb hext
      rw [(d1 ag hag).2.1 hcomb hext] at h
      exact FS_w_split_failed env buf size offset pn ft t ret t' hpn hft h hret
    · intro hcomb hext
      rw [(d1 ag hag).2.2.1 hcomb hext] at h
      refine ⟨fun hoff => FS_gamish_offset env buf size offset pn t ret t' hoff h, ?_⟩
      intro hoff
      rw [hoff] at h
      exact FS_gamish_dropped env buf size pn t ret t' hpn h hret
    · intro hcomb hext
      rw [(d1 ag hag).2.2.2 hcomb hext] at h
      unfold FS_w_all at h
      constructor
      · intro hoff
        simp only [ne_eq, hoff, not_false_eq_true, if_true, Option.some.injEq,
          Prod.mk.injEq] at h
        exact ⟨h.1.symm, h.2.symm⟩
      · intro hoff
        simp only [hoff, ne_eq, not_true_eq_false, if_false, hft, hag] at h
        have hstat := strategy_calls_only_one t (Event.stat Counter.write_array) rfl
        split_ifs at h with hb
        · obtain ⟨j, t0, hj, hc, hd⟩ :=
            FS_w_all_binary_failed env buf pn ft.suglen hlocal _ _ _ _ _ _ _ h hret
          refine ⟨j, t0, hj, strategy_calls_only_trans hstat hc, ?_⟩
          rcases hd with hd | hd
          · exact Or.inl ⟨hb, hd⟩
          · exact Or.inr (by simpa using hd)
        · obtain ⟨e, t0, he1, he2, hc, hq, hd⟩ :=
            FS_w_all_comma_failed env buf size pn hlocal _ _ _ _ _ _ _ h hret
          have hen : ((e.toNat : Nat) : Int) = e := Int.toNat_of_nonneg he1
          refine ⟨e.toNat, t0, by omega, strategy_calls_only_trans hstat hc, Or.inr ?_⟩
          rw [hen]
          exact ⟨hq, hd⟩

/-- C24 (amended) on the sample installation with the cache enabled: the text
`x`, no integer, is written to element 1 of the aggregate, which returns
`-EINVAL` with `Cache_Del` for element 1 as the last call; and `1,x` is
written to ALL of the separately stored property, where the write of element
1 returns 1 and `Cache_Del` for element 1 is the last call. -/
theorem FS_real_write_error_drops_cache_witness :
    FS_real_write (cache_env true) (cmem "x") 1 0 (aggregate_pn .ft_integer 1) []
      = some (-EINVAL, [Event.read Member.i 1, Event.Cache_Del 1]) ∧
    cache_dropped 1 [] [Event.read Member.i 1, Event.Cache_Del 1] ∧
    FS_real_write (cache_env true) (cmem "1,x,") 4 0 separate_pn []
      = some (1, [Event.stat Counter.write_array, Event.write (Val.i [1]) 0,
          Event.Cache_Add ['1'] 0, Event.Cache_Del 1]) ∧
    ∃ (e : Nat) (t0 : Trace), e < 2 ∧ strategy_calls_only [] t0 ∧
      (∃ q len, FS_parse_write (cache_env true) (shift (cmem "1,x,") q) len 0
          { separate_pn with extension := (e : Int) } t0
          = some (1, [Event.stat Counter.write_array, Event.write (Val.i [1]) 0,
              Event.Cache_Add ['1'] 0, Event.Cache_Del 1])) ∧
      cache_dropped (e : Int) t0 [Event.stat Counter.write_array,
        Event.write (Val.i [1]) 0, Event.Cache_Add ['1'] 0, Event.Cache_Del 1] := by
  have h1 := FS_real_write_error_drops_cache (cache_env true) (cmem "x") 1 0
    (aggregate_pn .ft_integer 1) (sample_ft .ft_integer (some ⟨3, .ag_aggregate⟩)) [] (-EINVAL)
    [Event.read Member.i 1, Event.Cache_Del 1] (fun _ => rfl) rfl (by decide) (by decide)
  have h2 := FS_real_write_error_drops_cache (cache_env true) (cmem "1,x,") 4 0 separate_pn
    (sample_ft .ft_integer (some ⟨2, .ag_separate⟩)) [] 1
    [Event.stat Counter.write_array, Event.write (Val.i [1]) 0, Event.Cache_Add ['1'] 0,
      Event.Cache_Del 1] (fun _ => rfl) rfl (by decide) (by decide)
  refine ⟨by decide, ?_, by decide, ?_⟩
  · exact ((((h1.2 rfl).2 ⟨3, .ag_aggregate⟩ rfl).2.1 rfl (by decide)).2.2 rfl
      (by decide)).2
  · obtain ⟨e, t0, he, hc, hd⟩ := (((h2.2 rfl).2 ⟨2, .ag_separate⟩ rfl).2.2.2 rfl rfl).2 rfl
    rcases hd with hd | hd
    · exact absurd hd.1 (by decide)
    · exact ⟨e, t0, he, hc, hd⟩

/-- C25 fails in `FS_w_split`: with the local cache disabled for every name,
a read-modify-write of element 1 of the sample aggregate succeeds and inserts
the rendered array into the property cache, whereas the single-element and
the ALL write of the same installation call the cache not at all. -/
theorem FS_w_split_caches_uncached :
    (cache_env false).IsLocalCacheEnabled (aggregate_pn .ft_integer 1) = false ∧
    FS_w_split (cache_env false) (cmem "7") 1 0 (aggregate_pn .ft_integer 1) []
      = some (0, [Event.read Member.i 1, Event.write (Val.i [10, 7, 30]) 1,
          Event.Cache_Add ['1', '0', ',', '7', ',', '3', '0'] 1]) ∧
    FS_parse_write (cache_env false) (cmem "7") 1 0 counter_pn []
      = some (0, [Event.write (Val.u [7]) 0]) ∧
    FS_gamish (cache_env false) (cmem "1,2,3") 5 0 (aggregate_pn .ft_integer (-1)) []
      = some (0, [Event.write (Val.i [1, 2, 0]) (-1)]) :=
  ⟨rfl, by decide, by decide, by decide⟩

/-! ### The device lock -/

theorem locks_after_append (ok : Trace → Nat → Bool) (s1 s2 : Trace) :
    ∀ (b : Trace) (h : List Nat),
      locks_after ok b h (s1 ++ s2) = locks_after ok (b ++ s1) (locks_after ok b h s1) s2 := by
  induction s1 with
  | nil => intro b h; simp [locks_after]
  | cons e s1 ih =>
    intro b h
    show locks_after ok (b ++ [e]) _ (s1 ++ s2)
      = locks_after ok (b ++ (e :: s1)) (locks_after ok (b ++ [e]) _ s1) s2
    rw [ih]
    simp

theorem locks_after_no_lock (ok : Trace → Nat → Bool) (s : Trace)
    (hs : ∀ e ∈ s, e.is_lock = false) :
    ∀ (b : Trace) (h : List Nat), locks_after ok b h s = h := by
  induction s with
  | nil => intro b h; rfl
  | cons e s ih =>
    intro b h
    have he : e.is_lock = false := hs e (by simp)
    have hrest : ∀ x ∈ s, x.is_lock = false := fun x hx => hs x (by simp [hx])
    simp only [locks_after]
    rw [ih hrest]
    cases e <;> simp_all [Event.is_lock]

theorem strategy_call_no_lock (e : Event) (h : e.is_strategy_call = true) :
    e.is_lock = false := by
  cases e <;> simp_all [Event.is_strategy_call, Event.is_lock]

theorem locks_kept_refl (ok : Trace → Nat → Bool) (t : Trace) : locks_kept ok t t :=
  ⟨[], by simp, fun _ => rfl⟩

theorem locks_kept_trans {ok : Trace → Nat → Bool} {t t1 t2 : Trace}
    (h1 : locks_kept ok t t1) (h2 : locks_kept ok t1 t2) : locks_kept ok t t2 := by
  obtain ⟨s1, rfl, hs1⟩ := h1
  obtain ⟨s2, rfl, hs2⟩ := h2
  refine ⟨s1 ++ s2, by simp, ?_⟩
  intro held
  rw [locks_after_append, hs1, hs2]

theorem locks_kept_no_lock (ok : Trace → Nat → Bool) (t s : Trace)
    (hs : ∀ e ∈ s, e.is_lock = false) : locks_kept ok t (t ++ s) :=
  ⟨s, rfl, fun held => locks_after_no_lock ok s hs t held⟩

theorem locks_kept_of_calls {ok : Trace → Nat → Bool} {t t' : Trace}
    (h : strategy_calls_only t t') : locks_kept ok t t' := by
  obtain ⟨s, rfl, hs⟩ := h
  exact locks_kept_no_lock ok t s (fun e he => strategy_call_no_lock e (hs e he))

/-- A lock taken with success, calls of the strategies, and the release of
the lock leave the locks held as they were. -/
theorem locks_kept_bracket (ok : Trace → Nat → Bool) (t t3 : Trace) (i : Nat)
    (hok : ok t i = true) (h : strategy_calls_only (t ++ [Event.LockGet i]) t3) :
    locks_kept ok t (t3 ++ [Event.LockRelease i]) := by
  obtain ⟨s, rfl, hs⟩ := h
  refine ⟨[Event.LockGet i] ++ s ++ [Event.LockRelease i], by simp, ?_⟩
  intro held
  have hs1 : ∀ e ∈ s, e.is_lock = false := fun e he => strategy_call_no_lock e (hs e he)
  rw [locks_after_append, locks_after_append, locks_after_no_lock ok s hs1]
  simp [locks_after, hok]

/-- The body of `FS_write_seek` for one adapter leaves the locks held as they
were, whichever way it is left. -/
theorem FS_write_seek_adapter_locks (env : Env) (buf : Mem) (size : Nat) (offset : Int)
    (pn : parsedname) (ok : Trace → Nat → Bool)
    (hok : ∀ b j rest, env.LockGet b { pn with in_ := j :: rest } = 0 ↔ ok b j.index = true)
    (i : connection_in) (next : List connection_in) (t : Trace)
    (x : Sum (Int × Trace) (Int × Trace))
    (h : FS_write_seek_adapter env buf size offset pn i next t = some x) :
    locks_kept ok t (Sum.elim Prod.snd Prod.snd x) := by
  have hT : ∀ e ∈ [Event.TestConnection i.index], e.is_lock = false := by
    simp [Event.is_lock]
  unfold FS_write_seek_adapter at h
  by_cases h1 : env.TestConnection t { pn with in_ := i :: next } = 0
  · by_cases h2 : i.busmode = .bus_remote
    · simp only [h1, h2, ne_eq, not_true_eq_false, if_false, if_true, Option.some.injEq] at h
      subst h
      exact locks_kept_trans (locks_kept_no_lock ok t _ hT)
        (locks_kept_no_lock ok _ _ (by simp [Event.is_lock]))
    · cases h3 : env.readonly with
      | true =>
        simp only [h1, h2, h3, ne_eq, not_true_eq_false, if_false, if_true,
          Option.some.injEq] at h
        subst h
        exact locks_kept_no_lock ok t _ hT
      | false =>
        by_cases h4 : env.LockGet (t ++ [Event.TestConnection i.index])
            { pn with in_ := i :: next } = 0
        · simp only [h1, h2, h3, h4, ne_eq, not_true_eq_false, if_false, if_true,
            Bool.false_eq_true] at h
          cases hr : FS_real_write env buf size offset { pn with in_ := i :: next }
              (t ++ [Event.TestConnection i.index] ++ [Event.LockGet i.index]) with
          | none => simp only [hr] at h; exact absurd h (by simp)
          | some y =>
            obtain ⟨r, t3⟩ := y
            simp only [hr, Option.some.injEq] at h
            subst h
            have hc := FS_real_write_calls env buf size offset _ _ r t3 hr
            exact locks_kept_trans (locks_kept_no_lock ok t _ hT)
              (locks_kept_bracket ok _ t3 i.index ((hok _ i next).mp h4) hc)
        · simp only [h1, h2, h3, h4, ne_eq, not_true_eq_false, if_false,
            Bool.false_eq_true, Option.some.injEq] at h
          subst h
          refine locks_kept_trans (locks_kept_no_lock ok t _ hT)
            ⟨[Event.LockGet i.index], rfl, ?_⟩
          intro held
          have hno : ok (t ++ [Event.TestConnection i.index]) i.index = false := by
            cases hx : ok (t ++ [Event.TestConnection i.index]) i.index with
            | false => rfl
            | true => exact absurd ((hok _ i next).mpr hx) h4
          simp [locks_after, hno]
  · simp only [h1, ne_eq, not_false_eq_true, if_true, Option.some.injEq] at h
    subst h
    exact locks_kept_no_lock ok t _ hT

/-- `FS_write_seek` returns with the locks held as they were, in both
builds and over any chain of adapters. -/
theorem FS_write_seek_locks (env : Env) (buf : Mem) (size : Nat) (offset : Int)
    (pn : parsedname) (ok : Trace → Nat → Bool)
    (hok : ∀ b j rest, env.LockGet b { pn with in_ := j :: rest } = 0 ↔ ok b j.index = true)
    (chain : List connection_in) :
    ∀ (t : Trace) (ret : Int) (t' : Trace),
      FS_write_seek env buf size offset pn chain t = some (ret, t') → locks_kept ok t t' := by
  induction chain with
  | nil => intro t ret t' h; simp [FS_write_seek] at h
  | cons i next ih =>
    intro t ret t' h
    have hone : ∀ (e : Event) (u : Trace), e.is_lock = false → locks_kept ok u (u ++ [e]) :=
      fun e u he => locks_kept_no_lock ok u [e] (by simpa using he)
    have hcad : ∀ (r : Int) (u : Trace), locks_kept ok u
        (if pn.type = .pn_real ∧ r = 0 then u ++ [Event.Cache_Add_Device i.index] else u) := by
      intro r u
      split_ifs
      · exact hone _ _ rfl
      · exact locks_kept_refl ok u
    rw [FS_write_seek] at h
    cases hmt : env.OW_MT with
    | true =>
      simp only [hmt, if_true] at h
      have h0 : locks_kept ok t
          (if (!pn.state_bus && !next.isEmpty) = true then t ++ [Event.pthread_create] else t) := by
        split_ifs
        · exact hone _ _ rfl
        · exact locks_kept_refl ok t
      generalize (if (!pn.state_bus && !next.isEmpty) = true then t ++ [Event.pthread_create]
        else t) = t0 at h h0
      generalize (!pn.state_bus && !next.isEmpty && decide (env.pthread_create t = 0)) = created
        at h
      have hw : ∀ wret tw, (if created = true then FS_write_seek env buf size offset pn next t0
          else some (0, t0)) = some (wret, tw) → locks_kept ok t tw := by
        intro wret tw hw
        cases created with
        | true =>
          simp only [if_true] at hw
          exact locks_kept_trans h0 (ih _ _ _ hw)
        | false =>
          simp only [Bool.false_eq_true, if_false, Option.some.injEq, Prod.mk.injEq] at hw
          rw [← hw.2]
          exact h0
      cases hx : (if created = true then FS_write_seek env buf size offset pn next t0
          else some (0, t0)) with
      | none => simp only [hx] at h; exact absurd h (by simp)
      | some y =>
        obtain ⟨wret, tw⟩ := y
        have hwk := hw wret tw hx
        simp only [hx] at h
        cases ha : FS_write_seek_adapter env buf size offset pn i next tw with
        | none => simp only [ha] at h; exact absurd h (by simp)
        | some x =>
          have hk := FS_write_seek_adapter_locks env buf size offset pn ok hok i next tw x ha
          cases x with
          | inl r =>
            simp only [ha, Option.some.injEq] at h
            subst h
            exact locks_kept_trans hwk hk
          | inr r =>
            obtain ⟨r1, t1⟩ := r
            simp only [ha] at h
            have h2 := locks_kept_trans (locks_kept_trans hwk hk) (hcad r1 t1)
            generalize (if pn.type = .pn_real ∧ r1 = 0 then t1 ++ [Event.Cache_Add_Device i.index]
              else t1) = u at h h2
            split_ifs at h <;>
              simp only [Option.some.injEq, Prod.mk.injEq] at h <;>
              rw [← h.2] <;>
              first
              | exact h2
              | exact locks_kept_trans h2 (hone _ _ rfl)
    | false =>
      simp only [hmt, Bool.false_eq_true, if_false] at h
      cases ha : FS_write_seek_adapter env buf size offset pn i next t with
      | none => simp only [ha] at h; exact absurd h (by simp)
      | some x =>
        have hk := FS_write_seek_adapter_locks env buf size offset pn ok hok i next t x ha
        cases x with
        | inl r =>
          simp only [ha, Option.some.injEq] at h
          subst h
          exact hk
        | inr r =>
          obtain ⟨r1, t1⟩ := r
          simp only [ha] at h
          have h2 := locks_kept_trans hk (hcad r1 t1)
          generalize (if pn.type = .pn_real ∧ r1 = 0 then t1 ++ [Event.Cache_Add_Device i.index]
            else t1) = u at h h2
          split_ifs at h with hc
          · exact locks_kept_trans h2 (ih _ _ _ h)
          · simp only [Option.some.injEq, Prod.mk.injEq] at h
            rw [← h.2]
            exact h2

/-- C26. `FS_write_seek` on a local adapter `i` of a writable installation
whose connection test passed. When `LockGet` returns 0, `FS_real_write` runs
next and, whatever it returns, `LockRelease` on `i` is the one call that
follows it; the calls of `FS_real_write` lie between the two and none of them
is a lock call; the result of `FS_real_write` is the result for the adapter.
When `LockGet` fails, it is the last call for the adapter and its error is the
result, so neither `FS_real_write` nor `LockRelease` is called. Over any chain
of adapters and in both builds, `FS_write_seek` returns with exactly the
locks held that were held when it was called. -/
theorem FS_write_seek_lock_released (env : Env) (buf : Mem) (size : Nat) (offset : Int)
    (pn : parsedname) (i : connection_in) (next : List connection_in) (t : Trace)
    (ok : Trace → Nat → Bool)
    (hok : ∀ b j rest, env.LockGet b { pn with in_ := j :: rest } = 0 ↔ ok b j.index = true)
    (hlocal : i.busmode = .bus_local) (hrw : env.readonly = false)
    (htest : env.TestConnection t { pn with in_ := i :: next } = 0) :
    (env.LockGet (t ++ [Event.TestConnection i.index]) { pn with in_ := i :: next } = 0 →
      ∀ r t3, FS_real_write env buf size offset { pn with in_ := i :: next }
          (t ++ [Event.TestConnection i.index] ++ [Event.LockGet i.index]) = some (r, t3) →
        FS_write_seek_adapter env buf size offset pn i next t
          = some (.inr (r, t3 ++ [Event.LockRelease i.index])) ∧
        ∃ s, t3 = t ++ [Event.TestConnection i.index] ++ [Event.LockGet i.index] ++ s ∧
          ∀ e ∈ s, e.is_lock = false) ∧
    (env.LockGet (t ++ [Event.TestConnection i.index]) { pn with in_ := i :: next } ≠ 0 →
      FS_write_seek_adapter env buf size offset pn i next t
        = some (.inr (env.LockGet (t ++ [Event.TestConnection i.index])
              { pn with in_ := i :: next },
            t ++ [Event.TestConnection i.index] ++ [Event.LockGet i.index]))) ∧
    (∀ chain t0 ret t', FS_write_seek env buf size offset pn chain t0 = some (ret, t') →
      locks_kept ok t0 t') := by
  have hb : ¬ i.busmode = .bus_remote := by rw [hlocal]; decide
  refine ⟨?_, ?_, ?_⟩
  · intro hlock r t3 hr
    refine ⟨?_, ?_⟩
    · simp only [FS_write_seek_adapter, htest, hb, hrw, hlock, hr, ne_eq, not_true_eq_false,
        if_false, if_true, Bool.false_eq_true]
    · obtain ⟨s, hs, hcalls⟩ := FS_real_write_calls env buf size offset _ _ r t3 hr
      exact ⟨s, hs, fun e he => strategy_call_no_lock e (hcalls e he)⟩
  · intro hlock
    simp only [FS_write_seek_adapter, htest, hb, hrw, hlock, ne_eq, not_true_eq_false,
      if_false, Bool.false_eq_true]
  · intro chain t0 ret t' h
    exact FS_write_seek_locks env buf size offset pn ok hok chain t0 ret t' h

/-- C26 on the sample installation: the text `x` is no unsigned value, the
three attempts fail under the lock, and the lock is released before
`FS_write_seek` returns the error. -/
theorem FS_write_seek_lock_released_witness :
    FS_write_seek_adapter (sample_env false (fun _ => none)) (cmem "x") 1 0 counter_pn
        sample_adapter [] []
      = some (.inr (1, [Event.TestConnection 0, Event.LockGet 0,
          Event.stat (Counter.write_tries 0), Event.stat (Counter.write_tries 1),
          Event.stat (Counter.write_tries 2)] ++ [Event.LockRelease sample_adapter.index])) ∧
    locks_kept (fun _ _ => true) []
      [Event.TestConnection 0, Event.LockGet 0, Event.stat (Counter.write_tries 0),
        Event.stat (Counter.write_tries 1), Event.stat (Counter.write_tries 2),
        Event.LockRelease 0] :=
  ⟨((FS_write_seek_lock_released (sample_env false (fun _ => none)) (cmem "x") 1 0 counter_pn
      sample_adapter [] [] (fun _ _ => true) (fun _ _ _ => ⟨fun _ => rfl, fun _ => rfl⟩)
      rfl rfl rfl).1 rfl 1 _ (by decide)).1,
   (FS_write_seek_lock_released (sample_env false (fun _ => none)) (cmem "x") 1 0 counter_pn
      sample_adapter [] [] (fun _ _ => true) (fun _ _ _ => ⟨fun _ => rfl, fun _ => rfl⟩)
      rfl rfl rfl).2.2 [sample_adapter] [] 1 _ (by decide)⟩

/-! ### Bus speed -/

/-- C27, as stated, fails: writing 1 to the overdrive setting of bus 1, an
adapter that is no DS9490, through a name on that bus returns `-ENOTSUP` and
leaves the speed of the bus regular instead of making it flexible. -/
theorem FS_w_overdrive_flexible_refused :
    FS_w_overdrive sample_find 1 1 (some 1) sample_adapters = some (-ENOTSUP, sample_adapters) ∧
    (sample_adapters[1]?).map bus_connection.use_overdrive_speed
      = some bus_speed.ONEWIREBUSSPEED_REGULAR := by
  decide

/-- C27 (amended). Writing `u` to the overdrive setting of the bus found for
the extension (a negative extension counting as 0), the adapter `a` at
position `p`: 0 makes its speed regular and 2 overdrive, on every adapter
type; 1, written through a name that is on that bus, makes it flexible when
the adapter is a DS9490 and is otherwise rejected with `-ENOTSUP`, the table
unchanged; every `u` above 2 is rejected with `-ENOTSUP`, the table
unchanged; and whatever is returned, no entry of the table other than `p`
has changed. -/
theorem FS_w_overdrive_speed (find_connection_in : Int → Option Nat) (u : Nat)
    (extension : Int) (pn_in : Option Nat) (adapters : List bus_connection) (p : Nat)
    (a : bus_connection)
    (hfind : find_connection_in (if extension < 0 then 0 else extension) = some p)
    (hp : adapters[p]? = some a) :
    (u = 0 → FS_w_overdrive find_connection_in u extension pn_in adapters
      = some (0, adapters.set p { a with use_overdrive_speed := .ONEWIREBUSSPEED_REGULAR })) ∧
    (u = 2 → FS_w_overdrive find_connection_in u extension pn_in adapters
      = some (0, adapters.set p { a with use_overdrive_speed := .ONEWIREBUSSPEED_OVERDRIVE })) ∧
    (u = 1 → pn_in = some p →
      FS_w_overdrive find_connection_in u extension pn_in adapters
        = some (if a.Adapter = .adapter_DS9490
            then (0, adapters.set p { a with use_overdrive_speed := .ONEWIREBUSSPEED_FLEXIBLE })
            else (-ENOTSUP, adapters))) ∧
    (2 < u → FS_w_overdrive find_connection_in u extension pn_in adapters
      = some (-ENOTSUP, adapters)) ∧
    (∀ r adapters1, FS_w_overdrive find_connection_in u extension pn_in adapters
        = some (r, adapters1) →
      adapters1.length = adapters.length ∧ ∀ j, j ≠ p → adapters1[j]? = adapters[j]?) := by
  refine ⟨?_, ?_, ?_, ?_, ?_⟩
  · intro hu
    subst hu
    simp [FS_w_overdrive, hfind, hp]
  · intro hu
    subst hu
    simp [FS_w_overdrive, hfind, hp]
  · intro hu hq
    subst hu
    by_cases hd : a.Adapter = .adapter_DS9490 <;> simp [FS_w_overdrive, hfind, hp, hq, hd]
  · intro hu
    obtain ⟨k, rfl⟩ : ∃ k, u = k + 3 := ⟨u - 3, by omega⟩
    simp [FS_w_overdrive, hfind, hp]
  · intro r adapters1 h
    have hset : ∀ x : bus_connection, (adapters.set p x).length = adapters.length ∧
        ∀ j, j ≠ p → (adapters.set p x)[j]? = adapters[j]? := by
      intro x
      refine ⟨by simp, ?_⟩
      intro j hj
      rw [List.getElem?_set_ne (Ne.symm hj)]
    unfold FS_w_overdrive at h
    simp only [hfind, hp] at h
    split at h
    · simp only [Option.some.injEq, Prod.mk.injEq] at h
      rw [← h.2]
      exact hset _
    · cases hq : pn_in with
      | none => simp [hq] at h
      | some q =>
        simp only [hq] at h
        cases hb : adapters[q]? with
        | none => simp [hb] at h
        | some b =>
          simp only [hb] at h
          split_ifs at h <;> simp only [Option.some.injEq, Prod.mk.injEq] at h <;> rw [← h.2]
          · exact ⟨rfl, fun _ _ => rfl⟩
          · exact hset _
    · simp only [Option.some.injEq, Prod.mk.injEq] at h
      rw [← h.2]
      exact hset _
    · simp only [Option.some.injEq, Prod.mk.injEq] at h
      rw [← h.2]
      exact ⟨rfl, fun _ _ => rfl⟩

/-- C27 (amended) on the sample table: 2 written to bus 1 through a name on
bus 1 makes the adapter, no DS9490, overdrive; 1 written to bus 0 through a
name on bus 0, a DS9490, makes it flexible. -/
theorem FS_w_overdrive_speed_witness :
    FS_w_overdrive sample_find 2 1 (some 1) sample_adapters
      = some (0, [⟨.adapter_DS9490, .ONEWIREBUSSPEED_REGULAR⟩,
          ⟨.adapter_other, .ONEWIREBUSSPEED_OVERDRIVE⟩]) ∧
    FS_w_overdrive sample_find 1 0 (some 0) sample_adapters
      = some (0, [⟨.adapter_DS9490, .ONEWIREBUSSPEED_FLEXIBLE⟩,
          ⟨.adapter_other, .ONEWIREBUSSPEED_REGULAR⟩]) :=
  ⟨(FS_w_overdrive_speed sample_find 2 1 (some 1) sample_adapters 1
      ⟨.adapter_other, .ONEWIREBUSSPEED_REGULAR⟩ rfl rfl).2.1 rfl,
   (FS_w_overdrive_speed sample_find 1 0 (some 0) sample_adapters 0
      ⟨.adapter_DS9490, .ONEWIREBUSSPEED_REGULAR⟩ rfl rfl).2.2.1 rfl rfl⟩

/-! ### Temperature gaps -/

/-- C28 fails in `FS_w_split`: on an installation whose gap conversion adds
100, a single-element write and an ALL write of a tempgap property hand the
converted value 105 to the write handler, but the read-modify-write of
element 1 hands over the unconverted 5, also through `FS_real_write`, whereas
the same write to a temperature property is converted. -/
theorem FS_w_split_tempgap_unconverted :
    FS_parse_write gap_env (cmem "5") 1 0 (sample_pn .pn_real (sample_ft .ft_tempgap none) 0) []
      = some (0, [Event.write (Val.f [⟨105⟩]) 0]) ∧
    FS_gamish gap_env (cmem "5,5,5\n") 6 0 (aggregate_pn .ft_tempgap (-1)) []
      = some (0, [Event.write (Val.f [⟨105⟩, ⟨105⟩, ⟨105⟩]) (-1)]) ∧
    FS_w_split gap_env (cmem "5") 1 0 (aggregate_pn .ft_tempgap 1) []
      = some (0, [Event.read Member.f 1, Event.write (Val.f [⟨0⟩, ⟨5⟩, ⟨0⟩]) 1]) ∧
    FS_real_write gap_env (cmem "5") 1 0 (aggregate_pn .ft_tempgap 1) []
      = some (0, [Event.read Member.f 1, Event.write (Val.f [⟨0⟩, ⟨5⟩, ⟨0⟩]) 1]) ∧
    FS_w_split gap_env (cmem "5") 1 0 (aggregate_pn .ft_temperature 1) []
      = some (0, [Event.read Member.f 1, Event.write (Val.f [⟨0⟩, ⟨1005⟩, ⟨0⟩]) 1]) := by
  refine ⟨?_, ?_, ?_, ?_, ?_⟩ <;> decide

/-! ### Offsets in array writes -/

/-- C29 fails: an ALL write of the binary sample aggregate at offset 1, within
the full length of 38, is refused by `FS_gamish` with `-EADDRNOTAVAIL` before
its `switch` and without a call of the write handler, also through
`FS_real_write`; the binary case of the `switch`, which would hand the bytes
and the offset to the handler, is never reached with a non-zero offset. At
offset 0 the same write reaches the handler. -/
theorem FS_gamish_binary_offset_refused :
    FS_gamish (sample_env false (fun _ => none)) (cmem "ab") 2 1 (aggregate_pn .ft_binary (-1)) []
      = some (-EADDRNOTAVAIL, []) ∧
    FS_real_write (sample_env false (fun _ => none)) (cmem "ab") 2 1
        (aggregate_pn .ft_binary (-1)) []
      = some (-EADDRNOTAVAIL, []) ∧
    FS_gamish_switch (sample_env false (fun _ => none)) (cmem "ab") 2 1
        (aggregate_pn .ft_binary (-1)) (sample_ft .ft_binary (some ⟨3, .ag_aggregate⟩)) 3 38 false []
      = some (0, [], [Event.write (Val.b ['a', 'b'] 1) (-1)]) ∧
    FS_gamish (sample_env false (fun _ => none)) (cmem "ab") 2 0 (aggregate_pn .ft_binary (-1)) []
      = some (0, [Event.write (Val.b ['a', 'b'] 0) (-1)]) := by
  refine ⟨?_, ?_, ?_, ?_⟩ <;> decide

/-! ### Error codes of the read-modify-write -/

/-- With a write handler `FS_parse_write` returns: the only NULL it may
dereference is a missing format table or handler. -/
theorem FS_parse_write_returns (env : Env) (buf : Mem) (size : Nat) (offset : Int)
    (pn : parsedname) (ft : filetype) (w : write_union) (t : Trace)
    (hft : pn.ft = some ft) (hwr : ft.write = some w) :
    ∃ o, FS_parse_write env buf size offset pn t = some o := by
  have hs : ∃ x, FS_parse_write_switch env buf size offset pn ft (env.FileLength pn)
      (env.OW_CACHE && env.IsLocalCacheEnabled pn && env.alloc t AllocSite.cbuf) t = some x := by
    unfold FS_parse_write_switch
    cases hf : ft.format <;> simp only [hwr] <;> (try split_ifs) <;> exact ⟨_, rfl⟩
  obtain ⟨⟨r, text, t1⟩, hx⟩ := hs
  exact ⟨(r, cache_update env pn
    (env.OW_CACHE && env.IsLocalCacheEnabled pn && env.alloc t AllocSite.cbuf) text r t1),
    by simp only [FS_parse_write, hft, hx]⟩

/-- The loop of `FS_real_write`, from its first attempt on: at least one and
at most three attempts are made, every attempt but the last failed, the last
succeeded or was the third, and its outcome is the outcome of the loop. -/
theorem FS_real_write_tries_attempts (env : Env) (buf : Mem) (size : Nat) (offset : Int)
    (pn : parsedname) (ft : filetype) (w : write_union) (t : Trace)
    (hft : pn.ft = some ft) (hwr : ft.write = some w) :
    ∃ outcomes : List (Int × Trace), attempts_chain env buf size offset pn 0 t outcomes ∧
      1 ≤ outcomes.length ∧ outcomes.length ≤ 3 ∧
      (∀ o ∈ outcomes.dropLast, o.1 ≠ 0) ∧
      (∃ o, outcomes.getLast? = some o ∧ (o.1 = 0 ∨ outcomes.length = 3) ∧
        FS_real_write_tries env buf size offset pn 3 0 0 t = some o) := by
  obtain ⟨⟨r1, t1⟩, h1⟩ := FS_parse_write_returns env buf size offset pn ft w
    (t ++ [Event.stat (Counter.write_tries 0)]) hft hwr
  obtain ⟨⟨r2, t2⟩, h2⟩ := FS_parse_write_returns env buf size offset pn ft w
    (t1 ++ [Event.stat (Counter.write_tries 1)]) hft hwr
  obtain ⟨⟨r3, t3⟩, h3⟩ := FS_parse_write_returns env buf size offset pn ft w
    (t2 ++ [Event.stat (Counter.write_tries 2)]) hft hwr
  by_cases hr1 : r1 = 0
  · refine ⟨[(r1, t1)], ⟨h1, trivial⟩, by simp, by simp, by simp, (r1, t1), rfl, Or.inl hr1, ?_⟩
    simp [FS_real_write_tries, h1, hr1]
  · by_cases hr2 : r2 = 0
    · refine ⟨[(r1, t1), (r2, t2)], ⟨h1, h2, trivial⟩, by simp, by simp, by simpa using hr1,
        (r2, t2), rfl, Or.inl hr2, ?_⟩
      simp [FS_real_write_tries, h1, hr1, h2, hr2]
    · refine ⟨[(r1, t1), (r2, t2), (r3, t3)], ⟨h1, h2, h3, trivial⟩, by simp, by simp, ?_,
        (r3, t3), rfl, Or.inr rfl, ?_⟩
      · intro o ho
        simp at ho
        rcases ho with rfl | rfl
        · exact hr1
        · exact hr2
      · by_cases hr3 : r3 = 0 <;> simp [FS_real_write_tries, h1, hr1, h2, hr2, h3, hr3]

/-- C31. `FS_real_write` on a property with a write handler. A write of a
single element (no aggregate, an extension below -1, or an element of a
property that is not aggregate-stored) makes at least one and at most three
attempts, attempt `i` incrementing `write_tries[i]` and then running
`FS_parse_write`; every attempt but the last returned non-zero, the last
returned 0 or was the third, and its outcome is what `FS_real_write` returns.
An element of an aggregate-stored property goes to `FS_w_split`, ALL of an
aggregate-stored or mixed property to `FS_gamish`, ALL of a separate property
to `FS_w_all`, each called once and its outcome returned as it is. -/
theorem FS_real_write_attempts (env : Env) (buf : Mem) (size : Nat) (offset : Int)
    (pn : parsedname) (ft : filetype) (w : write_union) (t : Trace)
    (hft : pn.ft = some ft) (hwr : ft.write = some w) :
    ((ft.ag = none ∨ pn.extension < -1 ∨
        (pn.extension > -1 ∧ ∀ ag, ft.ag = some ag → ag.combined ≠ .ag_aggregate)) →
      ∃ outcomes : List (Int × Trace), attempts_chain env buf size offset pn 0 t outcomes ∧
        1 ≤ outcomes.length ∧ outcomes.length ≤ 3 ∧
        (∀ o ∈ outcomes.dropLast, o.1 ≠ 0) ∧
        ∃ o, outcomes.getLast? = some o ∧ (o.1 = 0 ∨ outcomes.length = 3) ∧
          FS_real_write env buf size offset pn t = some o) ∧
    (∀ ag, ft.ag = some ag → ag.combined = .ag_aggregate → pn.extension > -1 →
      FS_real_write env buf size offset pn t = FS_w_split env buf size offset pn t) ∧
    (∀ ag, ft.ag = some ag → ag.combined ≠ .ag_separate → pn.extension = -1 →
      FS_real_write env buf size offset pn t = FS_gamish env buf size offset pn t) ∧
    (∀ ag, ft.ag = some ag → ag.combined = .ag_separate → pn.extension = -1 →
      FS_real_write env buf size offset pn t = FS_w_all env buf size offset pn t) := by
  have hwn : ft.write.isNone = false := by simp [hwr]
  refine ⟨?_, ?_, ?_, ?_⟩
  · intro hsingle
    have hd : FS_real_write env buf size offset pn t
        = FS_real_write_tries env buf size offset pn 3 0 0 t := by
      unfold FS_real_write
      simp only [hft, hwn, Bool.false_eq_true, if_false]
      cases hag : ft.ag with
      | none => rfl
      | some ag =>
        rcases hsingle with h | h | ⟨h, hc⟩
        · simp [hag] at h
        · have h1 : ¬ pn.extension > -1 := by omega
          have h2 : ¬ pn.extension = -1 := by omega
          cases hcomb : ag.combined <;> simp only [hcomb, h1, h2, if_false]
        · have h2 : ¬ pn.extension = -1 := by omega
          have hna := hc ag hag
          cases hcomb : ag.combined with
          | ag_aggregate => exact absurd hcomb hna
          | ag_mixed => simp only [hcomb, h2, if_false]
          | ag_separate => simp only [hcomb, h2, if_false]
    rw [hd]
    exact FS_real_write_tries_attempts env buf size offset pn ft w t hft hwr
  · intro ag hag hc hext
    simp only [FS_real_write, hft, hwn, hag, hc, hext, Bool.false_eq_true, if_false, if_true]
  · intro ag hag hc hext
    have h1 : ¬ pn.extension > -1 := by omega
    unfold FS_real_write
    simp only [hft, hwn, hag, Bool.false_eq_true, if_false]
    cases hcomb : ag.combined with
    | ag_aggregate =>
      simp only [hcomb, hext, if_true]
      exact if_neg (by decide)
    | ag_mixed => simp only [hcomb, hext, if_true]
    | ag_separate => exact absurd hcomb hc
  · intro ag hag hc hext
    simp only [FS_real_write, hft, hwn, hag, hc, hext, Bool.false_eq_true, if_false, if_true]

/-- C31 on the sample unsigned property: the text `x` does not parse, three
attempts are made and the result of the third, 1, is returned. -/
theorem FS_real_write_attempts_witness :
    ∃ outcomes : List (Int × Trace),
      attempts_chain (sample_env false (fun _ => none)) (cmem "x") 1 0 counter_pn 0 [] outcomes ∧
      1 ≤ outcomes.length ∧ outcomes.length ≤ 3 ∧
      (∀ o ∈ outcomes.dropLast, o.1 ≠ 0) ∧
      ∃ o, outcomes.getLast? = some o ∧ (o.1 = 0 ∨ outcomes.length = 3) ∧
        FS_real_write (sample_env false (fun _ => none)) (cmem "x") 1 0 counter_pn [] = some o :=
  (FS_real_write_attempts (sample_env false (fun _ => none)) (cmem "x") 1 0 counter_pn
    (sample_ft .ft_unsigned none) sample_write [] rfl rfl).1 (Or.inl rfl)

/-! ### Order of the steps of a read-modify-write -/

/-- Whether `FS_input_yesno` succeeds does not depend on the previous content
of `*result`. -/
theorem FS_input_yesno_status (r : Int) (buf : Mem) (size : Nat) :
    (FS_input_yesno r buf size).1 = (FS_input_yesno 0 buf size).1 := by
  unfold FS_input_yesno
  split_ifs <;> rfl

/-- The `switch` of `FS_w_split` for the formats integer, unsigned, yesno and
bitfield when the bulk read fails or the text does not parse: it fails, and
has called at most the read handler. -/
theorem FS_w_split_switch_unparsed (env : Env) (buf : Mem) (size : Nat) (offset : Int)
    (pn : parsedname) (ft : filetype) (rd : read_union) (elements : Nat) (ffl : Nat)
    (cbuf : Bool) (t : Trace) (hfmt : integral_format ft.format = true)
    (hfail : bulk_read_result rd ft.format t pn.extension < 0 ∨
      parse_result env ft.format buf size ≠ 0) :
    ∃ ret text t1, FS_w_split_switch env buf size offset pn ft rd elements ffl cbuf t
        = some (.inr (ret, text, t1)) ∧ ret ≠ 0 ∧
      (t1 = t ∨ ∃ m, t1 = t ++ [Event.read m pn.extension]) := by
  have h1 : (1 : Int) ≠ 0 := by decide
  have h2 : (-EADDRNOTAVAIL : Int) ≠ 0 := by decide
  have h3 : (-ENOMEM : Int) ≠ 0 := by decide
  unfold FS_w_split_switch
  cases hf : ft.format <;> simp [integral_format, hf] at hfmt <;>
    simp only [hf, bulk_read_result, parse_result] at hfail ⊢ <;>
    (try rw [FS_input_yesno_status]) <;>
    split_ifs <;>
    first
    | exact ⟨_, _, _, rfl, h1, Or.inl rfl⟩
    | exact ⟨_, _, _, rfl, h2, Or.inl rfl⟩
    | exact ⟨_, _, _, rfl, h3, Or.inl rfl⟩
    | exact ⟨_, _, _, rfl, h1, Or.inr ⟨_, rfl⟩⟩
    | (exfalso
       rcases hfail with h | h
       · omega
       · contradiction)

/-- The `switch` of `FS_w_split` for the formats integer, unsigned, yesno and
bitfield calls the write handler only at offset 0, after a bulk read with a
non-negative result and a text that parsed. -/
theorem FS_w_split_switch_written (env : Env) (buf : Mem) (size : Nat) (offset : Int)
    (pn : parsedname) (ft : filetype) (rd : read_union) (elements : Nat) (ffl : Nat)
    (cbuf : Bool) (t : Trace) (hfmt : integral_format ft.format = true)
    (ret : Int) (text : List Char) (t1 : Trace)
    (h : FS_w_split_switch env buf size offset pn ft rd elements ffl cbuf t
      = some (.inr (ret, text, t1))) :
    (t1 = t ∨ ∃ m, t1 = t ++ [Event.read m pn.extension]) ∨
    (offset = 0 ∧ 0 ≤ bulk_read_result rd ft.format t pn.extension ∧
      parse_result env ft.format buf size = 0 ∧
      ∃ m v, t1 = t ++ [Event.read m pn.extension] ++ [Event.write v pn.extension]) := by
  unfold FS_w_split_switch at h
  cases hf : ft.format <;> simp [integral_format, hf] at hfmt <;>
    simp only [hf, bulk_read_result, parse_result] at h ⊢ <;>
    (try rw [FS_input_yesno_status] at h) <;>
    split_ifs at h <;>
    first
    | (simp only [Option.some.injEq, Sum.inr.injEq, Prod.mk.injEq] at h
       first
       | exact Or.inl (Or.inl h.2.2.symm)
       | exact Or.inl (Or.inr ⟨_, h.2.2.symm⟩))
    | (cases hw : ft.write <;> simp only [hw] at h
       · simp at h
       · simp only [Option.some.injEq, Sum.inr.injEq, Prod.mk.injEq] at h
         refine Or.inr ⟨by omega, by omega, by omega, _, _, h.2.2.symm⟩)

/-- C32. Read-modify-write (`FS_w_split`) of one element of a property of
integer, unsigned, yesno or bitfield format with a read handler. If the bulk
read returns a negative result or the text does not parse, the call returns
`-EINVAL` and no write handler call is made. Whenever the write handler is
called, the offset is 0, the bulk read returned a non-negative result, the
text parsed, and the calls made are the bulk read, then the bulk write, then
calls that are no handler calls. -/
theorem FS_w_split_write_after_read (env : Env) (buf : Mem) (size : Nat) (offset : Int)
    (pn : parsedname) (ft : filetype) (ag : aggregate) (rd : read_union) (t : Trace)
    (hft : pn.ft = some ft) (hag : ft.ag = some ag) (hrd : ft.read = some rd)
    (hfmt : integral_format ft.format = true) :
    ((bulk_read_result rd ft.format t pn.extension < 0 ∨
        parse_result env ft.format buf size ≠ 0) →
      ∃ s, FS_w_split env buf size offset pn t = some (-EINVAL, t ++ s) ∧
        ∀ e ∈ s, e.is_handler_call = true → ∃ m, e = Event.read m pn.extension) ∧
    (∀ ret s v x, FS_w_split env buf size offset pn t = some (ret, t ++ s) →
      Event.write v x ∈ s →
      offset = 0 ∧ 0 ≤ bulk_read_result rd ft.format t pn.extension ∧
        parse_result env ft.format buf size = 0 ∧
        ∃ m tail, s = [Event.read m pn.extension, Event.write v pn.extension] ++ tail ∧
          ∀ e ∈ tail, e.is_handler_call = false) := by
  constructor
  · intro hfail
    obtain ⟨ret, text, t1, hs, hret, ht1⟩ := FS_w_split_switch_unparsed env buf size offset pn ft
      rd ag.elements (env.FullFileLength pn) (env.OW_CACHE && env.alloc t AllocSite.cbuf) t
      hfmt hfail
    obtain ⟨tail, hsplit, htail⟩ := FS_w_split_of_switch env buf size offset pn ft ag rd t ret
      text t1 hft hag hrd hs
    rw [if_pos hret] at hsplit
    rcases ht1 with rfl | ⟨m, rfl⟩
    · refine ⟨tail, hsplit, ?_⟩
      intro e he hc
      rw [htail e he] at hc
      exact absurd hc (by decide)
    · refine ⟨[Event.read m pn.extension] ++ tail, by rw [hsplit]; simp, ?_⟩
      intro e he hc
      rcases List.mem_append.mp he with h1 | h1
      · exact ⟨m, by simpa using h1⟩
      · rw [htail e h1] at hc
        exact absurd hc (by decide)
  · intro ret s v x h hmem
    have htr := (FS_w_split_switch_trace env buf size offset pn ft rd ag.elements
      (env.FullFileLength pn) (env.OW_CACHE && env.alloc t AllocSite.cbuf) t).1
    cases hs : FS_w_split_switch env buf size offset pn ft rd ag.elements
        (env.FullFileLength pn) (env.OW_CACHE && env.alloc t AllocSite.cbuf) t with
    | none => simp [FS_w_split, hft, hag, hrd, hs] at h
    | some y =>
      cases y with
      | inl z =>
        obtain ⟨r, t1⟩ := z
        have hasc := (htr r t1 hs).2.1
        rw [hasc] at hfmt
        exact absurd hfmt (by decide)
      | inr z =>
        obtain ⟨r, text, t1⟩ := z
        obtain ⟨tail, hsplit, htail⟩ := FS_w_split_of_switch env buf size offset pn ft ag rd t r
          text t1 hft hag hrd hs
        rw [hsplit] at h
        simp only [Option.some.injEq, Prod.mk.injEq] at h
        have hnw : Event.write v x ∉ tail := by
          intro hin
          have := htail _ hin
          simp [Event.is_handler_call] at this
        rcases FS_w_split_switch_written env buf size offset pn ft rd ag.elements
          (env.FullFileLength pn) (env.OW_CACHE && env.alloc t AllocSite.cbuf) t hfmt r text t1
          hs with (rfl | ⟨m, rfl⟩) | ⟨ho, hr, hp, m, v1, rfl⟩
        · have hst : s = tail := by simpa using h.2.symm
          rw [hst] at hmem
          exact absurd hmem hnw
        · have hst : s = [Event.read m pn.extension] ++ tail := by
            have := h.2.symm
            simpa using this
          rw [hst] at hmem
          simp at hmem
          exact absurd hmem hnw
        · have hst : s = [Event.read m pn.extension, Event.write v1 pn.extension] ++ tail := by
            have := h.2.symm
            simpa using this
          rw [hst] at hmem
          simp at hmem
          rcases hmem with ⟨rfl, rfl⟩ | hmem
          · exact ⟨ho, hr, hp, m, tail, hst, htail⟩
          · exact absurd hmem hnw

/-- C32 on element 1 of the sample integer aggregate whose bulk read fails:
the write of `7` returns `-EINVAL` and the write handler is not called. -/
theorem FS_w_split_write_after_read_witness :
    ∃ s, FS_w_split (sample_env false (fun _ => none)) (cmem "7") 1 0 (unreadable_pn 1) []
        = some (-EINVAL, [] ++ s) ∧
      ∀ e ∈ s, e.is_handler_call = true → ∃ m, e = Event.read m (unreadable_pn 1).extension :=
  (FS_w_split_write_after_read (sample_env false (fun _ => none)) (cmem "7") 1 0
    (unreadable_pn 1)
    { sample_ft .ft_integer (some ⟨3, .ag_aggregate⟩) with read := some refusing_read }
    ⟨3, .ag_aggregate⟩ refusing_read [] rfl rfl rfl rfl).1 (Or.inl (by decide))

/-! ### What a read-modify-write puts into the cache -/

/-- C33 fails: with the local cache enabled, the read-modify-write of `7` to
element 1 of the sample integer aggregate, whose bulk read returns 10, 20, 30,
succeeds and adds, under the name of element 1, the rendering `10,7,30` of
the whole array, also through `FS_real_write`; the single-element write of
`7` to the sample unsigned property adds the rendering `7` of the value
written. -/
theorem FS_w_split_caches_whole_array :
    FS_w_split (cache_env true) (cmem "7") 1 0 (aggregate_pn .ft_integer 1) []
      = some (0, [Event.read Member.i 1, Event.write (Val.i [10, 7, 30]) 1,
          Event.Cache_Add ['1', '0', ',', '7', ',', '3', '0'] 1]) ∧
    FS_real_write (cache_env true) (cmem "7") 1 0 (aggregate_pn .ft_integer 1) []
      = some (0, [Event.read Member.i 1, Event.write (Val.i [10, 7, 30]) 1,
          Event.Cache_Add ['1', '0', ',', '7', ',', '3', '0'] 1]) ∧
    FS_parse_write (cache_env true) (cmem "7") 1 0 counter_pn []
      = some (0, [Event.write (Val.u [7]) 0, Event.Cache_Add ['7'] 0]) := by
  refine ⟨?_, ?_, ?_⟩ <;> decide

/-! ### Presence cache -/

theorem presence_entries_append (s1 s2 : Trace) :
    presence_entries (s1 ++ s2) = presence_entries s1 ++ presence_entries s2 := by
  simp [presence_entries]

theorem presence_entries_none (s : Trace) (hs : ∀ e ∈ s, e.is_presence_add = false) :
    presence_entries s = [] := by
  induction s with
  | nil => rfl
  | cons e s ih =>
    have he := hs e (by simp)
    have hrest := ih (fun x hx => hs x (by simp [hx]))
    cases e <;> simp_all [presence_entries, Event.is_presence_add]

theorem no_presence_refl (t : Trace) : no_presence t t := ⟨[], by simp, by simp⟩

theorem no_presence_trans {t t1 t2 : Trace} (h1 : no_presence t t1) (h2 : no_presence t1 t2) :
    no_presence t t2 := by
  obtain ⟨s1, rfl, hs1⟩ := h1
  obtain ⟨s2, rfl, hs2⟩ := h2
  refine ⟨s1 ++ s2, by simp, ?_⟩
  intro e he
  rcases List.mem_append.mp he with h | h
  · exact hs1 e h
  · exact hs2 e h

theorem no_presence_one (t : Trace) (e : Event) (he : e.is_presence_add = false) :
    no_presence t (t ++ [e]) := ⟨[e], rfl, by simpa using he⟩

theorem no_presence_of_calls {t t' : Trace} (h : strategy_calls_only t t') :
    no_presence t t' := by
  obtain ⟨s, rfl, hs⟩ := h
  refine ⟨s, rfl, ?_⟩
  intro e he
  have := hs e he
  cases e <;> simp_all [Event.is_strategy_call, Event.is_presence_add]

/-- The body of `FS_write_seek` for one adapter makes no insertion into the
presence cache, and its early return is `-EROFS`. -/
theorem FS_write_seek_adapter_no_presence (env : Env) (buf : Mem) (size : Nat) (offset : Int)
    (pn : parsedname) (i : connection_in) (next : List connection_in) (t : Trace)
    (x : Sum (Int × Trace) (Int × Trace))
    (h : FS_write_seek_adapter env buf size offset pn i next t = some x) :
    no_presence t (Sum.elim Prod.snd Prod.snd x) ∧ ∀ r, x = .inl r → r.1 = -EROFS := by
  have hT := no_presence_one t (Event.TestConnection i.index) rfl
  unfold FS_write_seek_adapter at h
  by_cases h1 : env.TestConnection t { pn with in_ := i :: next } = 0
  · by_cases h2 : i.busmode = .bus_remote
    · simp only [h1, h2, ne_eq, not_true_eq_false, if_false, if_true, Option.some.injEq] at h
      subst h
      exact ⟨no_presence_trans hT (no_presence_one _ _ rfl), by simp⟩
    · cases h3 : env.readonly with
      | true =>
        simp only [h1, h2, h3, ne_eq, not_true_eq_false, if_false, if_true,
          Option.some.injEq] at h
        subst h
        refine ⟨hT, ?_⟩
        intro r hr
        simp only [Sum.inl.injEq] at hr
        rw [← hr]
      | false =>
        by_cases h4 : env.LockGet (t ++ [Event.TestConnection i.index])
            { pn with in_ := i :: next } = 0
        · simp only [h1, h2, h3, h4, ne_eq, not_true_eq_false, if_false, if_true,
            Bool.false_eq_true] at h
          cases hr : FS_real_write env buf size offset { pn with in_ := i :: next }
              (t ++ [Event.TestConnection i.index] ++ [Event.LockGet i.index]) with
          | none => simp only [hr] at h; exact absurd h (by simp)
          | some y =>
            obtain ⟨r, t3⟩ := y
            simp only [hr, Option.some.injEq] at h
            subst h
            have hc := FS_real_write_calls env buf size offset _ _ r t3 hr
            exact ⟨no_presence_trans hT (no_presence_trans
              (no_presence_one _ (Event.LockGet i.index) rfl)
              (no_presence_trans (no_presence_of_calls hc)
                (no_presence_one _ (Event.LockRelease i.index) rfl))), by simp⟩
        · simp only [h1, h2, h3, h4, ne_eq, not_true_eq_false, if_false,
            Bool.false_eq_true, Option.some.injEq] at h
          subst h
          exact ⟨no_presence_trans hT (no_presence_one _ _ rfl), by simp⟩
  · simp only [h1, ne_eq, not_false_eq_true, if_true, Option.some.injEq] at h
    subst h
    exact ⟨hT, by simp⟩

theorem presence_sound_of_none (env : Env) (buf : Mem) (size : Nat) (offset : Int)
    (pn : parsedname) (chain : List connection_in) {t t' : Trace} (h : no_presence t t') :
    presence_sound env buf size offset pn chain t t' := by
  obtain ⟨s, rfl, hs⟩ := h
  refine ⟨s, rfl, ?_⟩
  rw [presence_entries_none s hs]
  simp

theorem presence_sound_trans {env : Env} {buf : Mem} {size : Nat} {offset : Int}
    {pn : parsedname} {chain : List connection_in} {t t1 t2 : Trace}
    (h1 : presence_sound env buf size offset pn chain t t1)
    (h2 : presence_sound env buf size offset pn chain t1 t2) :
    presence_sound env buf size offset pn chain t t2 := by
  obtain ⟨s1, rfl, hs1⟩ := h1
  obtain ⟨s2, rfl, hs2⟩ := h2
  refine ⟨s1 ++ s2, by simp, ?_⟩
  intro k hk
  rw [presence_entries_append] at hk
  rcases List.mem_append.mp hk with h | h
  · exact hs1 k h
  · exact hs2 k h

theorem presence_sound_cons {env : Env} {buf : Mem} {size : Nat} {offset : Int}
    {pn : parsedname} {next : List connection_in} (i : connection_in) {t t' : Trace}
    (h : presence_sound env buf size offset pn next t t') :
    presence_sound env buf size offset pn (i :: next) t t' := by
  obtain ⟨s, rfl, hs⟩ := h
  refine ⟨s, rfl, ?_⟩
  intro k hk
  obtain ⟨hreal, j, nx, t0, t1, hsuf, hidx, hres⟩ := hs k hk
  exact ⟨hreal, j, nx, t0, t1, List.IsSuffix.trans hsuf (List.suffix_cons i next), hidx, hres⟩

/-- What `FS_write_seek` appends after the write on adapter `i` is a sound
presence entry or nothing. -/
theorem presence_sound_record (env : Env) (buf : Mem) (size : Nat) (offset : Int)
    (pn : parsedname) (i : connection_in) (next : List connection_in) (t0 t1 : Trace) (r : Int)
    (h : FS_write_seek_adapter env buf size offset pn i next t0 = some (.inr (r, t1))) :
    presence_sound env buf size offset pn (i :: next) t1
      (if pn.type = .pn_real ∧ r = 0 then t1 ++ [Event.Cache_Add_Device i.index] else t1) := by
  split_ifs with hc
  · refine ⟨[Event.Cache_Add_Device i.index], rfl, ?_⟩
    intro k hk
    have hk1 : k = i.index := by simpa [presence_entries] using hk
    obtain ⟨hreal, hr⟩ := hc
    subst hr
    exact ⟨hreal, i, next, t0, t1, List.suffix_refl _, hk1.symm, h⟩
  · exact presence_sound_of_none env buf size offset pn _ (no_presence_refl t1)

/-- In both builds and over any chain, every presence entry `FS_write_seek`
makes is for an adapter of the chain on which the write returned 0, the name
being in the real namespace. -/
theorem FS_write_seek_presence_sound (env : Env) (buf : Mem) (size : Nat) (offset : Int)
    (pn : parsedname) (chain : List connection_in) :
    ∀ (t : Trace) (ret : Int) (t' : Trace),
      FS_write_seek env buf size offset pn chain t = some (ret, t') →
      presence_sound env buf size offset pn chain t t' := by
  induction chain with
  | nil => intro t ret t' h; simp [FS_write_seek] at h
  | cons i next ih =>
    intro t ret t' h
    have hone : ∀ (e : Event) (u : Trace), e.is_presence_add = false →
        presence_sound env buf size offset pn (i :: next) u (u ++ [e]) :=
      fun e u he => presence_sound_of_none env buf size offset pn _ (no_presence_one u e he)
    rw [FS_write_seek] at h
    cases hmt : env.OW_MT with
    | true =>
      simp only [hmt, if_true] at h
      have h0 : presence_sound env buf size offset pn (i :: next) t
          (if (!pn.state_bus && !next.isEmpty) = true then t ++ [Event.pthread_create] else t) := by
        split_ifs
        · exact hone _ _ rfl
        · exact presence_sound_of_none env buf size offset pn _ (no_presence_refl t)
      generalize (if (!pn.state_bus && !next.isEmpty) = true then t ++ [Event.pthread_create]
        else t) = t0 at h h0
      generalize (!pn.state_bus && !next.isEmpty && decide (env.pthread_create t = 0)) = created
        at h
      have hw : ∀ wret tw, (if created = true then FS_write_seek env buf size offset pn next t0
          else some (0, t0)) = some (wret, tw) →
          presence_sound env buf size offset pn (i :: next) t tw := by
        intro wret tw hw
        cases created with
        | true =>
          simp only [if_true] at hw
          exact presence_sound_trans h0 (presence_sound_cons i (ih _ _ _ hw))
        | false =>
          simp only [Bool.false_eq_true, if_false, Option.some.injEq, Prod.mk.injEq] at hw
          rw [← hw.2]
          exact h0
      cases hx : (if created = true then FS_write_seek env buf size offset pn next t0
          else some (0, t0)) with
      | none => simp only [hx] at h; exact absurd h (by simp)
      | some y =>
        obtain ⟨wret, tw⟩ := y
        have hwk := hw wret tw hx
        simp only [hx] at h
        cases ha : FS_write_seek_adapter env buf size offset pn i next tw with
        | none => simp only [ha] at h; exact absurd h (by simp)
        | some x =>
          have hk := presence_sound_of_none env buf size offset pn (i :: next)
            (FS_write_seek_adapter_no_presence env buf size offset pn i next tw x ha).1
          cases x with
          | inl r =>
            simp only [ha, Option.some.injEq] at h
            subst h
            exact presence_sound_trans hwk hk
          | inr r =>
            obtain ⟨r1, t1⟩ := r
            simp only [ha] at h
            have h2 := presence_sound_trans (presence_sound_trans hwk hk)
              (presence_sound_record env buf size offset pn i next tw t1 r1 ha)
            generalize (if pn.type = .pn_real ∧ r1 = 0 then t1 ++ [Event.Cache_Add_Device i.index]
              else t1) = u at h h2
            split_ifs at h <;>
              simp only [Option.some.injEq, Prod.mk.injEq] at h <;>
              rw [← h.2] <;>
              first
              | exact h2
              | exact presence_sound_trans h2 (hone _ _ rfl)
    | false =>
      simp only [hmt, Bool.false_eq_true, if_false] at h
      cases ha : FS_write_seek_adapter env buf size offset pn i next t with
      | none => simp only [ha] at h; exact absurd h (by simp)
      | some x =>
        have hk := presence_sound_of_none env buf size offset pn (i :: next)
          (FS_write_seek_adapter_no_presence env buf size offset pn i next t x ha).1
        cases x with
        | inl r =>
          simp only [ha, Option.some.injEq] at h
          subst h
          exact hk
        | inr r =>
          obtain ⟨r1, t1⟩ := r
          simp only [ha] at h
          have h2 := presence_sound_trans hk
            (presence_sound_record env buf size offset pn i next t t1 r1 ha)
          generalize (if pn.type = .pn_real ∧ r1 = 0 then t1 ++ [Event.Cache_Add_Device i.index]
            else t1) = u at h h2
          split_ifs at h with hc
          · exact presence_sound_trans h2 (presence_sound_cons i (ih _ _ _ h))
          · simp only [Option.some.injEq, Prod.mk.injEq] at h
            rw [← h.2]
            exact h2

/-- The calls made while the write fails on a run of adapters contain no
insertion into the presence cache. -/
theorem failed_on_no_presence (env : Env) (buf : Mem) (size : Nat) (offset : Int)
    (pn : parsedname) (pre : List connection_in) :
    ∀ (rest : List connection_in) (t t0 : Trace),
      failed_on env buf size offset pn pre rest t t0 → no_presence t t0 := by
  induction pre with
  | nil =>
    intro rest t t0 h
    simp only [failed_on] at h
    rw [h]
    exact no_presence_refl t
  | cons i pre ih =>
    intro rest t t0 h
    obtain ⟨r, t1, _, ha, hrest⟩ := h
    exact no_presence_trans
      (FS_write_seek_adapter_no_presence env buf size offset pn i _ t _ ha).1 (ih rest t1 t0 hrest)

/-- The build without `OW_MT`: when `FS_write_seek` returns 0, the write
failed on a run of adapters at the head of the chain and returned 0 on the
adapter behind them, the one presence entry made is for that adapter, and it
is made in the real namespace only; when it returns non-zero, no presence
entry is made. -/
theorem FS_write_seek_first_success (env : Env) (buf : Mem) (size : Nat) (offset : Int)
    (pn : parsedname) (hmt : env.OW_MT = false) (chain : List connection_in) :
    ∀ (t : Trace) (ret : Int) (t' : Trace),
      FS_write_seek env buf size offset pn chain t = some (ret, t') →
      (ret = 0 → ∃ pre i post t0 t1 s, chain = pre ++ i :: post ∧
        failed_on env buf size offset pn pre (i :: post) t t0 ∧
        FS_write_seek_adapter env buf size offset pn i post t0 = some (.inr (0, t1)) ∧
        t' = (if pn.type = .pn_real then t1 ++ [Event.Cache_Add_Device i.index] else t1) ∧
        t' = t ++ s ∧
        presence_entries s = if pn.type = .pn_real then [i.index] else []) ∧
      (ret ≠ 0 → ∃ s, t' = t ++ s ∧ presence_entries s = []) := by
  induction chain with
  | nil => intro t ret t' h; simp [FS_write_seek] at h
  | cons i next ih =>
    intro t ret t' h
    rw [FS_write_seek] at h
    simp only [hmt, Bool.false_eq_true, if_false] at h
    cases ha : FS_write_seek_adapter env buf size offset pn i next t with
    | none => simp only [ha] at h; exact absurd h (by simp)
    | some x =>
      obtain ⟨hnp, hinl⟩ := FS_write_seek_adapter_no_presence env buf size offset pn i next t x ha
      cases x with
      | inl r =>
        simp only [ha, Option.some.injEq] at h
        have hr : ret = -EROFS := by
          have := hinl r rfl
          rw [h] at this
          exact this
        have hne : ret ≠ 0 := by rw [hr]; decide
        refine ⟨fun h0 => absurd h0 hne, fun _ => ?_⟩
        obtain ⟨s, hs, hns⟩ := hnp
        refine ⟨s, ?_, presence_entries_none s hns⟩
        rw [h] at hs
        exact hs
      | inr r =>
        obtain ⟨r1, t1⟩ := r
        simp only [ha] at h
        obtain ⟨s1, hs1, hns1⟩ := hnp
        simp only [Sum.elim_inr] at hs1
        by_cases hr1 : r1 = 0
        · subst hr1
          simp only [ne_eq, not_true_eq_false, false_and, if_false, and_true] at h
          have hret : ret = 0 := by
            simp only [Option.some.injEq, Prod.mk.injEq] at h
            exact h.1.symm
          have ht' : t' = (if pn.type = .pn_real then t1 ++ [Event.Cache_Add_Device i.index]
              else t1) := by
            simp only [Option.some.injEq, Prod.mk.injEq] at h
            exact h.2.symm
          refine ⟨fun _ => ?_, fun hne => absurd hret hne⟩
          refine ⟨[], i, next, t, t1,
            s1 ++ (if pn.type = .pn_real then [Event.Cache_Add_Device i.index] else []),
            rfl, rfl, ha, ht', ?_, ?_⟩
          · rw [ht', hs1]
            split_ifs <;> simp
          · rw [presence_entries_append, presence_entries_none s1 hns1]
            split_ifs <;> simp [presence_entries]
        · have hnr : ¬ (pn.type = .pn_real ∧ r1 = 0) := fun hx => hr1 hx.2
          simp only [hnr, if_false] at h
          by_cases hnext : next = []
          · have hc : ¬ (r1 ≠ 0 ∧ next ≠ []) := fun hx => hx.2 hnext
            simp only [hc, if_false, Option.some.injEq, Prod.mk.injEq] at h
            have hne : ret ≠ 0 := by rw [← h.1]; exact hr1
            refine ⟨fun h0 => absurd h0 hne, fun _ => ?_⟩
            exact ⟨s1, by rw [← h.2, hs1], presence_entries_none s1 hns1⟩
          · have hc : r1 ≠ 0 ∧ next ≠ [] := ⟨hr1, hnext⟩
            rw [if_pos hc] at h
            obtain ⟨ih0, ih1⟩ := ih t1 ret t' h
            constructor
            · intro hret
              obtain ⟨pre, j, post, t0, t2, s, hch, hfail, hj, ht', hts, hps⟩ := ih0 hret
              refine ⟨i :: pre, j, post, t0, t2, s1 ++ s, by rw [hch]; rfl, ?_, hj, ht', ?_, ?_⟩
              · refine ⟨r1, t1, hr1, ?_, hfail⟩
                rw [← hch]
                exact ha
              · rw [hts, hs1]
                simp
              · rw [presence_entries_append, presence_entries_none s1 hns1, hps]
                simp
            · intro hret
              obtain ⟨s, hts, hps⟩ := ih1 hret
              refine ⟨s1 ++ s, by rw [hts, hs1]; simp, ?_⟩
              rw [presence_entries_append, presence_entries_none s1 hns1, hps]
              simp

/-- The build with `OW_MT`: the write on the adapter at the head of the chain
is made after the thread for the adapters behind it, if one was created, has
run; the presence entry for the head adapter follows its write exactly when
the name is in the real namespace and the write returned 0, and only the
join of the thread may follow. -/
theorem FS_write_seek_threaded_head (env : Env) (buf : Mem) (size : Nat) (offset : Int)
    (pn : parsedname) (hmt : env.OW_MT = true) (i : connection_in) (next : List connection_in)
    (t : Trace) (ret : Int) (t' : Trace)
    (h : FS_write_seek env buf size offset pn (i :: next) t = some (ret, t')) :
    ∃ tw, (tw = t ∨ tw = t ++ [Event.pthread_create] ∨
        ∃ wret, FS_write_seek env buf size offset pn next (t ++ [Event.pthread_create])
          = some (wret, tw)) ∧
      (FS_write_seek_adapter env buf size offset pn i next tw = some (.inl (ret, t')) ∨
        ∃ r1 t1 s, FS_write_seek_adapter env buf size offset pn i next tw = some (.inr (r1, t1)) ∧
          t' = (if pn.type = .pn_real ∧ r1 = 0 then t1 ++ [Event.Cache_Add_Device i.index]
            else t1) ++ s ∧
          (s = [] ∨ s = [Event.pthread_join])) := by
  rw [FS_write_seek] at h
  simp only [hmt, if_true] at h
  cases htried : (!pn.state_bus && !next.isEmpty) with
  | false =>
    simp only [htried, Bool.false_and, Bool.false_eq_true, if_false] at h
    refine ⟨t, Or.inl rfl, ?_⟩
    cases ha : FS_write_seek_adapter env buf size offset pn i next t with
    | none => simp only [ha] at h; exact absurd h (by simp)
    | some x =>
      cases x with
      | inl r =>
        simp only [ha, Option.some.injEq] at h
        exact Or.inl (by rw [h])
      | inr r =>
        obtain ⟨r1, t1⟩ := r
        simp only [ha, Option.some.injEq, Prod.mk.injEq] at h
        exact Or.inr ⟨r1, t1, [], rfl, by rw [← h.2]; simp, Or.inl rfl⟩
  | true =>
    by_cases hpc : env.pthread_create t = 0
    · simp only [htried, hpc, decide_True, Bool.and_self, if_true] at h
      cases hw : FS_write_seek env buf size offset pn next (t ++ [Event.pthread_create]) with
      | none => simp only [hw] at h; exact absurd h (by simp)
      | some y =>
        obtain ⟨wret, tw⟩ := y
        simp only [hw] at h
        refine ⟨tw, Or.inr (Or.inr ⟨wret, rfl⟩), ?_⟩
        cases ha : FS_write_seek_adapter env buf size offset pn i next tw with
        | none => simp only [ha] at h; exact absurd h (by simp)
        | some x =>
          cases x with
          | inl r =>
            simp only [ha, Option.some.injEq] at h
            exact Or.inl (by rw [h])
          | inr r =>
            obtain ⟨r1, t1⟩ := r
            simp only [ha] at h
            refine Or.inr ⟨r1, t1, [Event.pthread_join], rfl, ?_, Or.inr rfl⟩
            generalize (if pn.type = .pn_real ∧ r1 = 0 then t1 ++ [Event.Cache_Add_Device i.index]
              else t1) = u at h ⊢
            split_ifs at h <;> simp only [Option.some.injEq, Prod.mk.injEq] at h <;>
              exact h.2.symm
    · simp only [htried, hpc, decide_False, Bool.and_false, Bool.false_eq_true, if_false,
        if_true] at h
      refine ⟨t ++ [Event.pthread_create], Or.inr (Or.inl rfl), ?_⟩
      cases ha : FS_write_seek_adapter env buf size offset pn i next
          (t ++ [Event.pthread_create]) with
      | none => simp only [ha] at h; exact absurd h (by simp)
      | some x =>
        cases x with
        | inl r =>
          simp only [ha, Option.some.injEq] at h
          exact Or.inl (by rw [h])
        | inr r =>
          obtain ⟨r1, t1⟩ := r
          simp only [ha, Option.some.injEq, Prod.mk.injEq] at h
          exact Or.inr ⟨r1, t1, [], rfl, by rw [← h.2]; simp, Or.inl rfl⟩

/-- C34. `FS_write_seek` and the presence cache. In both builds and over any
chain every presence entry made is for an adapter of the chain on which the
write returned 0, the name being in the real namespace, so a failed write
adds no entry for its adapter. Without `OW_MT`: when 0 is returned, the write
failed on the adapters addressed first and returned 0 on the next one, and
the one entry made, in the real namespace only, is for that adapter; when
non-zero is returned no entry is made. With `OW_MT`: the entry for the
adapter at the head of the chain follows the write on it exactly when the
name is in the real namespace and that write returned 0. -/
theorem FS_write_seek_presence (env : Env) (buf : Mem) (size : Nat) (offset : Int)
    (pn : parsedname) (chain : List connection_in) (t : Trace) (ret : Int) (t' : Trace)
    (h : FS_write_seek env buf size offset pn chain t = some (ret, t')) :
    presence_sound env buf size offset pn chain t t' ∧
    (env.OW_MT = false →
      (ret = 0 → ∃ pre i post t0 t1 s, chain = pre ++ i :: post ∧
        failed_on env buf size offset pn pre (i :: post) t t0 ∧
        FS_write_seek_adapter env buf size offset pn i post t0 = some (.inr (0, t1)) ∧
        t' = (if pn.type = .pn_real then t1 ++ [Event.Cache_Add_Device i.index] else t1) ∧
        t' = t ++ s ∧
        presence_entries s = if pn.type = .pn_real then [i.index] else []) ∧
      (ret ≠ 0 → ∃ s, t' = t ++ s ∧ presence_entries s = [])) ∧
    (env.OW_MT = true → ∀ i next, chain = i :: next →
      ∃ tw, (tw = t ∨ tw = t ++ [Event.pthread_create] ∨
          ∃ wret, FS_write_seek env buf size offset pn next (t ++ [Event.pthread_create])
            = some (wret, tw)) ∧
        (FS_write_seek_adapter env buf size offset pn i next tw = some (.inl (ret, t')) ∨
          ∃ r1 t1 s,
            FS_write_seek_adapter env buf size offset pn i next tw = some (.inr (r1, t1)) ∧
            t' = (if pn.type = .pn_real ∧ r1 = 0 then t1 ++ [Event.Cache_Add_Device i.index]
              else t1) ++ s ∧
            (s = [] ∨ s = [Event.pthread_join]))) := by
  refine ⟨FS_write_seek_presence_sound env buf size offset pn chain t ret t' h, ?_, ?_⟩
  · intro hmt
    exact FS_write_seek_first_success env buf size offset pn hmt chain t ret t' h
  · intro hmt i next hch
    rw [hch] at h
    exact FS_write_seek_threaded_head env buf size offset pn hmt i next t ret t' h

/-- C34 on the two sample adapters without `OW_MT`, the connection test of
adapter 0 failing: the write succeeds on adapter 1 and the one presence entry
made is for adapter 1. -/
theorem FS_write_seek_presence_witness :
    FS_write_seek (two_adapter_env false true) (cmem "17") 2 0 bound_pn two_adapters []
      = some (0, [Event.TestConnection 0, Event.TestConnection 1, Event.LockGet 1,
          Event.stat (Counter.write_tries 0), Event.write (Val.u [17]) 0, Event.LockRelease 1,
          Event.Cache_Add_Device 1]) ∧
    presence_entries [Event.TestConnection 0, Event.TestConnection 1, Event.LockGet 1,
        Event.stat (Counter.write_tries 0), Event.write (Val.u [17]) 0, Event.LockRelease 1,
        Event.Cache_Add_Device 1] = [1] ∧
    presence_sound (two_adapter_env false true) (cmem "17") 2 0 bound_pn two_adapters []
      [Event.TestConnection 0, Event.TestConnection 1, Event.LockGet 1,
        Event.stat (Counter.write_tries 0), Event.write (Val.u [17]) 0, Event.LockRelease 1,
        Event.Cache_Add_Device 1] :=
  ⟨by decide, by decide,
   (FS_write_seek_presence (two_adapter_env false true) (cmem "17") 2 0 bound_pn two_adapters []
      0 _ (by decide)).1⟩

/-! ### DS2890 charge pump, read back -/

/-- The mask `0x40` keeps bit 6 and nothing else. -/
theorem and_0x40 (x : Nat) : x &&& 0x40 = if x.testBit 6 then 0x40 else 0 := by
  have key : x &&& 2 ^ 6 = if x.testBit 6 then 2 ^ 6 else 0 := by
    apply Nat.eq_of_testBit_eq
    intro i
    rw [Nat.testBit_and, Nat.testBit_two_pow]
    cases hx : x.testBit 6
    · by_cases hi : 6 = i
      · subst hi
        simp [hx]
      · simp [hi]
    · by_cases hi : 6 = i
      · subst hi
        simp only [hx, decide_True, Bool.and_true, if_true]
        exact Nat.testBit_two_pow_self.symm
      · have h2 : Nat.testBit (2 ^ 6) i = false := Nat.testBit_two_pow_of_ne hi
        simp only [hi, decide_False, Bool.and_false, if_true]
        exact h2.symm
  have h64 : (2 : Nat) ^ 6 = 0x40 := by norm_num
  rw [h64] at key
  exact key

/-- C35. The chargepump read issues the transaction Start, Match `0xAA`,
Read 2 bytes, End, and when the transaction succeeds it returns 0 with a
yes/no value that is yes, rendered `1`, when bit 6 of the second response byte
is set and no, rendered `0`, when it is clear. So writing `v` in {0, 1} to a
device that stores the control byte and reading it back returns `v`: the
write and the read succeed, the value read is rendered as `v` is, that text
parses to `v`, and the value read, written again, sends the command bytes
that `v` sends. -/
theorem FS_r_cp_value (bus : Bus) (Y : Int) (feature control : Nat) (v : Int)
    (hbus : (bus [.TRXN_START, .trxn_match [0xAA], .trxn_read 2, .TRXN_END]).1 = 0)
    (hv : v = 0 ∨ v = 1) :
    (FS_r_cp bus Y).1 = 0 ∧
    (FS_r_cp bus Y).2.2 = [.TRXN_START, .trxn_match [0xAA], .trxn_read 2, .TRXN_END] ∧
    ((FS_r_cp bus Y).2.1 ≠ 0 ↔
      (resp1 (bus [.TRXN_START, .trxn_match [0xAA], .trxn_read 2, .TRXN_END])).testBit 6
        = true) ∧
    render_yesno (FS_r_cp bus Y).2.1
      = (if (resp1 (bus [.TRXN_START, .trxn_match [0xAA], .trxn_read 2, .TRXN_END])).testBit 6
          then ['1'] else ['0']) ∧
    (FS_w_cp (control_device feature control) v).1 = 0 ∧
    (FS_r_cp (control_device feature
        (control_after control (FS_w_cp (control_device feature control) v).2)) Y).1 = 0 ∧
    render_yesno (FS_r_cp (control_device feature
        (control_after control (FS_w_cp (control_device feature control) v).2)) Y).2.1
      = render_yesno v ∧
    FS_input_yesno 0 (cmem (String.mk (render_yesno (FS_r_cp (control_device feature
        (control_after control (FS_w_cp (control_device feature control) v).2)) Y).2.1))) 1
      = (0, v) ∧
    ∀ other : Bus, (FS_w_cp other (FS_r_cp (control_device feature
        (control_after control (FS_w_cp (control_device feature control) v).2)) Y).2.1).2
      = (FS_w_cp other v).2 := by
  have hread : FS_r_cp bus Y
      = (0, if (resp1 (bus [.TRXN_START, .trxn_match [0xAA], .trxn_read 2,
              .TRXN_END])).testBit 6 then 64 else 0,
          [.TRXN_START, .trxn_match [0xAA], .trxn_read 2, .TRXN_END]) := by
    simp only [FS_r_cp, OW_r_cp, hbus, ne_eq, not_true_eq_false, if_false, and_0x40]
    split_ifs <;> rfl
  have hback : FS_r_cp (control_device feature
        (control_after control (FS_w_cp (control_device feature control) v).2)) Y
      = (0, 64 * v, [.TRXN_START, .trxn_match [0xAA], .trxn_read 2, .TRXN_END]) := by
    rcases hv with rfl | rfl <;>
      simp [FS_r_cp, OW_r_cp, FS_w_cp, OW_w_cp, control_device, control_after, resp1, stored,
        to_byte] <;> decide
  rw [hread, hback]
  refine ⟨rfl, rfl, ?_, ?_, ?_, rfl, ?_, ?_, ?_⟩
  · split_ifs with hb <;> simp [hb]
  · split_ifs with hb <;> simp [render_yesno]
  · rcases hv with rfl | rfl <;>
      simp [FS_w_cp, OW_w_cp, control_device, resp0, stored, to_byte]
  · rcases hv with rfl | rfl <;> decide
  · rcases hv with rfl | rfl <;> decide
  · intro other
    rcases hv with rfl | rfl <;> simp [FS_w_cp, OW_w_cp]

/-- C35 on a device whose control register is clear: the value 1 is written,
and the value read back is rendered `1`. -/
theorem FS_r_cp_value_witness :
    (FS_w_cp (control_device 0 0) 1).1 = 0 ∧
    (FS_r_cp (control_device 0 (control_after 0 (FS_w_cp (control_device 0 0) 1).2)) 0).1
      = 0 ∧
    render_yesno (FS_r_cp (control_device 0
        (control_after 0 (FS_w_cp (control_device 0 0) 1).2)) 0).2.1 = ['1'] :=
  ⟨(FS_r_cp_value (control_device 0 0) 0 0 0 1 (by decide) (Or.inr rfl)).2.2.2.2.1,
   (FS_r_cp_value (control_device 0 0) 0 0 0 1 (by decide) (Or.inr rfl)).2.2.2.2.2.1,
   (FS_r_cp_value (control_device 0 0) 0 0 0 1 (by decide)
      (Or.inr rfl)).2.2.2.2.2.2.1.trans (by decide)⟩

/-! ### Texts that do not parse -/

/-- A single-element write at offset 0 whose text does not parse returns 1
after the cache block for a failure, without any other call. -/
theorem FS_parse_write_unparsed (env : Env) (buf : Mem) (size : Nat) (pn : parsedname)
    (ft : filetype) (t : Trace) (hft : pn.ft = some ft)
    (hfmt : scalar_text_format ft.format = true)
    (hparse : parse_result env ft.format buf size ≠ 0) :
    FS_parse_write env buf size 0 pn t = some (1, t ++ cache_del_events env pn) := by
  have h1 : (1 : Int) ≠ 0 := by decide
  cases hf : ft.format <;> simp [scalar_text_format, integral_format, hf] at hfmt <;>
    simp only [hf, parse_result] at hparse <;>
    simp [FS_parse_write, FS_parse_write_switch, hft, hf, hparse, cache_update, h1,
      cache_del_events] <;> split_ifs <;> simp

/-- The empty input does not parse as an integer, an unsigned or a yes/no
value. -/
theorem parse_result_empty (env : Env) (f : ft_format) (buf : Mem)
    (hfmt : integral_format f = true) : parse_result env f buf 0 = 1 := by
  cases f <;> simp [integral_format] at hfmt <;> rfl

/-- A text without a digit behind its white space and sign does not parse as
an integer or an unsigned. -/
theorem parse_result_no_digits (env : Env) (f : ft_format) (buf : Mem) (size : Nat)
    (hfmt : f = .ft_integer ∨ f = .ft_unsigned ∨ f = .ft_bitfield)
    (hnone : (subject (cstr (bytes buf size))).2.2 = []) : parse_result env f buf size = 1 := by
  rcases hs : subject (cstr (bytes buf size)) with ⟨k, neg, ds⟩
  rw [hs] at hnone
  simp only at hnone
  subst hnone
  rcases hfmt with rfl | rfl | rfl <;>
    simp [parse_result, FS_input_integer, FS_input_unsigned, strtol, strtoul, hs]

/-- A text whose first byte is, ignoring case, none of `0`, `1`, `o`, `y`,
`n` does not parse as a yes/no value. -/
theorem parse_result_no_word (env : Env) (buf : Mem) (size : Nat)
    (hfirst : tolower (buf 0) ∉ ['0', '1', 'o', 'y', 'n']) :
    parse_result env .ft_yesno buf size = 1 := by
  have hon : strncasecmp (cmem "on") buf 2 = 0 ↔ tolower (buf 0) = 'o' ∧ tolower (buf 1) = 'n' :=
    strncasecmp_two _ _ _ _ (by decide) (by decide) (by decide)
  have hyes : strncasecmp (cmem "yes") buf 2 = 0 ↔
      tolower (buf 0) = 'y' ∧ tolower (buf 1) = 'e' :=
    strncasecmp_two _ _ _ _ (by decide) (by decide) (by decide)
  have hoff : strncasecmp (cmem "off") buf 2 = 0 ↔
      tolower (buf 0) = 'o' ∧ tolower (buf 1) = 'f' :=
    strncasecmp_two _ _ _ _ (by decide) (by decide) (by decide)
  have hno : strncasecmp (cmem "no") buf 2 = 0 ↔ tolower (buf 0) = 'n' ∧ tolower (buf 1) = 'o' :=
    strncasecmp_two _ _ _ _ (by decide) (by decide) (by decide)
  simp only [List.mem_cons, List.mem_singleton, List.not_mem_nil, or_false, not_or] at hfirst
  obtain ⟨h0, h1, ho, hy, hn⟩ := hfirst
  have e0 : buf 0 ≠ '0' := fun h => h0 (by rw [h]; decide)
  have e1 : buf 0 ≠ '1' := fun h => h1 (by rw [h]; decide)
  simp only [parse_result, FS_input_yesno, hon, hyes, hoff, hno, e0, e1, ho, hy, hn, false_and,
    or_self, if_false]
  split_ifs <;> rfl

/-- C36. A single-element write (`FS_parse_write`) of integer, unsigned,
bitfield, yesno or float format at offset 0: when the scalar parser of the
format returns non-zero, the write returns 1 and no handler is called. The
parser returns non-zero on the empty input (integer, unsigned, bitfield,
yesno), on a text without a digit behind its white space and sign (integer,
unsigned, bitfield), and on a text whose first byte is, ignoring case, none
of `0`, `1`, `o`, `y`, `n` (yesno). -/
theorem FS_parse_write_rejects_unparsed (env : Env) (buf : Mem) (size : Nat) (pn : parsedname)
    (ft : filetype) (t : Trace) (hft : pn.ft = some ft)
    (hfmt : scalar_text_format ft.format = true) :
    (parse_result env ft.format buf size ≠ 0 →
      ∃ s, FS_parse_write env buf size 0 pn t = some (1, t ++ s) ∧
        ∀ e ∈ s, e.is_handler_call = false) ∧
    (integral_format ft.format = true → size = 0 → parse_result env ft.format buf size ≠ 0) ∧
    (ft.format = .ft_integer ∨ ft.format = .ft_unsigned ∨ ft.format = .ft_bitfield →
      (subject (cstr (bytes buf size))).2.2 = [] → parse_result env ft.format buf size ≠ 0) ∧
    (ft.format = .ft_yesno → tolower (buf 0) ∉ ['0', '1', 'o', 'y', 'n'] →
      parse_result env ft.format buf size ≠ 0) := by
  have h1 : (1 : Int) ≠ 0 := by decide
  refine ⟨?_, ?_, ?_, ?_⟩
  · intro hparse
    refine ⟨cache_del_events env pn,
      FS_parse_write_unparsed env buf size pn ft t hft hfmt hparse, ?_⟩
    intro e he
    unfold cache_del_events at he
    split_ifs at he
    · have : e = Event.Cache_Del pn.extension := by simpa using he
      rw [this]
      rfl
    · simp at he
  · intro hi hs
    rw [hs, parse_result_empty env ft.format buf hi]
    exact h1
  · intro hf hnone
    rw [parse_result_no_digits env ft.format buf size hf hnone]
    exact h1
  · intro hf hfirst
    rw [hf, parse_result_no_word env buf size hfirst]
    exact h1

/-- C36 on the sample unsigned property: the text `xy` has no digit, the
write returns 1 and nothing is called. -/
theorem FS_parse_write_rejects_unparsed_witness :
    parse_result (sample_env false (fun _ => none)) .ft_unsigned (cmem "xy") 2 ≠ 0 ∧
    ∃ s, FS_parse_write (sample_env false (fun _ => none)) (cmem "xy") 2 0 counter_pn []
        = some (1, [] ++ s) ∧
      ∀ e ∈ s, e.is_handler_call = false :=
  ⟨by decide,
   (FS_parse_write_rejects_unparsed (sample_env false (fun _ => none)) (cmem "xy") 2 counter_pn
      (sample_ft .ft_unsigned none) [] rfl rfl).1 (by decide)⟩

/-! ### The adapter `FS_w_overdrive` tests -/

/-- C37 fails: on the sample table, 1 written to bus 1, no DS9490, through a
name on bus 0, a DS9490, is accepted and makes bus 1 flexible; 1 written to
bus 0, a DS9490, through a name on bus 1 is refused with `-ENOTSUP`. The
adapter tested is the one of the name, not the one modified. -/
theorem FS_w_overdrive_tests_other_adapter :
    FS_w_overdrive sample_find 1 1 (some 0) sample_adapters
      = some (0, [⟨.adapter_DS9490, .ONEWIREBUSSPEED_REGULAR⟩,
          ⟨.adapter_other, .ONEWIREBUSSPEED_FLEXIBLE⟩]) ∧
    FS_w_overdrive sample_find 1 0 (some 1) sample_adapters
      = some (-ENOTSUP, sample_adapters) := by
  decide

/-! ### Narrowing of the parsed number -/

/-- C38 fails: `FS_input_integer` returns 0 for the text `4294967297` and
stores 1, and for the text `2147483648` and stores -2147483648;
`FS_input_unsigned` returns 0 for the text `4294967296` and stores 0. Only a
number outside the range of `long` is rejected, as `9223372036854775808` and
`18446744073709551616` are. -/
theorem FS_input_integer_stores_reduced :
    FS_input_integer (cmem "4294967297") 10 = (0, 1) ∧
    FS_input_integer (cmem "2147483648") 10 = (0, -2147483648) ∧
    FS_input_unsigned (cmem "4294967296") 10 = (0, 0) ∧
    (FS_input_integer (cmem "9223372036854775808") 19).1 = 1 ∧
    (FS_input_unsigned (cmem "18446744073709551616") 20).1 = 1 := by
  refine ⟨?_, ?_, ?_, ?_, ?_⟩ <;> decide

/-! ### Array fields that no comma ends -/

/-- A `memchr` for a byte that does not occur at or behind `p` finds nothing,
however many bytes it is given. -/
theorem memchr_none (buf : Mem) (c : Char) :
    ∀ (n p : Nat), (∀ q, p ≤ q → buf q ≠ c) → memchr buf c p n = none := by
  intro n
  induction n with
  | zero =>
    intro p _
    simp [memchr]
  | succ n ih =>
    intro p h
    rw [memchr, if_neg (h p (Nat.le_refl p))]
    exact ih (p + 1) (fun q hq => h q (by omega))

/-- The field at `first`, with more than two bytes of input left and no comma
at or behind it in memory: the search does not return. -/
theorem field_end_fault (buf : Mem) (endp first : Int) (hlen : first - endp + 1 < 0)
    (h : ∀ q, first.toNat ≤ q → buf q ≠ ',') : field_end buf endp first = none := by
  simp [field_end, memchr_none buf ',' _ _ h, hlen]

/-- The memory of a text holds no comma behind the text. -/
theorem cmem_no_comma (s : String) (p : Nat)
    (hs : ∀ q, p ≤ q → q < s.toList.length → s.toList.getD q NUL ≠ ',') :
    ∀ q, p ≤ q → cmem s q ≠ ',' := by
  intro q hq
  by_cases hlt : q < s.toList.length
  · exact hs q hq hlt
  · have hd : cmem s q = NUL := by
      unfold cmem
      exact List.getD_eq_default _ _ (by omega)
    rw [hd]
    decide

/-- `FS_input_unsigned_array` does not return when the search for the end of
its second field does not. -/
theorem FS_input_unsigned_array_loop_fault (buf : Mem) (endp : Int) (k i : Nat)
    (next next1 : Int) (results : List Nat) (h1 : next ≤ endp)
    (h2 : field_end buf endp next = some next1) (h3 : next1 + 1 ≤ endp)
    (h4 : field_end buf endp (next1 + 1) = none) :
    FS_input_unsigned_array_loop buf endp (k + 2) i next results = none := by
  simp only [FS_input_unsigned_array_loop, h1, h2, h3, h4, if_true]

/-- `FS_input_integer_array` does not return when the search for the end of
its second field does not. -/
theorem FS_input_integer_array_loop_fault (buf : Mem) (endp : Int) (k i : Nat)
    (next next1 : Int) (results : List Int) (h1 : next ≤ endp)
    (h2 : field_end buf endp next = some next1) (h3 : next1 + 1 ≤ endp)
    (h4 : field_end buf endp (next1 + 1) = none) :
    FS_input_integer_array_loop buf endp (k + 2) i next results = none := by
  simp only [FS_input_integer_array_loop, h1, h2, h3, h4, if_true]

/-- `FS_input_yesno_array` does not return when the search for the end of its
second field does not. -/
theorem FS_input_yesno_array_loop_fault (buf : Mem) (endp : Int) (k i : Nat)
    (next next1 : Int) (results : List Int) (h1 : next ≤ endp)
    (h2 : field_end buf endp next = some next1) (h3 : next1 + 1 ≤ endp)
    (h4 : field_end buf endp (next1 + 1) = none) :
    FS_input_yesno_array_loop buf endp (k + 2) i next results = none := by
  simp only [FS_input_yesno_array_loop, h1, h2, h3, h4, if_true]

/-- An ALL write of an unsigned property whose array parser does not return
does not return. -/
theorem FS_gamish_unsigned_fault (env : Env) (buf : Mem) (size : Nat) (pn : parsedname)
    (ft : filetype) (ag : aggregate) (t : Trace)
    (hft : pn.ft = some ft) (hag : ft.ag = some ag) (hf : ft.format = .ft_unsigned)
    (halloc : env.alloc t AllocSite.values = true)
    (h : FS_input_unsigned_array (List.replicate ag.elements 0) buf size ag.elements = none) :
    FS_gamish env buf size 0 pn t = none := by
  simp [FS_gamish, hft, hag, FS_gamish_switch, hf, halloc, h]

/-- `FS_real_write` hands ALL of a property stored as aggregate to
`FS_gamish`. -/
theorem FS_real_write_all_gamish (env : Env) (buf : Mem) (size : Nat) (offset : Int)
    (pn : parsedname) (ft : filetype) (ag : aggregate) (t : Trace)
    (hft : pn.ft = some ft) (hag : ft.ag = some ag) (hcomb : ag.combined = .ag_aggregate)
    (hwr : ft.write.isNone = false) (hext : pn.extension = -1) :
    FS_real_write env buf size offset pn t = FS_gamish env buf size offset pn t := by
  simp [FS_real_write, hft, hwr, hag, hcomb, hext]

/-- C39 fails: the array parsers do not return for every input. On the text
`1,200` (size 5) the field `200` has three bytes and no comma behind it, so
`memchr` is given the length `(size_t)(first-end+1)`, which is `2^64 - 1`, and
leaves the memory of the process: `FS_input_unsigned_array` and
`FS_input_integer_array` do not return, nor does `FS_input_yesno_array` on
`1,yes`, nor the ALL write through `FS_gamish` and `FS_real_write`. With a
comma behind the field the same parsers return 0: the text `1,200,` is stored
as 1, 200, and in `7,x,3,` the field `x`, which does not parse, is stored as 0
at index 1 and handed so to the write handler, whereas the single-element
write of `x` returns 1 without a call of the handler. -/
theorem FS_input_array_long_field_faults :
    FS_input_unsigned_array [0, 0] (cmem "1,200") 5 2 = none ∧
    FS_input_integer_array [0, 0] (cmem "1,200") 5 2 = none ∧
    FS_input_yesno_array [0, 0] (cmem "1,yes") 5 2 = none ∧
    FS_gamish (sample_env false (fun _ => none)) (cmem "1,200") 5 0
      (aggregate_pn .ft_unsigned (-1)) [] = none ∧
    FS_real_write (sample_env false (fun _ => none)) (cmem "1,200") 5 0
      (aggregate_pn .ft_unsigned (-1)) [] = none ∧
    FS_input_unsigned_array [0, 0] (cmem "1,200,") 6 2 = some (0, [1, 200]) ∧
    FS_input_integer_array [0, 0, 0] (cmem "7,x,3,") 6 3 = some (0, [7, 0, 3]) ∧
    FS_real_write (sample_env false (fun _ => none)) (cmem "7,x,3,") 6 0
      (aggregate_pn .ft_integer (-1)) [] = some (0, [Event.write (Val.i [7, 0, 3]) (-1)]) ∧
    FS_parse_write (sample_env false (fun _ => none)) (cmem "x") 1 0
      (aggregate_pn .ft_integer 1) [] = some (1, []) := by
  have hc : ∀ q, 2 ≤ q → cmem "1,200" q ≠ ',' := by
    apply cmem_no_comma
    intro q h2 h5
    have h5' : q < 5 := h5
    interval_cases q <;> decide
  have hy : ∀ q, 2 ≤ q → cmem "1,yes" q ≠ ',' := by
    apply cmem_no_comma
    intro q h2 h5
    have h5' : q < 5 := h5
    interval_cases q <;> decide
  have h0 : field_end (cmem "1,200") 4 0 = some 1 := by decide
  have h2 : field_end (cmem "1,200") 4 (1 + 1) = none :=
    field_end_fault _ 4 (1 + 1) (by decide) hc
  have y0 : field_end (cmem "1,yes") 4 0 = some 1 := by decide
  have y2 : field_end (cmem "1,yes") 4 (1 + 1) = none :=
    field_end_fault _ 4 (1 + 1) (by decide) hy
  have hu3 : FS_input_unsigned_array (List.replicate 3 0) (cmem "1,200") 5 3 = none := by
    have hl := FS_input_unsigned_array_loop_fault (cmem "1,200") 4 1 0 0 1
      (List.replicate 3 0) (by decide) h0 (by decide) h2
    show (FS_input_unsigned_array_loop (cmem "1,200") 4 (1 + 2) 0 0
      (List.replicate 3 0)).map _ = none
    rw [hl]
    rfl
  have hg : FS_gamish (sample_env false (fun _ => none)) (cmem "1,200") 5 0
      (aggregate_pn .ft_unsigned (-1)) [] = none :=
    FS_gamish_unsigned_fault _ _ 5 _ (sample_ft .ft_unsigned (some ⟨3, .ag_aggregate⟩))
      ⟨3, .ag_aggregate⟩ [] rfl rfl rfl rfl hu3
  refine ⟨?_, ?_, ?_, hg, ?_, ?_, ?_, ?_, ?_⟩
  · have hl := FS_input_unsigned_array_loop_fault (cmem "1,200") 4 0 0 0 1 [0, 0]
      (by decide) h0 (by decide) h2
    show (FS_input_unsigned_array_loop (cmem "1,200") 4 (0 + 2) 0 0 [0, 0]).map _ = none
    rw [hl]
    rfl
  · have hl := FS_input_integer_array_loop_fault (cmem "1,200") 4 0 0 0 1 [0, 0]
      (by decide) h0 (by decide) h2
    show (FS_input_integer_array_loop (cmem "1,200") 4 (0 + 2) 0 0 [0, 0]).map _ = none
    rw [hl]
    rfl
  · have hl := FS_input_yesno_array_loop_fault (cmem "1,yes") 4 0 0 0 1 [0, 0]
      (by decide) y0 (by decide) y2
    show (FS_input_yesno_array_loop (cmem "1,yes") 4 (0 + 2) 0 0 [0, 0]).map _ = none
    rw [hl]
    rfl
  · rw [FS_real_write_all_gamish _ _ 5 0 _ (sample_ft .ft_unsigned (some ⟨3, .ag_aggregate⟩))
      ⟨3, .ag_aggregate⟩ [] rfl rfl rfl rfl rfl]
    exact hg
  · decide
  · decide
  · decide
  · decide

end Owfs
